import Mathlib

/-
Verification development for the h2 Forth-CPU toolchain (src/h2.c):
a shallow embedding of the instruction encoding, the virtual machine
(h2_run), the lexer, the recursive-descent parser, and the assembler
with its peephole optimizer, together with theorems checking the
specification claims against these definitions.

Machine integers are embedded as Nat with explicit reduction modulo
2^16 (uint16_t) or 2^32 (uint32_t) wherever C performs a conversion
or arithmetic that can wrap.  The 16-bit core memory is embedded as a
total function from word indices to cell values; C behavior is
undefined on out-of-range indices, so the total function agrees with
the C program on every defined execution.
-/

set_option maxRecDepth 100000

namespace H2

/-! ## Constants and instruction encoding

The numeric constants and encoding macros live in the header h2.h,
which is not part of src/.  They are modelled from the spec (sections
3 and 4.1): 16-bit cells, MAX_MEMORY of 32768 with MAX_MEMORY/2 cells
of core, 13-bit branch/call targets (hence MAX_PROGRAM = 8192), an
ALU instruction with prefix 011, five flag/field groups, and stack
delta codes {0,+1,-2,-1}.  The ALU opcode field must hold the 22
operation codes enumerated by the switch in h2_run, so it is the
5-bit field in bits 12:8 and the R-to-PC flag is bit 4.  START_ADDR
and the two stack start indices are not fixed numerically by the
spec; representative values (small positive start, stacks far from
user code inside the core array) are chosen here. -/

/-- Modelled from the spec: size of core memory in bytes (spec section 3). -/
def MAX_MEMORY : Nat := 32768

/-- Modelled from the spec: program counter range; branch targets are 13 bits. -/
def MAX_PROGRAM : Nat := 8192

/-- Modelled from the spec: start address of user code; memory below it is
filled with branches to it.  The spec fixes no numeric value; 8 is a
representative positive choice. -/
def START_ADDR : Nat := 8

/-- Modelled from the spec: initial data-stack pointer (fixed offset in core). -/
def VARIABLE_STACK_START : Nat := 8192

/-- Modelled from the spec: initial return-stack pointer (fixed offset in core). -/
def RETURN_STACK_START : Nat := 12288

/-- Modelled from the spec: the ESCAPE input byte causing immediate exit. -/
def ESCAPE : Nat := 27

def OP_BRANCH : Nat := 0x0000
def OP_0BRANCH : Nat := 0x2000
def OP_CALL : Nat := 0x4000
def OP_ALU_OP : Nat := 0x6000
def OP_LITERAL : Nat := 0x8000

def IS_LITERAL (i : Nat) : Prop := i &&& 0x8000 = 0x8000
def IS_BRANCH (i : Nat) : Prop := i &&& 0xE000 = 0x0000
def IS_0BRANCH (i : Nat) : Prop := i &&& 0xE000 = 0x2000
def IS_CALL (i : Nat) : Prop := i &&& 0xE000 = 0x4000
def IS_ALU_OP (i : Nat) : Prop := i &&& 0xE000 = 0x6000

instance (i : Nat) : Decidable (IS_LITERAL i) := by unfold IS_LITERAL; infer_instance
instance (i : Nat) : Decidable (IS_BRANCH i) := by unfold IS_BRANCH; infer_instance
instance (i : Nat) : Decidable (IS_0BRANCH i) := by unfold IS_0BRANCH; infer_instance
instance (i : Nat) : Decidable (IS_CALL i) := by unfold IS_CALL; infer_instance
instance (i : Nat) : Decidable (IS_ALU_OP i) := by unfold IS_ALU_OP; infer_instance

def ALU_OP (i : Nat) : Nat := (i >>> 8) &&& 0x1F
def DSTACK (i : Nat) : Nat := i &&& 0x3
def RSTACK (i : Nat) : Nat := (i >>> 2) &&& 0x3

def R_TO_PC : Nat := 0x10
def N_TO_ADDR_T : Nat := 0x20
def T_TO_R : Nat := 0x40
def T_TO_N : Nat := 0x80

def DELTA_0 : Nat := 0
def DELTA_1 : Nat := 1
def DELTA_N2 : Nat := 2
def DELTA_N1 : Nat := 3

def MK_DSTACK (d : Nat) : Nat := d
def MK_RSTACK (d : Nat) : Nat := d <<< 2
def MK_CODE (c : Nat) : Nat := c <<< 8

/-- Modelled from the spec: ALU operation codes, in the order of the 22
cases of the switch statement in h2_run (spec section 3 lists the same
operations in the same order). -/
def ALU_OP_T : Nat := 0
def ALU_OP_N : Nat := 1
def ALU_OP_T_PLUS_N : Nat := 2
def ALU_OP_T_AND_N : Nat := 3
def ALU_OP_T_OR_N : Nat := 4
def ALU_OP_T_XOR_N : Nat := 5
def ALU_OP_T_INVERT : Nat := 6
def ALU_OP_T_EQUAL_N : Nat := 7
def ALU_OP_N_LESS_T : Nat := 8
def ALU_OP_N_RSHIFT_T : Nat := 9
def ALU_OP_T_DECREMENT : Nat := 10
def ALU_OP_R : Nat := 11
def ALU_OP_T_LOAD : Nat := 12
def ALU_OP_N_LSHIFT_T : Nat := 13
def ALU_OP_DEPTH : Nat := 14
def ALU_OP_N_ULESS_T : Nat := 15
def ALU_OP_RDEPTH : Nat := 16
def ALU_OP_T_EQUAL_0 : Nat := 17
def ALU_OP_TX : Nat := 18
def ALU_OP_RX : Nat := 19
def ALU_OP_SAVE : Nat := 20
def ALU_OP_BYE : Nat := 21

/-- Modelled from the spec: composed instruction words for the primitive
operations (the CODE_x macros of h2.h). -/
def CODE_DUP : Nat := OP_ALU_OP ||| MK_CODE ALU_OP_T ||| T_TO_N ||| MK_DSTACK DELTA_1
def CODE_OVER : Nat := OP_ALU_OP ||| MK_CODE ALU_OP_N ||| T_TO_N ||| MK_DSTACK DELTA_1
def CODE_INVERT : Nat := OP_ALU_OP ||| MK_CODE ALU_OP_T_INVERT
def CODE_ADD : Nat := OP_ALU_OP ||| MK_CODE ALU_OP_T_PLUS_N ||| MK_DSTACK DELTA_N1
def CODE_SWAP : Nat := OP_ALU_OP ||| MK_CODE ALU_OP_N ||| T_TO_N
def CODE_NIP : Nat := OP_ALU_OP ||| MK_CODE ALU_OP_T ||| MK_DSTACK DELTA_N1
def CODE_DROP : Nat := OP_ALU_OP ||| MK_CODE ALU_OP_N ||| MK_DSTACK DELTA_N1
def CODE_EXIT : Nat := OP_ALU_OP ||| MK_CODE ALU_OP_T ||| R_TO_PC ||| MK_RSTACK DELTA_N1
def CODE_TOR : Nat :=
  OP_ALU_OP ||| MK_CODE ALU_OP_N ||| T_TO_R ||| MK_DSTACK DELTA_N1 ||| MK_RSTACK DELTA_1
def CODE_FROMR : Nat :=
  OP_ALU_OP ||| MK_CODE ALU_OP_R ||| T_TO_N ||| MK_DSTACK DELTA_1 ||| MK_RSTACK DELTA_N1
def CODE_RAT : Nat := OP_ALU_OP ||| MK_CODE ALU_OP_R ||| T_TO_N ||| MK_DSTACK DELTA_1
def CODE_LOAD : Nat := OP_ALU_OP ||| MK_CODE ALU_OP_T_LOAD
def CODE_STORE : Nat :=
  OP_ALU_OP ||| MK_CODE ALU_OP_N ||| N_TO_ADDR_T ||| MK_DSTACK DELTA_N2
def CODE_RSHIFT : Nat := OP_ALU_OP ||| MK_CODE ALU_OP_N_RSHIFT_T ||| MK_DSTACK DELTA_N1
def CODE_LSHIFT : Nat := OP_ALU_OP ||| MK_CODE ALU_OP_N_LSHIFT_T ||| MK_DSTACK DELTA_N1
def CODE_EQUAL : Nat := OP_ALU_OP ||| MK_CODE ALU_OP_T_EQUAL_N ||| MK_DSTACK DELTA_N1
def CODE_ULESS : Nat := OP_ALU_OP ||| MK_CODE ALU_OP_N_ULESS_T ||| MK_DSTACK DELTA_N1
def CODE_LESS : Nat := OP_ALU_OP ||| MK_CODE ALU_OP_N_LESS_T ||| MK_DSTACK DELTA_N1
def CODE_AND : Nat := OP_ALU_OP ||| MK_CODE ALU_OP_T_AND_N ||| MK_DSTACK DELTA_N1
def CODE_XOR : Nat := OP_ALU_OP ||| MK_CODE ALU_OP_T_XOR_N ||| MK_DSTACK DELTA_N1
def CODE_OR : Nat := OP_ALU_OP ||| MK_CODE ALU_OP_T_OR_N ||| MK_DSTACK DELTA_N1
def CODE_DEPTH : Nat := OP_ALU_OP ||| MK_CODE ALU_OP_DEPTH ||| T_TO_N ||| MK_DSTACK DELTA_1
def CODE_T_N1 : Nat := OP_ALU_OP ||| MK_CODE ALU_OP_T_DECREMENT
def CODE_RDEPTH : Nat :=
  OP_ALU_OP ||| MK_CODE ALU_OP_RDEPTH ||| T_TO_N ||| MK_DSTACK DELTA_1
def CODE_T_E0 : Nat := OP_ALU_OP ||| MK_CODE ALU_OP_T_EQUAL_0
def CODE_TX : Nat := OP_ALU_OP ||| MK_CODE ALU_OP_TX ||| MK_DSTACK DELTA_N1
def CODE_RX : Nat := OP_ALU_OP ||| MK_CODE ALU_OP_RX ||| T_TO_N ||| MK_DSTACK DELTA_1
def CODE_SAVE : Nat := OP_ALU_OP ||| MK_CODE ALU_OP_SAVE
def CODE_BYE : Nat := OP_ALU_OP ||| MK_CODE ALU_OP_BYE
def CODE_RDROP : Nat := OP_ALU_OP ||| MK_CODE ALU_OP_T ||| MK_RSTACK DELTA_N1

/-! ## Machine state and virtual machine (h2_new, h2_run) -/

/-- State of the simulated CPU, h2_t of h2.c: the core memory (a total
function standing for the uint16_t array of MAX_MEMORY/2 cells) and the
four registers. -/
structure h2_t where
  core : Nat → Nat
  pc : Nat
  tos : Nat
  sp : Nat
  rp : Nat

/-- Pointwise update of the core memory, the effect of a C array store. -/
def coreWrite (m : Nat → Nat) (i v : Nat) : Nat → Nat :=
  fun j => if j = i then v else m j

/-- Embedding of h2_new: pc at the start address, cells below it filled
with unconditional branches to it, stack pointers at their start values,
everything else zero (calloc). -/
def h2_new (start_address : Nat) : h2_t :=
  { core := fun i => if i < start_address then OP_BRANCH ||| start_address else 0
  , pc := start_address
  , tos := 0
  , sp := VARIABLE_STACK_START
  , rp := RETURN_STACK_START }

/-- Embedding of dpush: sp is incremented, the old tos is spilled to
core at the new sp, and tos becomes the pushed value. -/
def dpush (h : h2_t) (v : Nat) : h2_t :=
  let sp := (h.sp + 1) % 65536
  { h with sp := sp, core := coreWrite h.core sp h.tos, tos := v }

/-- Embedding of dpop: returns the old tos, reloads tos from core at sp,
and decrements sp (uint16_t wraparound). -/
def dpop (h : h2_t) : Nat × h2_t :=
  (h.tos, { h with tos := h.core h.sp, sp := (h.sp + 65535) % 65536 })

/-- Embedding of rpush. -/
def rpush (h : h2_t) (r : Nat) : h2_t :=
  let rp := (h.rp + 1) % 65536
  { h with rp := rp, core := coreWrite h.core rp r }

/-- Embedding of stack_delta: the fixed {0, +1, -2, -1} table in
two's-complement uint16_t representation. -/
def stack_delta (d : Nat) : Nat :=
  match d with
  | 0 => 0x0000
  | 1 => 0x0001
  | 2 => 0xFFFE
  | _ => 0xFFFF

/-- Host-side I/O state: pending input bytes (getch), emitted output
bytes (putch), and a count of SAVE callbacks.  An empty input list is
end of file. -/
structure io_t where
  inp : List Nat
  outp : List Nat
  saves : Nat
deriving DecidableEq

/-- Result of one execution step of the VM main loop. -/
inductive StepOut where
  | next (h : h2_t) (io : io_t)
  | bye (r : Nat) (io : io_t)
  | exited (io : io_t)

/-- Embedding of wrap_getch: none when the process exits (EOF or the
ESCAPE byte), otherwise the byte read and the rest of the input. -/
def wrap_getch (io : io_t) : Option (Nat × io_t) :=
  match io.inp with
  | [] => none
  | c :: r => if c = ESCAPE then none else some (c, { io with inp := r })

/-- Reinterpretation of a uint16_t bit pattern as int16_t, used by the
signed comparison ALU op. -/
def toInt16 (v : Nat) : Int :=
  if v % 65536 < 32768 then ((v % 65536 : Nat) : Int)
  else ((v % 65536 : Nat) : Int) - 65536

/-- Common tail of the ALU case of h2_run: stack pointer adjustment, the
three conditional transfers (which all store the old tos / old nos), and
the commit of the new tos and pc. -/
def aluTail (h : h2_t) (instruction dd rd nos npc tosN : Nat) (io : io_t) : StepOut :=
  let sp := (h.sp + dd) % 65536
  let rp := (h.rp + rd) % 65536
  let c0 := h.core
  let c1 := if instruction &&& T_TO_R ≠ 0 then coreWrite c0 rp h.tos else c0
  let c2 := if instruction &&& T_TO_N ≠ 0 then coreWrite c1 sp h.tos else c1
  let c3 := if instruction &&& N_TO_ADDR_T ≠ 0 then coreWrite c2 (h.tos >>> 1) nos else c2
  .next { core := c3, pc := npc, tos := tosN, sp := sp, rp := rp } io

/-- Embedding of one iteration of the h2_run main loop: fetch, decode by
prefix, execute.  Arithmetic on 16-bit quantities is reduced mod 2^16
exactly where the C uint16_t operations wrap. -/
def h2_step (h : h2_t) (io : io_t) : StepOut :=
  let instruction := h.core h.pc
  let literal := instruction &&& 0x7FFF
  let address := instruction &&& 0x1FFF
  let pc_plus_one := (h.pc + 1) % MAX_PROGRAM
  if IS_LITERAL instruction then
    .next { dpush h literal with pc := pc_plus_one } io
  else if IS_ALU_OP instruction then
    let rd := stack_delta (RSTACK instruction)
    let dd := stack_delta (DSTACK instruction)
    let nos := h.core h.sp
    let npc := if instruction &&& R_TO_PC ≠ 0 then h.core h.rp >>> 1 else pc_plus_one
    match ALU_OP instruction with
    | 0 => aluTail h instruction dd rd nos npc h.tos io
    | 1 => aluTail h instruction dd rd nos npc nos io
    | 2 => aluTail h instruction dd rd nos npc ((h.tos + nos) % 65536) io
    | 3 => aluTail h instruction dd rd nos npc (h.tos &&& nos) io
    | 4 => aluTail h instruction dd rd nos npc (h.tos ||| nos) io
    | 5 => aluTail h instruction dd rd nos npc (h.tos ^^^ nos) io
    | 6 => aluTail h instruction dd rd nos npc (h.tos ^^^ 0xFFFF) io
    | 7 => aluTail h instruction dd rd nos npc (if h.tos = nos then 0xFFFF else 0) io
    | 8 =>
      aluTail h instruction dd rd nos npc
        (if toInt16 nos < toInt16 h.tos then 0xFFFF else 0) io
    | 9 => aluTail h instruction dd rd nos npc (nos >>> h.tos) io
    | 10 => aluTail h instruction dd rd nos npc ((h.tos + 0xFFFF) % 65536) io
    | 11 => aluTail h instruction dd rd nos npc (h.core h.rp) io
    | 12 => aluTail h instruction dd rd nos npc (h.core (h.tos >>> 1)) io
    | 13 => aluTail h instruction dd rd nos npc ((nos <<< h.tos) % 65536) io
    | 14 =>
      aluTail h instruction dd rd nos npc
        ((h.sp + 65536 - VARIABLE_STACK_START) % 65536) io
    | 15 => aluTail h instruction dd rd nos npc (if nos < h.tos then 0xFFFF else 0) io
    | 16 =>
      aluTail h instruction dd rd nos npc
        ((h.rp + 65536 - RETURN_STACK_START) % 65536) io
    | 17 => aluTail h instruction dd rd nos npc (if h.tos = 0 then 0xFFFF else 0) io
    | 18 =>
      aluTail h instruction dd rd nos npc nos { io with outp := io.outp ++ [h.tos % 256] }
    | 19 =>
      match wrap_getch io with
      | none => .exited io
      | some (c, io2) => aluTail h instruction dd rd nos npc c io2
    | 20 => aluTail h instruction dd rd nos npc h.tos { io with saves := io.saves + 1 }
    | 21 => .bye h.tos io
    | _ => aluTail h instruction dd rd nos npc h.tos io
  else if IS_CALL instruction then
    .next { rpush h (pc_plus_one <<< 1) with pc := address } io
  else if IS_0BRANCH instruction then
    let (v, h2) := dpop h
    if v = 0 then .next { h2 with pc := address % MAX_PROGRAM } io
    else .next { h2 with pc := pc_plus_one } io
  else
    .next { h with pc := address } io

/-- Result of h2_run under a step budget. -/
inductive RunOut where
  | ret (r : Nat) (io : io_t)
  | exited (io : io_t)
  | fuelOut (h : h2_t) (io : io_t)

/-- Embedding of h2_run: iterate h2_step until a BYE op returns tos or
an input event exits the process.  The fuel argument only bounds the
number of iterations of the otherwise infinite C loop. -/
def h2_run (fuel : Nat) (h : h2_t) (io : io_t) : RunOut :=
  match fuel with
  | 0 => .fuelOut h io
  | f + 1 =>
    match h2_step h io with
    | .next h2 io2 => h2_run f h2 io2
    | .bye r io2 => .ret r io2
    | .exited io2 => .exited io2

/-- Iterated h2_step returning the machine state, for stating execution
effects of emitted code; none when the machine halted inside the budget. -/
def h2_steps (k : Nat) (h : h2_t) (io : io_t) : Option (h2_t × io_t) :=
  match k with
  | 0 => some (h, io)
  | k + 1 =>
    match h2_step h io with
    | .next h2 io2 => h2_steps k h2 io2
    | _ => none


/-! ## Symbol table -/

/-- Byte string of an identifier, as read by the C lexer (one Nat per
byte).  Helper to write identifiers readably. -/
def str2bytes (s : String) : List Nat := s.data.map Char.toNat

inductive symbol_type_e where
  | label
  | call
  | constant
  | variableSym
deriving DecidableEq

/-- Embedding of symbol_t; the value field is uint16_t, so it is reduced
mod 2^16 on construction. -/
structure symbol_t where
  id : List Nat
  value : Nat
  type : symbol_type_e
  hidden : Bool
deriving DecidableEq

structure symbol_table_t where
  symbols : List symbol_t
deriving DecidableEq

/-- Errors ending an assembly.  asmError is the long-range escape taken
by assembly_error / ethrow; fatalError stands for a failed C assert or a
call to fatal, which aborts the process. -/
inductive AsmErr where
  | asmError (msg : String)
  | fatalError (msg : String)
deriving DecidableEq

def symbol_table_lookup (t : symbol_table_t) (id : List Nat) : Option symbol_t :=
  t.symbols.find? (fun s => s.id == id)

def symbol_table_add (t : symbol_table_t) (type : symbol_type_e) (id : List Nat)
    (value : Nat) (hidden : Bool) : Except AsmErr symbol_table_t :=
  match symbol_table_lookup t id with
  | some _ => .error (.asmError "redefinition of symbol")
  | none => .ok ⟨t.symbols ++ [{ id := id, value := value % 65536, type := type, hidden := hidden }]⟩

/-! ## Assembler state and code emission -/

def MODE_NORMAL : Nat := 0
def MODE_COMPILE_WORD_HEADER : Nat := 1
def MODE_OPTIMIZATION_ON : Nat := 2

def DEFINE_HIDDEN : Nat := 1
def DEFINE_IMMEDIATE : Nat := 2
def DEFINE_INLINE : Nat := 4

/-- Embedding of assembler_t. -/
structure assembler_t where
  in_definition : Bool
  start_defined : Bool
  built_in_words_defined : Bool
  start : Nat
  mode : Nat
  pwd : Nat
  fence : Nat
  do_r_minus_one : Option symbol_t
  do_next : Option symbol_t
  do_var : Option symbol_t
  do_const : Option symbol_t

def update_fence (a : assembler_t) (pc : Nat) : assembler_t :=
  { a with fence := max a.fence pc }

/-- Embedding of generate, including the two peephole optimizations on
CODE_EXIT.  Appending emits at pc and increments it; h2.c increments a
uint16_t, which coincides with the Nat successor on every execution
whose writes stay inside the core array (beyond it the C program is
undefined). -/
def generate (h : h2_t) (a : assembler_t) (instruction : Nat) : h2_t × assembler_t :=
  let a1 :=
    if IS_CALL instruction ∨ IS_LITERAL instruction ∨ IS_0BRANCH instruction ∨
       IS_BRANCH instruction
    then update_fence a h.pc else a
  if a1.mode &&& MODE_OPTIMIZATION_ON ≠ 0 ∧ h.pc ≠ 0 then
    let previous := h.core (h.pc - 1)
    if h.pc - 1 > a1.fence ∧ IS_ALU_OP previous ∧ instruction = CODE_EXIT then
      if previous &&& R_TO_PC = 0 ∧ previous &&& MK_RSTACK DELTA_N1 = 0 then
        ({ h with core := coreWrite h.core (h.pc - 1) (previous ||| instruction) },
         update_fence a1 (h.pc - 1))
      else
        ({ h with core := coreWrite h.core h.pc instruction, pc := h.pc + 1 }, a1)
    else if h.pc > a1.fence ∧ IS_CALL previous ∧ instruction = CODE_EXIT then
      ({ h with core := coreWrite h.core (h.pc - 1) (OP_BRANCH ||| (previous &&& 0x1FFF)) },
       update_fence a1 (h.pc - 1))
    else
      ({ h with core := coreWrite h.core h.pc instruction, pc := h.pc + 1 }, a1)
  else
    ({ h with core := coreWrite h.core h.pc instruction, pc := h.pc + 1 }, a1)

/-- Embedding of here: asserts pc < MAX_PROGRAM, raises the fence to pc
and returns pc. -/
def here (h : h2_t) (a : assembler_t) : Except AsmErr (Nat × assembler_t) :=
  if h.pc < MAX_PROGRAM then .ok (h.pc, update_fence a h.pc)
  else .error (.fatalError "assert failed: pc < MAX_PROGRAM")

/-- Embedding of hole: here, then return the old pc and increment pc. -/
def hole (h : h2_t) (a : assembler_t) : Except AsmErr (Nat × h2_t × assembler_t) :=
  if h.pc < MAX_PROGRAM then
    .ok (h.pc, { h with pc := h.pc + 1 }, update_fence a h.pc)
  else .error (.fatalError "assert failed: pc < MAX_PROGRAM")

/-- Embedding of fix: asserts the hole index is in range and patches it. -/
def fix (h : h2_t) (holeAt patch : Nat) : Except AsmErr h2_t :=
  if holeAt < MAX_PROGRAM then .ok { h with core := coreWrite h.core holeAt patch }
  else .error (.fatalError "assert failed: hole < MAX_PROGRAM")

/-- Embedding of pack_16; both parameters are char sized in C and the
result is uint16_t. -/
def pack_16 (lb hb : Nat) : Nat := (((hb % 65536) <<< 8) ||| (lb % 65536)) % 65536

/-- Byte j of a C string embedded as a byte list: positions past the end
read the NUL terminator. -/
def byteAt (s : List Nat) (j : Nat) : Nat := s.getD j 0

/-- Loop of pack_string: for i = 1; i < l; i += 2 emit a cell packing
bytes i and i+1. -/
def pack_loop (h : h2_t) (a : assembler_t) (s : List Nat) (i l : Nat) :
    Except AsmErr (h2_t × assembler_t) :=
  if _hlt : i < l then
    match hole h a with
    | .error e => .error e
    | .ok (i2, h2, a2) =>
      pack_loop { h2 with core := coreWrite h2.core i2 (pack_16 (byteAt s i) (byteAt s (i + 1))) }
        a2 s (i + 2) l
  else .ok (h, a)
termination_by l - i
decreasing_by omega

/-- Embedding of pack_string: emits the length-prefixed packed name and
returns its start cell address. -/
def pack_string (h : h2_t) (a : assembler_t) (s : List Nat) :
    Except AsmErr (Nat × h2_t × assembler_t) :=
  let l := s.length
  let r := h.pc
  if l > 255 then .error (.asmError "string is too large")
  else
    match hole h a with
    | .error e => .error e
    | .ok (i1, h1, a1) =>
      match pack_loop { h1 with core := coreWrite h1.core i1 (pack_16 l (byteAt s 0)) } a1 s 1 l with
      | .error e => .error e
      | .ok (h2, a2) =>
        match here h2 a2 with
        | .error e => .error e
        | .ok (_, a3) => .ok (r, h2, a3)

/-- Kind of jump being generated, the parse_e argument of generate_jump
restricted to the three values assemble passes. -/
inductive JumpKind where
  | br
  | zbr
  | callJ
deriving DecidableEq

/-- Operand token of a statement, the part of token_t the assembler
reads: a 16-bit number (uint16_t union member), an identifier or a
string (both owned byte strings). -/
inductive Tok where
  | lit (number : Nat)
  | ident (id : List Nat)
  | str (id : List Nat)
deriving DecidableEq

/-- Reading the uint16_t union member p.number of a token. -/
def Tok.num : Tok → Nat
  | .lit n => n % 65536
  | _ => 0

/-- Reading the p.id union member of a token. -/
def Tok.name : Tok → List Nat
  | .lit _ => []
  | .ident id => id
  | .str id => id

/-- Tail of generate_jump after target resolution: range check and
emission of the composed jump word. -/
def generate_jump_tail (h : h2_t) (a : assembler_t) (addr : Nat) (type : JumpKind) :
    Except AsmErr (h2_t × assembler_t) :=
  if addr > MAX_PROGRAM then .error (.asmError "invalid jump address")
  else
    let orv :=
      match type with
      | .br => OP_BRANCH
      | .zbr => OP_0BRANCH
      | .callJ => OP_CALL
    .ok (generate h a (orv ||| addr))

/-- Embedding of generate_jump: resolve the target (identifier and
string targets through the symbol table, rejecting branch or 0branch to
a call-typed symbol; literal targets directly), then emit. -/
def generate_jump (h : h2_t) (a : assembler_t) (t : symbol_table_t) (tok : Tok)
    (type : JumpKind) : Except AsmErr (h2_t × assembler_t) :=
  match tok with
  | .ident id =>
    match symbol_table_lookup t id with
    | none => .error (.asmError "undefined symbol")
    | some s =>
      if s.type = symbol_type_e.call ∧ type ≠ JumpKind.callJ then
        .error (.asmError "cannot branch/0branch to call")
      else generate_jump_tail h a s.value type
  | .str id =>
    match symbol_table_lookup t id with
    | none => .error (.asmError "undefined symbol")
    | some s =>
      if s.type = symbol_type_e.call ∧ type ≠ JumpKind.callJ then
        .error (.asmError "cannot branch/0branch to call")
      else generate_jump_tail h a s.value type
  | .lit n => generate_jump_tail h a (n % 65536) type

/-- Embedding of generate_literal: one literal cell when bit 15 is
clear, otherwise the literal of the inverted value followed by
CODE_INVERT. -/
def generate_literal (h : h2_t) (a : assembler_t) (number : Nat) : h2_t × assembler_t :=
  if number &&& OP_LITERAL ≠ 0 then
    let number2 := number ^^^ 0xFFFF
    let (h1, a1) := generate h a (OP_LITERAL ||| number2)
    generate h1 a1 CODE_INVERT
  else
    generate h a (OP_LITERAL ||| number)

/-- Embedding of literal_or_symbol_lookup: literal tokens give their
number directly, identifiers are looked up (the C function returns
uint16_t); any other token type fails the C assert. -/
def literal_or_symbol_lookup (tok : Tok) (t : symbol_table_t) : Except AsmErr Nat :=
  match tok with
  | .lit n => .ok (n % 65536)
  | .ident id =>
    match symbol_table_lookup t id with
    | none => .error (.asmError "symbol not found")
    | some s => .ok s.value
  | .str _ => .error (.fatalError "assert failed: token type is LEX_IDENTIFIER")

/-- Embedding of symbol_special: the reserved names usable as the value
of a .set directive. -/
def symbol_special (h : h2_t) (a : assembler_t) (id : List Nat) : Except AsmErr Nat :=
  if id = str2bytes "$pc" then .ok ((h.pc <<< 1) % 65536)
  else if id = str2bytes "$pwd" then .ok a.pwd
  else .error (.asmError "not a symbol")

/-- Modelled from the spec: one entry of the built_in_words table; the
X_MACRO_INSTRUCTIONS list itself lives in the missing header h2.h. -/
structure built_in_words_t where
  name : List Nat
  len : Nat
  inline_bit : Bool
  hidden : Bool
  compile : Bool
  code : List Nat

/-- Modelled from the spec: the instruction mnemonics (standard eForth
primitives over the ALU operations listed in spec section 3, each one
cell, in-line-able and compiled) followed by the three hidden runtime
words doVar, doConst and r1- exactly as written in h2.c.  Only the dup
entry is load-bearing for the claims below. -/
def built_in_words : List built_in_words_t :=
  [ ⟨str2bytes "dup", 1, true, false, true, [CODE_DUP]⟩
  , ⟨str2bytes "over", 1, true, false, true, [CODE_OVER]⟩
  , ⟨str2bytes "invert", 1, true, false, true, [CODE_INVERT]⟩
  , ⟨str2bytes "+", 1, true, false, true, [CODE_ADD]⟩
  , ⟨str2bytes "swap", 1, true, false, true, [CODE_SWAP]⟩
  , ⟨str2bytes "nip", 1, true, false, true, [CODE_NIP]⟩
  , ⟨str2bytes "drop", 1, true, false, true, [CODE_DROP]⟩
  , ⟨str2bytes "exit", 1, true, false, true, [CODE_EXIT]⟩
  , ⟨str2bytes ">r", 1, true, false, true, [CODE_TOR]⟩
  , ⟨str2bytes "r>", 1, true, false, true, [CODE_FROMR]⟩
  , ⟨str2bytes "r@", 1, true, false, true, [CODE_RAT]⟩
  , ⟨str2bytes "@", 1, true, false, true, [CODE_LOAD]⟩
  , ⟨str2bytes "!", 1, true, false, true, [CODE_STORE]⟩
  , ⟨str2bytes "rshift", 1, true, false, true, [CODE_RSHIFT]⟩
  , ⟨str2bytes "lshift", 1, true, false, true, [CODE_LSHIFT]⟩
  , ⟨str2bytes "=", 1, true, false, true, [CODE_EQUAL]⟩
  , ⟨str2bytes "u<", 1, true, false, true, [CODE_ULESS]⟩
  , ⟨str2bytes "<", 1, true, false, true, [CODE_LESS]⟩
  , ⟨str2bytes "and", 1, true, false, true, [CODE_AND]⟩
  , ⟨str2bytes "xor", 1, true, false, true, [CODE_XOR]⟩
  , ⟨str2bytes "or", 1, true, false, true, [CODE_OR]⟩
  , ⟨str2bytes "depth", 1, true, false, true, [CODE_DEPTH]⟩
  , ⟨str2bytes "1-", 1, true, false, true, [CODE_T_N1]⟩
  , ⟨str2bytes "rdepth", 1, true, false, true, [CODE_RDEPTH]⟩
  , ⟨str2bytes "0=", 1, true, false, true, [CODE_T_E0]⟩
  , ⟨str2bytes "tx!", 1, true, false, true, [CODE_TX]⟩
  , ⟨str2bytes "rx?", 1, true, false, true, [CODE_RX]⟩
  , ⟨str2bytes "(save)", 1, true, false, true, [CODE_SAVE]⟩
  , ⟨str2bytes "(bye)", 1, true, false, true, [CODE_BYE]⟩
  , ⟨str2bytes "rdrop", 1, true, false, true, [CODE_RDROP]⟩
  , ⟨str2bytes "doVar", 1, false, true, true, [CODE_FROMR]⟩
  , ⟨str2bytes "doConst", 2, false, true, true, [CODE_FROMR, CODE_LOAD]⟩
  , ⟨str2bytes "r1-", 5, false, true, true,
      [CODE_FROMR, CODE_FROMR, CODE_T_N1, CODE_TOR, CODE_TOR]⟩ ]

/-- Embedding of generate_loop_decrement: caches the r1- symbol in the
assembler state, emits a call to it when optimizing, and otherwise the
open-coded three-instruction decrement. -/
def generate_loop_decrement (h : h2_t) (a : assembler_t) (t : symbol_table_t) :
    h2_t × assembler_t :=
  let cached :=
    match a.do_r_minus_one with
    | some s => some s
    | none => symbol_table_lookup t (str2bytes "r1-")
  let a := { a with do_r_minus_one := cached }
  match cached with
  | some s =>
    if a.mode &&& MODE_OPTIMIZATION_ON ≠ 0 then
      generate h a (OP_CALL ||| s.value)
    else
      let (h, a) := generate h a CODE_FROMR
      let (h, a) := generate h a CODE_T_N1
      generate h a CODE_TOR
  | none =>
    let (h, a) := generate h a CODE_FROMR
    let (h, a) := generate h a CODE_T_N1
    generate h a CODE_TOR

/-! ## Abstract syntax tree

The node_t variants of the parser, with the fields the assembler
actually reads: the owning token (or just its payload where only that
is used), the optional value token, the flag bits, and the child
nodes.  The C node for if holds a possibly NULL else child; it is
embedded as two constructors.  The children array is embedded as the
mutually inductive NodeList. -/

mutual
inductive Node where
  | program (o0 : Node)
  | statements (os : NodeList)
  | labelN (id : List Nat)
  | branch (token : Tok)
  | zbranch (token : Tok)
  | callN (token : Tok)
  | constant (id : List Nat) (value : Tok) (bits : Nat)
  | varDecl (id : List Nat) (value : Tok) (bits : Nat)
  | location (id : List Nat) (value : Tok) (bits : Nat)
  | literal (token : Tok)
  | instruction (code : Nat)
  | beginUntil (o0 : Node)
  | beginAgain (o0 : Node)
  | beginWhileRepeat (o0 o1 : Node)
  | forNext (o0 : Node)
  | forAftThenNext (o0 o1 o2 : Node)
  | ifThen (o0 : Node)
  | ifElse (o0 o1 : Node)
  | definition (id : List Nat) (bits : Nat) (o0 : Node)
  | charN (id : List Nat)
  | quoteN (id : List Nat)
  | pwdN (token : Tok)
  | setN (token : Tok) (value : Tok)
  | pcN (token : Tok)
  | modeN (token : Tok)
  | allocate (token : Tok)
  | builtIn
  | callDefinition (id : List Nat)
deriving DecidableEq

inductive NodeList where
  | nil
  | cons (hd : Node) (tl : NodeList)
deriving DecidableEq
end

/-! ## The assembler walk (assemble) -/

/-- Shared tail of the SYM_VARIABLE and SYM_LOCATION cases (the C
switch falls through from SYM_VARIABLE into SYM_LOCATION): emit the
value cell or packed string and insert the variable-typed symbol whose
value is the byte address of the payload, hidden exactly for
locations. -/
def assembleVarBody (h : h2_t) (a : assembler_t) (t : symbol_table_t)
    (id : List Nat) (value : Tok) (isLocation : Bool) :
    Except AsmErr (h2_t × assembler_t × symbol_table_t) :=
  match here h a with
  | .error e => .error e
  | .ok (_, a) =>
    match value with
    | .lit num =>
      match hole h a with
      | .error e => .error e
      | .ok (hole1, h, a) =>
        match fix h hole1 (num % 65536) with
        | .error e => .error e
        | .ok h =>
          match symbol_table_add t .variableSym id (hole1 <<< 1) isLocation with
          | .error e => .error e
          | .ok t => .ok (h, a, t)
    | .str s =>
      match pack_string h a s with
      | .error e => .error e
      | .ok (hole1, h, a) =>
        match symbol_table_add t .variableSym id (hole1 <<< 1) isLocation with
        | .error e => .error e
        | .ok t => .ok (h, a, t)
    | .ident s =>
      match pack_string h a s with
      | .error e => .error e
      | .ok (hole1, h, a) =>
        match symbol_table_add t .variableSym id (hole1 <<< 1) isLocation with
        | .error e => .error e
        | .ok t => .ok (h, a, t)

/-- Sequential emission of a list of instruction words via generate
(the inner loop of the built-in expansion). -/
def genList (h : h2_t) (a : assembler_t) (codes : List Nat) : h2_t × assembler_t :=
  match codes with
  | [] => (h, a)
  | c :: r =>
    let (h, a) := generate h a c
    genList h a r

/-- Embedding of the SYM_BUILT_IN expansion loop of assemble: for every
compiled entry, an optional header (previous pwd with the inline bit,
packed name), the call symbol at the current address, the code cells and
a CODE_EXIT. -/
def assembleBuiltIns (h : h2_t) (a : assembler_t) (ws : List built_in_words_t)
    (t : symbol_table_t) : Except AsmErr (h2_t × assembler_t × symbol_table_t) :=
  match ws with
  | [] => .ok (h, a, t)
  | w :: rest =>
    if ¬w.compile then assembleBuiltIns h a rest t
    else
      let headerE : Except AsmErr (h2_t × assembler_t) :=
        if ¬w.hidden then
          match hole h a with
          | .error e => .error e
          | .ok (hole1, h, a) =>
            let pwd0 := if w.inline_bit then a.pwd ||| (DEFINE_INLINE <<< 13) else a.pwd
            match fix h hole1 pwd0 with
            | .error e => .error e
            | .ok h =>
              let a := { a with pwd := hole1 <<< 1 }
              match pack_string h a w.name with
              | .error e => .error e
              | .ok (_, h, a) => .ok (h, a)
        else .ok (h, a)
      match headerE with
      | .error e => .error e
      | .ok (h, a) =>
        match here h a with
        | .error e => .error e
        | .ok (pc0, a) =>
          match symbol_table_add t .call w.name pc0 w.hidden with
          | .error e => .error e
          | .ok t =>
            let (h, a) := genList h a (w.code.take w.len)
            let (h, a) := generate h a CODE_EXIT
            assembleBuiltIns h a rest t

mutual
/-- Embedding of assemble, the semantic walk over the AST.  Every call
first performs the PC/dictionary overflow check; each case mirrors the
corresponding case of the C switch, with errors propagated in place of
the long-range escape. -/
def assemble (h : h2_t) (a : assembler_t) (n : Node) (t : symbol_table_t) :
    Except AsmErr (h2_t × assembler_t × symbol_table_t) :=
  if h.pc > MAX_PROGRAM then .error (.asmError "PC/Dictionary overflow")
  else
    match n with
    | .program o0 => assemble h a o0 t
    | .statements os => assembleList h a os t
    | .labelN id =>
      match here h a with
      | .error e => .error e
      | .ok (pc0, a) =>
        match symbol_table_add t .label id pc0 false with
        | .error e => .error e
        | .ok t => .ok (h, a, t)
    | .branch tok =>
      match generate_jump h a t tok .br with
      | .error e => .error e
      | .ok (h, a) => .ok (h, a, t)
    | .zbranch tok =>
      match generate_jump h a t tok .zbr with
      | .error e => .error e
      | .ok (h, a) => .ok (h, a, t)
    | .callN tok =>
      match generate_jump h a t tok .callJ with
      | .error e => .error e
      | .ok (h, a) => .ok (h, a, t)
    | .constant id value bits =>
      if a.mode &&& MODE_COMPILE_WORD_HEADER ≠ 0 ∧ a.built_in_words_defined = true ∧
         bits &&& DEFINE_HIDDEN = 0 then
        let cached :=
          match a.do_const with
          | some s => some s
          | none => symbol_table_lookup t (str2bytes "doConst")
        let a := { a with do_const := cached }
        match cached with
        | none => .error (.fatalError "assert failed: do_const")
        | some dc =>
          match hole h a with
          | .error e => .error e
          | .ok (hole1, h, a) =>
            match fix h hole1 a.pwd with
            | .error e => .error e
            | .ok h =>
              let a := { a with pwd := hole1 <<< 1 }
              match pack_string h a id with
              | .error e => .error e
              | .ok (_, h, a) =>
                let (h, a) := generate h a (OP_CALL ||| dc.value)
                match hole h a with
                | .error e => .error e
                | .ok (hole2, h, a) =>
                  match fix h hole2 value.num with
                  | .error e => .error e
                  | .ok h =>
                    match symbol_table_add t .constant id value.num false with
                    | .error e => .error e
                    | .ok t => .ok (h, a, t)
      else
        match symbol_table_add t .constant id value.num false with
        | .error e => .error e
        | .ok t => .ok (h, a, t)
    | .varDecl id value bits =>
      if a.mode &&& MODE_COMPILE_WORD_HEADER ≠ 0 ∧ a.built_in_words_defined = true ∧
         bits &&& DEFINE_HIDDEN = 0 then
        let cached :=
          match a.do_var with
          | some s => some s
          | none => symbol_table_lookup t (str2bytes "doVar")
        let a := { a with do_var := cached }
        match cached with
        | none => .error (.fatalError "assert failed: do_var")
        | some dv =>
          match hole h a with
          | .error e => .error e
          | .ok (hole1, h, a) =>
            match fix h hole1 a.pwd with
            | .error e => .error e
            | .ok h =>
              let a := { a with pwd := hole1 <<< 1 }
              match pack_string h a id with
              | .error e => .error e
              | .ok (_, h, a) =>
                let (h, a) := generate h a (OP_CALL ||| dv.value)
                assembleVarBody h a t id value false
      else if bits &&& DEFINE_HIDDEN = 0 then
        .error (.asmError "variable used but doVar not defined, use location")
      else
        assembleVarBody h a t id value false
    | .location id value _bits =>
      assembleVarBody h a t id value true
    | .quoteN id =>
      match symbol_table_lookup t id with
      | none => .error (.asmError "not a defined procedure")
      | some s =>
        if s.type ≠ symbol_type_e.call ∧ s.type ≠ symbol_type_e.label then
          .error (.asmError "not a defined procedure")
        else
          let (h, a) := generate_literal h a ((s.value <<< 1) % 65536)
          .ok (h, a, t)
    | .literal tok =>
      let (h, a) := generate_literal h a tok.num
      .ok (h, a, t)
    | .instruction code =>
      let (h, a) := generate h a code
      .ok (h, a, t)
    | .beginAgain o0 =>
      match here h a with
      | .error e => .error e
      | .ok (hole1, a) =>
        match assemble h a o0 t with
        | .error e => .error e
        | .ok (h, a, t) =>
          let (h, a) := generate h a (OP_BRANCH ||| hole1)
          .ok (h, a, t)
    | .beginUntil o0 =>
      match here h a with
      | .error e => .error e
      | .ok (hole1, a) =>
        match assemble h a o0 t with
        | .error e => .error e
        | .ok (h, a, t) =>
          let (h, a) := generate h a (OP_0BRANCH ||| hole1)
          .ok (h, a, t)
    | .forNext o0 =>
      let s :=
        match a.do_next with
        | some s => some s
        | none => symbol_table_lookup t (str2bytes "doNext")
      match s with
      | some sv =>
        if a.mode &&& MODE_OPTIMIZATION_ON ≠ 0 then
          let (h, a) := generate h a CODE_TOR
          match here h a with
          | .error e => .error e
          | .ok (hole1, a) =>
            match assemble h a o0 t with
            | .error e => .error e
            | .ok (h, a, t) =>
              let (h, a) := generate h a (OP_CALL ||| sv.value)
              let (h, a) := generate h a (hole1 <<< 1)
              .ok (h, a, t)
        else
          let (h, a) := generate h a CODE_TOR
          match here h a with
          | .error e => .error e
          | .ok (hole1, a) =>
            match assemble h a o0 t with
            | .error e => .error e
            | .ok (h, a, t) =>
              let (h, a) := generate h a CODE_RAT
              match hole h a with
              | .error e => .error e
              | .ok (hole2, h, a) =>
                let (h, a) := generate_loop_decrement h a t
                let (h, a) := generate h a (OP_BRANCH ||| hole1)
                match here h a with
                | .error e => .error e
                | .ok (pc1, a) =>
                  match fix h hole2 (OP_0BRANCH ||| pc1) with
                  | .error e => .error e
                  | .ok h =>
                    let (h, a) := generate h a CODE_RDROP
                    .ok (h, a, t)
      | none =>
        let (h, a) := generate h a CODE_TOR
        match here h a with
        | .error e => .error e
        | .ok (hole1, a) =>
          match assemble h a o0 t with
          | .error e => .error e
          | .ok (h, a, t) =>
            let (h, a) := generate h a CODE_RAT
            match hole h a with
            | .error e => .error e
            | .ok (hole2, h, a) =>
              let (h, a) := generate_loop_decrement h a t
              let (h, a) := generate h a (OP_BRANCH ||| hole1)
              match here h a with
              | .error e => .error e
              | .ok (pc1, a) =>
                match fix h hole2 (OP_0BRANCH ||| pc1) with
                | .error e => .error e
                | .ok h =>
                  let (h, a) := generate h a CODE_RDROP
                  .ok (h, a, t)
    | .forAftThenNext o0 o1 o2 =>
      let (h, a) := generate h a CODE_TOR
      match assemble h a o0 t with
      | .error e => .error e
      | .ok (h, a, t) =>
        match hole h a with
        | .error e => .error e
        | .ok (hole1, h, a) =>
          let (h, a) := generate h a CODE_RAT
          let (h, a) := generate_loop_decrement h a t
          match hole h a with
          | .error e => .error e
          | .ok (hole2, h, a) =>
            match assemble h a o1 t with
            | .error e => .error e
            | .ok (h, a, t) =>
              match here h a with
              | .error e => .error e
              | .ok (pc1, a) =>
                match fix h hole1 (OP_BRANCH ||| pc1) with
                | .error e => .error e
                | .ok h =>
                  match assemble h a o2 t with
                  | .error e => .error e
                  | .ok (h, a, t) =>
                    let (h, a) := generate h a (OP_BRANCH ||| (hole1 + 1))
                    match here h a with
                    | .error e => .error e
                    | .ok (pc2, a) =>
                      match fix h hole2 (OP_0BRANCH ||| pc2) with
                      | .error e => .error e
                      | .ok h =>
                        let (h, a) := generate h a CODE_RDROP
                        .ok (h, a, t)
    | .beginWhileRepeat o0 o1 =>
      match here h a with
      | .error e => .error e
      | .ok (hole1, a) =>
        match assemble h a o0 t with
        | .error e => .error e
        | .ok (h, a, t) =>
          match hole h a with
          | .error e => .error e
          | .ok (hole2, h, a) =>
            match assemble h a o1 t with
            | .error e => .error e
            | .ok (h, a, t) =>
              let (h, a) := generate h a (OP_BRANCH ||| hole1)
              match here h a with
              | .error e => .error e
              | .ok (pc1, a) =>
                match fix h hole2 (OP_0BRANCH ||| pc1) with
                | .error e => .error e
                | .ok h => .ok (h, a, t)
    | .ifThen o0 =>
      match hole h a with
      | .error e => .error e
      | .ok (hole1, h, a) =>
        match assemble h a o0 t with
        | .error e => .error e
        | .ok (h, a, t) =>
          match here h a with
          | .error e => .error e
          | .ok (pc1, a) =>
            match fix h hole1 (OP_0BRANCH ||| pc1) with
            | .error e => .error e
            | .ok h => .ok (h, a, t)
    | .ifElse o0 o1 =>
      match hole h a with
      | .error e => .error e
      | .ok (hole1, h, a) =>
        match assemble h a o0 t with
        | .error e => .error e
        | .ok (h, a, t) =>
          match hole h a with
          | .error e => .error e
          | .ok (hole2, h, a) =>
            match fix h hole1 (OP_0BRANCH ||| (hole2 + 1)) with
            | .error e => .error e
            | .ok h =>
              match assemble h a o1 t with
              | .error e => .error e
              | .ok (h, a, t) =>
                match here h a with
                | .error e => .error e
                | .ok (pc1, a) =>
                  match fix h hole2 (OP_BRANCH ||| pc1) with
                  | .error e => .error e
                  | .ok h => .ok (h, a, t)
    | .callDefinition id =>
      match symbol_table_lookup t id with
      | none => .error (.asmError "not a constant or a defined procedure")
      | some s =>
        match s.type with
        | .call =>
          let (h, a) := generate h a (OP_CALL ||| s.value)
          .ok (h, a, t)
        | .constant =>
          let (h, a) := generate_literal h a s.value
          .ok (h, a, t)
        | .variableSym =>
          let (h, a) := generate_literal h a s.value
          .ok (h, a, t)
        | .label => .error (.asmError "can only call or push literal")
    | .definition id bits o0 =>
      if bits ≠ 0 ∧ a.mode &&& MODE_COMPILE_WORD_HEADER = 0 then
        .error (.asmError "cannot modify word bits if not in compile mode")
      else
        let step1 : Except AsmErr (h2_t × assembler_t) :=
          if a.mode &&& MODE_COMPILE_WORD_HEADER ≠ 0 ∧ bits &&& DEFINE_HIDDEN = 0 then
            match hole h a with
            | .error e => .error e
            | .ok (hole1, h, a) =>
              let bits2 := bits &&& (DEFINE_IMMEDIATE ||| DEFINE_INLINE)
              match fix h hole1 (a.pwd ||| (bits2 <<< 13)) with
              | .error e => .error e
              | .ok h =>
                let a := { a with pwd := hole1 <<< 1 }
                match pack_string h a id with
                | .error e => .error e
                | .ok (_, h, a) => .ok (h, a)
          else .ok (h, a)
        match step1 with
        | .error e => .error e
        | .ok (h, a) =>
          match here h a with
          | .error e => .error e
          | .ok (pc0, a) =>
            match symbol_table_add t .call id pc0 (bits &&& DEFINE_HIDDEN != 0) with
            | .error e => .error e
            | .ok t =>
              if a.in_definition then
                .error (.asmError "nested word definition is not allowed")
              else
                let a := { a with in_definition := true }
                match assemble h a o0 t with
                | .error e => .error e
                | .ok (h, a, t) =>
                  let (h, a) := generate h a CODE_EXIT
                  .ok (h, { a with in_definition := false }, t)
    | .charN id =>
      let (h, a) := generate h a (OP_LITERAL ||| byteAt id 0)
      .ok (h, a, t)
    | .setN token value =>
      match literal_or_symbol_lookup token t with
      | .error e => .error e
      | .ok location =>
        let valE : Except AsmErr Nat :=
          match value with
          | .lit v => .ok (v % 65536)
          | .ident id =>
            match symbol_table_lookup t id with
            | some l =>
              .ok (if l.type = symbol_type_e.call then (l.value <<< 1) % 65536 else l.value)
            | none => symbol_special h a id
          | .str id =>
            match symbol_table_lookup t id with
            | some l =>
              .ok (if l.type = symbol_type_e.call then (l.value <<< 1) % 65536 else l.value)
            | none => symbol_special h a id
        match valE with
        | .error e => .error e
        | .ok v =>
          match fix h (location >>> 1) v with
          | .error e => .error e
          | .ok h => .ok (h, a, t)
    | .pwdN token =>
      match literal_or_symbol_lookup token t with
      | .error e => .error e
      | .ok v => .ok (h, { a with pwd := v }, t)
    | .pcN token =>
      match literal_or_symbol_lookup token t with
      | .error e => .error e
      | .ok v =>
        let h := { h with pc := v }
        .ok (h, update_fence a h.pc, t)
    | .modeN token => .ok (h, { a with mode := token.num }, t)
    | .allocate token =>
      match literal_or_symbol_lookup token t with
      | .error e => .error e
      | .ok v =>
        let h := { h with pc := (h.pc + (v >>> 1)) % 65536 }
        .ok (h, update_fence a h.pc, t)
    | .builtIn =>
      if a.mode &&& MODE_COMPILE_WORD_HEADER = 0 then .ok (h, a, t)
      else if a.built_in_words_defined then
        .error (.asmError "built in words already defined")
      else
        assembleBuiltIns h { a with built_in_words_defined := true } built_in_words t

/-- Embedding of the SYM_STATEMENTS loop: assemble every child in
order. -/
def assembleList (h : h2_t) (a : assembler_t) (ns : NodeList) (t : symbol_table_t) :
    Except AsmErr (h2_t × assembler_t × symbol_table_t) :=
  match ns with
  | .nil => .ok (h, a, t)
  | .cons n rest =>
    match assemble h a n t with
    | .error e => .error e
    | .ok (h, a, t) => assembleList h a rest t
end

/-! ## Lexer

The C lexer reads bytes from a FILE with one-character push-back; it is
embedded over a list of byte values, the push-back being the returned
rest of the list.  Line counting only feeds error messages and is
dropped. -/

/-- Whitespace characters of the explicit skip cases in the lexer switch
(newline, space, tab, carriage return, vertical tab). -/
def isSkipSpace (c : Nat) : Bool :=
  c = 10 ∨ c = 32 ∨ c = 9 ∨ c = 13 ∨ c = 11

/-- C isspace in the default locale, used for the lookahead after an
opening parenthesis. -/
def isspaceB (c : Nat) : Bool :=
  c = 32 ∨ (9 ≤ c ∧ c ≤ 13)

/-- C isgraph in the default locale. -/
def isgraphB (c : Nat) : Bool := 33 ≤ c ∧ c ≤ 126

/-- C isdigit. -/
def isdigitB (c : Nat) : Bool := 48 ≤ c ∧ c ≤ 57

/-- C isxdigit. -/
def isxdigitB (c : Nat) : Bool :=
  isdigitB c ∨ (65 ≤ c ∧ c ≤ 70) ∨ (97 ≤ c ∧ c ≤ 102)

/-- C tolower in the default locale. -/
def tolowerB (c : Nat) : Nat := if 65 ≤ c ∧ c ≤ 90 then c + 32 else c

/-- Syntax or lexical error, the single long-range escape of the C
front end (the message is only reporting). -/
inductive SynErr where
  | synError (msg : String)
deriving DecidableEq

/-- Mode of the whitespace-and-comment skipping loop formed by the goto
again cases of the lexer: plain skipping, inside a backslash comment,
inside a parenthesis comment. -/
inductive SkipMode where
  | normal
  | bs
  | paren

/-- Embedding of the skipping cases of the lexer switch: consume
whitespace, backslash comments to end of line and parenthesized
comments (only when the parenthesis is followed by whitespace),
returning the rest of the input starting at the first character of the
next token. -/
def lexSkip (st : SkipMode) (cs : List Nat) : Except SynErr (List Nat) :=
  match st, cs with
  | .normal, [] => .ok []
  | .normal, c :: r =>
    if isSkipSpace c then lexSkip .normal r
    else if c = 92 then lexSkip .bs r
    else if c = 40 then
      match r with
      | c2 :: _ => if isspaceB c2 then lexSkip .paren r else .ok (c :: r)
      | [] => .ok (c :: r)
    else .ok (c :: r)
  | .bs, [] => .error (.synError "backslash comment terminated by EOF")
  | .bs, c :: r => if c = 10 then lexSkip .normal r else lexSkip .bs r
  | .paren, [] => .error (.synError "parenthesis comment terminated by EOF")
  | .paren, c :: r => if c = 41 then lexSkip .normal r else lexSkip .paren r

/-- Embedding of the string-collecting loop of the lexer: bytes up to
the closing quote, EOF inside the string and oversize identifiers being
errors. -/
def lexStringLoop (acc : List Nat) (cs : List Nat) : Except SynErr (List Nat × List Nat) :=
  match cs with
  | [] => .error (.synError "string terminated by EOF")
  | c :: r =>
    if c = 34 then .ok (acc, r)
    else if acc.length ≥ 255 then .error (.synError "identifier too large")
    else lexStringLoop (acc ++ [c]) r

/-- Embedding of the graphical-word-collecting loop of the lexer. -/
def lexGraphLoop (acc : List Nat) (cs : List Nat) : Except SynErr (List Nat × List Nat) :=
  match cs with
  | [] => .ok (acc, [])
  | c :: r =>
    if isgraphB c then
      if acc.length ≥ 255 then .error (.synError "identifier too large")
      else lexGraphLoop (acc ++ [c]) r
    else .ok (acc, c :: r)

/-- Embedding of map_char_to_number; it is only applied to characters
accepted by numeric, on which the C fatal branch is unreachable. -/
def map_char_to_number (c : Nat) : Nat :=
  if 48 ≤ c ∧ c ≤ 57 then c - 48
  else tolowerB c + 10 - 97

/-- Embedding of numeric. -/
def numericB (c : Nat) (base : Nat) : Bool :=
  if base = 10 then isdigitB c else isxdigitB c

/-- Accumulation loop of number: out = out * base + digit on a uint32_t
accumulator. -/
def numLoop32 (base : Nat) (digits : List Nat) (acc : Nat) : Nat :=
  match digits with
  | [] => acc
  | c :: r => numLoop32 base r ((acc * base + map_char_to_number c) % 4294967296)

/-- Final part of number: check every character is numeric in the base,
accumulate, negate on a uint32_t if requested and convert to the
uint16_t out parameter. -/
def numberBase (negate : Bool) (base : Nat) (digits : List Nat) : Option Nat :=
  if digits.all (fun c => numericB c base) then
    let out := numLoop32 base digits 0
    some ((if negate then (4294967296 - out) % 4294967296 else out) % 65536)
  else none

/-- Base detection of number: an optional dollar prefix selects base 16
(nothing after the dollar is a failure). -/
def numberTail (negate : Bool) (s1 : List Nat) : Option Nat :=
  match s1 with
  | 36 :: rest => if rest = [] then none else numberBase negate 16 rest
  | _ => numberBase negate 10 s1

/-- Embedding of number: empty words and a bare minus fail, a leading
minus negates, then base detection and accumulation. -/
def number (s : List Nat) : Option Nat :=
  match s with
  | [] => none
  | [45] => none
  | 45 :: rest => numberTail true rest
  | _ => numberTail false s

/-! ## Tokens -/

/-- Keyword tokens of the lexer (LEX_CONSTANT through LEX_BUILT_IN). -/
inductive Keyword where
  | constantK
  | callK
  | branchK
  | zbranchK
  | beginK
  | whileK
  | repeatK
  | againK
  | untilK
  | forK
  | aftK
  | nextK
  | ifK
  | elseK
  | thenK
  | defineK
  | enddefineK
  | charK
  | variableK
  | locationK
  | immediateK
  | hiddenK
  | inlineK
  | quoteK
  | pwdK
  | setK
  | pcK
  | modeK
  | allocateK
  | builtinK
deriving DecidableEq

/-- Embedding of token_t: literals carry their uint16_t number, the
three string-bearing kinds carry the owned bytes, instruction mnemonics
carry the ALU word that lexer_to_alu_op assigns them, and EOI ends the
stream. -/
inductive Token where
  | lit (number : Nat)
  | ident (id : List Nat)
  | label (id : List Nat)
  | str (id : List Nat)
  | key (k : Keyword)
  | instr (code : Nat)
  | eoi
deriving DecidableEq

/-- Keyword table of the lexer in enumeration order, the instruction
mnemonics (from the modelled X_MACRO_INSTRUCTIONS list) at the end. -/
def keywords : List (List Nat × Token) :=
  [ (str2bytes "constant", .key .constantK)
  , (str2bytes "call", .key .callK)
  , (str2bytes "branch", .key .branchK)
  , (str2bytes "0branch", .key .zbranchK)
  , (str2bytes "begin", .key .beginK)
  , (str2bytes "while", .key .whileK)
  , (str2bytes "repeat", .key .repeatK)
  , (str2bytes "again", .key .againK)
  , (str2bytes "until", .key .untilK)
  , (str2bytes "for", .key .forK)
  , (str2bytes "aft", .key .aftK)
  , (str2bytes "next", .key .nextK)
  , (str2bytes "if", .key .ifK)
  , (str2bytes "else", .key .elseK)
  , (str2bytes "then", .key .thenK)
  , (str2bytes ":", .key .defineK)
  , (str2bytes ";", .key .enddefineK)
  , (str2bytes "[char]", .key .charK)
  , (str2bytes "variable", .key .variableK)
  , (str2bytes "location", .key .locationK)
  , (str2bytes "immediate", .key .immediateK)
  , (str2bytes "hidden", .key .hiddenK)
  , (str2bytes "inline", .key .inlineK)
  , (str2bytes "'", .key .quoteK)
  , (str2bytes ".pwd", .key .pwdK)
  , (str2bytes ".set", .key .setK)
  , (str2bytes ".pc", .key .pcK)
  , (str2bytes ".mode", .key .modeK)
  , (str2bytes ".allocate", .key .allocateK)
  , (str2bytes ".built-in", .key .builtinK)
  , (str2bytes "dup", .instr CODE_DUP)
  , (str2bytes "over", .instr CODE_OVER)
  , (str2bytes "invert", .instr CODE_INVERT)
  , (str2bytes "+", .instr CODE_ADD)
  , (str2bytes "swap", .instr CODE_SWAP)
  , (str2bytes "nip", .instr CODE_NIP)
  , (str2bytes "drop", .instr CODE_DROP)
  , (str2bytes "exit", .instr CODE_EXIT)
  , (str2bytes ">r", .instr CODE_TOR)
  , (str2bytes "r>", .instr CODE_FROMR)
  , (str2bytes "r@", .instr CODE_RAT)
  , (str2bytes "@", .instr CODE_LOAD)
  , (str2bytes "!", .instr CODE_STORE)
  , (str2bytes "rshift", .instr CODE_RSHIFT)
  , (str2bytes "lshift", .instr CODE_LSHIFT)
  , (str2bytes "=", .instr CODE_EQUAL)
  , (str2bytes "u<", .instr CODE_ULESS)
  , (str2bytes "<", .instr CODE_LESS)
  , (str2bytes "and", .instr CODE_AND)
  , (str2bytes "xor", .instr CODE_XOR)
  , (str2bytes "or", .instr CODE_OR)
  , (str2bytes "depth", .instr CODE_DEPTH)
  , (str2bytes "1-", .instr CODE_T_N1)
  , (str2bytes "rdepth", .instr CODE_RDEPTH)
  , (str2bytes "0=", .instr CODE_T_E0)
  , (str2bytes "tx!", .instr CODE_TX)
  , (str2bytes "rx?", .instr CODE_RX)
  , (str2bytes "(save)", .instr CODE_SAVE)
  , (str2bytes "(bye)", .instr CODE_BYE)
  , (str2bytes "rdrop", .instr CODE_RDROP) ]

/-- Linear scan of the keyword table (the for loop over the keywords
array starting at LEX_CONSTANT). -/
def keywordFind (w : List Nat) : Option Token :=
  (keywords.find? (fun p => p.1 == w)).map (fun p => p.2)

/-- Classification of a collected graphical word, in the order of the C
lexer: number, keyword or instruction (with the definition bracketing
checks on colon and semicolon), trailing-colon label, identifier. -/
def classifyWord (ind : Bool) (w : List Nat) (rest : List Nat) :
    Except SynErr (Token × List Nat × Bool) :=
  match number w with
  | some v => .ok (.lit v, rest, ind)
  | none =>
    match keywordFind w with
    | some tok =>
      if tok = .key .defineK then
        if ind then .error (.synError "Nested definitions are not allowed")
        else .ok (tok, rest, true)
      else if tok = .key .enddefineK then
        if ind then .ok (tok, rest, false)
        else .error (.synError "Use of semicolon not terminating word definition")
      else .ok (tok, rest, ind)
    | none =>
      if w.length > 1 ∧ w.getLast? = some 58 then
        .ok (.label (w.dropLast), rest, ind)
      else .ok (.ident w, rest, ind)

/-- Embedding of one call of lexer: skip whitespace and comments, then
dispatch on the first character (EOF, string quote, graphical word). -/
def lexToken (ind : Bool) (cs : List Nat) : Except SynErr (Token × List Nat × Bool) :=
  match lexSkip .normal cs with
  | .error e => .error e
  | .ok [] => .ok (.eoi, [], ind)
  | .ok (c :: r) =>
    if c = 34 then
      match lexStringLoop [] r with
      | .error e => .error e
      | .ok (s, rest) => .ok (.str s, rest, ind)
    else if isgraphB c then
      match lexGraphLoop [] (c :: r) with
      | .error e => .error e
      | .ok (w, rest) => classifyWord ind w rest
    else .error (.synError "invalid character")

/-- Full tokenization of a byte stream, ending in the EOI token.  The
fuel only bounds the loop; every token consumes at least one byte, so
any fuel above the input length is enough. -/
def tokenize (fuel : Nat) (ind : Bool) (cs : List Nat) : Except SynErr (List Token) :=
  match fuel with
  | 0 => .error (.synError "lexer fuel exhausted")
  | f + 1 =>
    match lexToken ind cs with
    | .error e => .error e
    | .ok (.eoi, _, _) => .ok [.eoi]
    | .ok (tok, rest, ind2) =>
      match tokenize f ind2 rest with
      | .error e => .error e
      | .ok ts => .ok (tok :: ts)

/-! ## Parser

Recursive descent over the token stream with single-token lookahead.
The C parser pulls tokens lazily from the lexer; the embedding runs
over the pre-computed token list, which produces the same tree on
success and some error (hence no h2_t from the pipeline) whenever the C
front end takes its error escape.  The fuel arguments only bound the
statement loops; parsing consumes at least one token per statement and
per nesting level. -/

/-- Embedding of jump: a literal, string or identifier operand. -/
def parseJump (ts : List Token) : Except SynErr (Tok × List Token) :=
  match ts with
  | .lit n :: r => .ok (.lit n, r)
  | .str s :: r => .ok (.str s, r)
  | .ident s :: r => .ok (.ident s, r)
  | _ => .error (.synError "expected literal, string or identifier")

/-- Embedding of variable_or_constant: identifier, literal-or-string
value, optional hidden flag. -/
def parseVarConst (ts : List Token) : Except SynErr (List Nat × Tok × Nat × List Token) :=
  match ts with
  | .ident id :: r =>
    match r with
    | .lit n :: r2 =>
      match r2 with
      | .key .hiddenK :: r3 => .ok (id, .lit n, DEFINE_HIDDEN, r3)
      | _ => .ok (id, .lit n, 0, r2)
    | .str s :: r2 =>
      match r2 with
      | .key .hiddenK :: r3 => .ok (id, .str s, DEFINE_HIDDEN, r3)
      | _ => .ok (id, .str s, 0, r2)
    | _ => .error (.synError "expected literal or string")
  | _ => .error (.synError "expected identifier")

/-- Embedding of the flag loop after a definition: immediate, hidden and
inline in any order, each at most once. -/
def parseDefineFlags (bits : Nat) : List Token → Except SynErr (Nat × List Token)
  | .key .immediateK :: r =>
    if bits &&& DEFINE_IMMEDIATE ≠ 0 then .error (.synError "immediate bit already set")
    else parseDefineFlags (bits ||| DEFINE_IMMEDIATE) r
  | .key .hiddenK :: r =>
    if bits &&& DEFINE_HIDDEN ≠ 0 then .error (.synError "hidden bit already set")
    else parseDefineFlags (bits ||| DEFINE_HIDDEN) r
  | .key .inlineK :: r =>
    if bits &&& DEFINE_INLINE ≠ 0 then .error (.synError "inline bit already set")
    else parseDefineFlags (bits ||| DEFINE_INLINE) r
  | ts => .ok (bits, ts)


mutual
/-- Embedding of statements: the statement dispatch loop of the parser,
returning the collected children and the unconsumed tokens.  All parser
functions thread a fuel counter that strictly decreases across every
call; it only bounds the loops and any sufficiently large value yields
the same result. -/
def parseStatements : Nat → List Token → Except SynErr (NodeList × List Token)
  | 0, _ => .error (.synError "parse fuel exhausted")
  | f + 1, ts =>
    match ts with
    | .key .callK :: r =>
      match parseJump r with
      | .error e => .error e
      | .ok (tok, r2) => parseStatementsCons f (.callN tok) r2
    | .key .branchK :: r =>
      match parseJump r with
      | .error e => .error e
      | .ok (tok, r2) => parseStatementsCons f (.branch tok) r2
    | .key .zbranchK :: r =>
      match parseJump r with
      | .error e => .error e
      | .ok (tok, r2) => parseStatementsCons f (.zbranch tok) r2
    | .lit n :: r => parseStatementsCons f (.literal (.lit n)) r
    | .label id :: r => parseStatementsCons f (.labelN id) r
    | .key .constantK :: r =>
      match parseVarConst r with
      | .error e => .error e
      | .ok (id, v, bits, r2) => parseStatementsCons f (.constant id v bits) r2
    | .key .variableK :: r =>
      match parseVarConst r with
      | .error e => .error e
      | .ok (id, v, bits, r2) => parseStatementsCons f (.varDecl id v bits) r2
    | .key .locationK :: r =>
      match parseVarConst r with
      | .error e => .error e
      | .ok (id, v, bits, r2) => parseStatementsCons f (.location id v bits) r2
    | .key .ifK :: r =>
      match parseIf f r with
      | .error e => .error e
      | .ok (n, r2) => parseStatementsCons f n r2
    | .key .defineK :: r =>
      match parseDefine f r with
      | .error e => .error e
      | .ok (n, r2) => parseStatementsCons f n r2
    | .key .charK :: r =>
      match r with
      | .ident id :: r2 =>
        if id.length > 1 then .error (.synError "expected single character")
        else parseStatementsCons f (.charN id) r2
      | _ => .error (.synError "expected identifier")
    | .key .beginK :: r =>
      match parseBegin f r with
      | .error e => .error e
      | .ok (n, r2) => parseStatementsCons f n r2
    | .key .forK :: r =>
      match parseFor f r with
      | .error e => .error e
      | .ok (n, r2) => parseStatementsCons f n r2
    | .key .quoteK :: r =>
      match r with
      | .ident id :: r2 => parseStatementsCons f (.quoteN id) r2
      | .str id :: r2 => parseStatementsCons f (.quoteN id) r2
      | _ => .error (.synError "expected identifier or string")
    | .ident id :: r => parseStatementsCons f (.callDefinition id) r
    | .key .pwdK :: r =>
      match r with
      | .lit n :: r2 => parseStatementsCons f (.pwdN (.lit n)) r2
      | .ident id :: r2 => parseStatementsCons f (.pwdN (.ident id)) r2
      | _ => .error (.synError "expected literal or identifier")
    | .key .setK :: r =>
      match r with
      | .ident id :: r2 =>
        match r2 with
        | .ident id2 :: r3 => parseStatementsCons f (.setN (.ident id) (.ident id2)) r3
        | .str s2 :: r3 => parseStatementsCons f (.setN (.ident id) (.str s2)) r3
        | .lit n2 :: r3 => parseStatementsCons f (.setN (.ident id) (.lit n2)) r3
        | _ => .error (.synError "expected identifier, string or literal")
      | .lit n :: r2 =>
        match r2 with
        | .ident id2 :: r3 => parseStatementsCons f (.setN (.lit n) (.ident id2)) r3
        | .str s2 :: r3 => parseStatementsCons f (.setN (.lit n) (.str s2)) r3
        | .lit n2 :: r3 => parseStatementsCons f (.setN (.lit n) (.lit n2)) r3
        | _ => .error (.synError "expected identifier, string or literal")
      | _ => .error (.synError "expected identifier or literal")
    | .key .pcK :: r =>
      match r with
      | .lit n :: r2 => parseStatementsCons f (.pcN (.lit n)) r2
      | .ident id :: r2 => parseStatementsCons f (.pcN (.ident id)) r2
      | _ => .error (.synError "expected literal or identifier")
    | .key .modeK :: r =>
      match r with
      | .lit n :: r2 => parseStatementsCons f (.modeN (.lit n)) r2
      | _ => .error (.synError "expected literal")
    | .key .allocateK :: r =>
      match r with
      | .ident id :: r2 => parseStatementsCons f (.allocate (.ident id)) r2
      | .lit n :: r2 => parseStatementsCons f (.allocate (.lit n)) r2
      | _ => .error (.synError "expected identifier or literal")
    | .key .builtinK :: r => parseStatementsCons f .builtIn r
    | .instr code :: r => parseStatementsCons f (.instruction code) r
    | _ => .ok (.nil, ts)

/-- Continuation of the statements loop: prepend the parsed statement to
the remaining statements. -/
def parseStatementsCons : Nat → Node → List Token → Except SynErr (NodeList × List Token)
  | 0, _, _ => .error (.synError "parse fuel exhausted")
  | f + 1, n, ts =>
    match parseStatements f ts with
    | .error e => .error e
    | .ok (ns, r) => .ok (.cons n ns, r)

/-- Embedding of if1. -/
def parseIf : Nat → List Token → Except SynErr (Node × List Token)
  | 0, _ => .error (.synError "parse fuel exhausted")
  | f + 1, ts =>
    match parseStatements f ts with
    | .error e => .error e
    | .ok (o0, r) =>
      match r with
      | .key .elseK :: r2 =>
        match parseStatements f r2 with
        | .error e => .error e
        | .ok (o1, r3) =>
          match r3 with
          | .key .thenK :: r4 => .ok (.ifElse (.statements o0) (.statements o1), r4)
          | _ => .error (.synError "expected then")
      | .key .thenK :: r2 => .ok (.ifThen (.statements o0), r2)
      | _ => .error (.synError "expected then")

/-- Embedding of define: name, body, semicolon, flags. -/
def parseDefine : Nat → List Token → Except SynErr (Node × List Token)
  | 0, _ => .error (.synError "parse fuel exhausted")
  | f + 1, ts =>
    match ts with
    | .ident id :: r => parseDefineBody f id r
    | .str id :: r => parseDefineBody f id r
    | _ => .error (.synError "expected identifier or string")

/-- Body and flag handling shared by the two name forms of define. -/
def parseDefineBody : Nat → List Nat → List Token → Except SynErr (Node × List Token)
  | 0, _, _ => .error (.synError "parse fuel exhausted")
  | f + 1, id, ts =>
    match parseStatements f ts with
    | .error e => .error e
    | .ok (o0, r) =>
      match r with
      | .key .enddefineK :: r2 =>
        match parseDefineFlags 0 r2 with
        | .error e => .error e
        | .ok (bits, r3) => .ok (.definition id bits (.statements o0), r3)
      | _ => .error (.synError "expected semicolon")

/-- Embedding of begin: until, again, or while-repeat loops. -/
def parseBegin : Nat → List Token → Except SynErr (Node × List Token)
  | 0, _ => .error (.synError "parse fuel exhausted")
  | f + 1, ts =>
    match parseStatements f ts with
    | .error e => .error e
    | .ok (o0, r) =>
      match r with
      | .key .againK :: r2 => .ok (.beginAgain (.statements o0), r2)
      | .key .whileK :: r2 =>
        match parseStatements f r2 with
        | .error e => .error e
        | .ok (o1, r3) =>
          match r3 with
          | .key .repeatK :: r4 =>
            .ok (.beginWhileRepeat (.statements o0) (.statements o1), r4)
          | _ => .error (.synError "expected repeat")
      | .key .untilK :: r2 => .ok (.beginUntil (.statements o0), r2)
      | _ => .error (.synError "expected until")

/-- Embedding of for_next, including the for-aft-then-next form. -/
def parseFor : Nat → List Token → Except SynErr (Node × List Token)
  | 0, _ => .error (.synError "parse fuel exhausted")
  | f + 1, ts =>
    match parseStatements f ts with
    | .error e => .error e
    | .ok (o0, r) =>
      match r with
      | .key .aftK :: r2 =>
        match parseStatements f r2 with
        | .error e => .error e
        | .ok (o1, r3) =>
          match r3 with
          | .key .thenK :: r4 =>
            match parseStatements f r4 with
            | .error e => .error e
            | .ok (o2, r5) =>
              match r5 with
              | .key .nextK :: r6 =>
                .ok (.forAftThenNext (.statements o0) (.statements o1) (.statements o2), r6)
              | _ => .error (.synError "expected next")
          | _ => .error (.synError "expected then")
      | .key .nextK :: r2 => .ok (.forNext (.statements o0), r2)
      | _ => .error (.synError "expected next")
end

/-- Embedding of program: statements followed by end of input. -/
def parseProgram (f : Nat) (ts : List Token) : Except SynErr Node :=
  match parseStatements f ts with
  | .error e => .error e
  | .ok (os, r) =>
    match r with
    | .eoi :: _ => .ok (.program (.statements os))
    | _ => .error (.synError "expected EOI")

/-- Embedding of parse (tokenization plus recursive descent) over a byte
stream. -/
def parseBytes (cs : List Nat) : Except SynErr Node :=
  match tokenize (cs.length + 2) false cs with
  | .error e => .error e
  | .ok ts => parseProgram (4 * ts.length + 16) ts

/-- Embedding of code: fresh symbol table, fresh machine via h2_new at
START_ADDR, zeroed assembler state with the fence at the initial pc; on
any assembly error the machine is freed and NULL returned. -/
def codeGen (n : Node) : Option h2_t :=
  let t : symbol_table_t := ⟨[]⟩
  let h := h2_new START_ADDR
  let a : assembler_t :=
    { in_definition := false
    , start_defined := false
    , built_in_words_defined := false
    , start := 0
    , mode := 0
    , pwd := 0
    , fence := h.pc
    , do_r_minus_one := none
    , do_next := none
    , do_var := none
    , do_const := none }
  match assemble h a n t with
  | .error _ => none
  | .ok (h2, _, _) => some h2

/-- Embedding of h2_assemble_core: parse then code, NULL propagating
from either stage. -/
def h2_assemble_core (cs : List Nat) : Option h2_t :=
  match parseBytes cs with
  | .error _ => none
  | .ok n => codeGen n

/-! ## Concrete inputs and auxiliary predicates used by the claim
theorems -/

/-- Empty host I/O: no pending input (end of file), nothing written. -/
def io0 : io_t := ⟨[], [], 0⟩

/-- Sequential store of a list of cells into core starting at index i. -/
def loadCells (m : Nat → Nat) (i : Nat) (vs : List Nat) : Nat → Nat :=
  match vs with
  | [] => m
  | v :: r => loadCells (coreWrite m i v) (i + 1) r

/-- Image for the literal program 1 2 + bye: the four cells literal 1,
literal 2, ALU T+N with data-stack delta -1, ALU BYE, placed at the
start address of a fresh machine. -/
def c1_image : h2_t :=
  { h2_new START_ADDR with
    core := loadCells (h2_new START_ADDR).core START_ADDR
      [ OP_LITERAL ||| 1
      , OP_LITERAL ||| 2
      , OP_ALU_OP ||| MK_CODE ALU_OP_T_PLUS_N ||| MK_DSTACK DELTA_N1
      , OP_ALU_OP ||| MK_CODE ALU_OP_BYE ] }

mutual
/-- Syntactic absence of .set and .pc directives in a tree (every other
construct allowed). -/
def noSetPc : Node → Bool
  | .program o0 => noSetPc o0
  | .statements os => noSetPcList os
  | .labelN _ => true
  | .branch _ => true
  | .zbranch _ => true
  | .callN _ => true
  | .constant _ _ _ => true
  | .varDecl _ _ _ => true
  | .location _ _ _ => true
  | .literal _ => true
  | .instruction _ => true
  | .beginUntil o0 => noSetPc o0
  | .beginAgain o0 => noSetPc o0
  | .beginWhileRepeat o0 o1 => noSetPc o0 && noSetPc o1
  | .forNext o0 => noSetPc o0
  | .forAftThenNext o0 o1 o2 => noSetPc o0 && noSetPc o1 && noSetPc o2
  | .ifThen o0 => noSetPc o0
  | .ifElse o0 o1 => noSetPc o0 && noSetPc o1
  | .definition _ _ o0 => noSetPc o0
  | .charN _ => true
  | .quoteN _ => true
  | .pwdN _ => true
  | .setN _ _ => false
  | .pcN _ => false
  | .modeN _ => true
  | .allocate _ => true
  | .builtIn => true
  | .callDefinition _ => true

/-- List form of noSetPc. -/
def noSetPcList : NodeList → Bool
  | .nil => true
  | .cons n rest => noSetPc n && noSetPcList rest
end

/-- Every symbol value in the table fits in 16 bits (the uint16_t value
field); symbol_table_add establishes it for every entry it appends. -/
def tableWF (t : symbol_table_t) : Prop :=
  ∀ s ∈ t.symbols, s.value < 65536

/-- Mathematical value of a decimal digit string. -/
def denote10 (ds : List Nat) : Nat :=
  ds.foldl (fun acc c => acc * 10 + (c - 48)) 0

/-- Source .set 0 0 (writes cell 0 through the .set directive). -/
def srcSet00 : List Nat := str2bytes ".set 0 0"

/-- Source 1 (a single literal program). -/
def srcLit1 : List Nat := str2bytes "1"

/-- AST of srcLit1, used to instantiate universally quantified
assembler theorems at a concrete parsed program. -/
def c3wAst : Node :=
  match parseBytes srcLit1 with
  | .ok n => n
  | .error _ => .builtIn

/-- Source .mode 2 : id dup ; (one-instruction definition under
MODE_OPTIMIZATION_ON). -/
def srcIdDup : List Nat := str2bytes ".mode 2 : id dup ;"

/-- Source .mode 2 : a 1 ; : b a ; (trailing call under
MODE_OPTIMIZATION_ON). -/
def srcTailAB : List Nat := str2bytes ".mode 2 : a 1 ; : b a ;"

/-- Source .mode 2 : w dup >r ; (definition ending in an ALU op with
r-stack delta code +1, under MODE_OPTIMIZATION_ON). -/
def srcDupTor : List Nat := str2bytes ".mode 2 : w dup >r ;"

/-- Source : x 1 ; 0branch x (0branch targeting a call-typed symbol). -/
def srcZbrX : List Nat := str2bytes ": x 1 ; 0branch x"

/-- Source : x 1 ; branch x (branch targeting a call-typed symbol). -/
def srcBrX : List Nat := str2bytes ": x 1 ; branch x"

/-- Source : x 1 ; call x (call targeting the same symbol). -/
def srcCallX : List Nat := str2bytes ": x 1 ; call x"

/-- Machine state reached while assembling srcTailAB immediately before
the CODE_EXIT of the second definition is generated: the body of a
(literal 1, merged nothing) at cells 8 and 9, the call to a at cell 10,
pc at 11. -/
def c6_h : h2_t :=
  { core := fun j =>
      if j < 8 then OP_BRANCH ||| START_ADDR
      else if j = 8 then OP_LITERAL ||| 1
      else if j = 9 then CODE_EXIT
      else if j = 10 then OP_CALL ||| 8
      else 0
  , pc := 11
  , tos := 0
  , sp := VARIABLE_STACK_START
  , rp := RETURN_STACK_START }

/-- Assembler state at the same moment: optimization on, fence at the
cell holding the call (raised by the call emission itself). -/
def c6_a : assembler_t :=
  { in_definition := true
  , start_defined := false
  , built_in_words_defined := false
  , start := 0
  , mode := MODE_OPTIMIZATION_ON
  , pwd := 0
  , fence := 10
  , do_r_minus_one := none
  , do_next := none
  , do_var := none
  , do_const := none }

/-- Embedding of code when the caller supplies a symbol table (the
symbols parameter of code and h2_assemble_core): the table then
survives the compilation and is visible to the caller. -/
def codeGenWith (n : Node) (t0 : symbol_table_t) : Option (h2_t × symbol_table_t) :=
  let h := h2_new START_ADDR
  let a : assembler_t :=
    { in_definition := false
    , start_defined := false
    , built_in_words_defined := false
    , start := 0
    , mode := 0
    , pwd := 0
    , fence := h.pc
    , do_r_minus_one := none
    , do_next := none
    , do_var := none
    , do_const := none }
  match assemble h a n t0 with
  | .error _ => none
  | .ok (h2, _, t2) => some (h2, t2)

/-- Embedding of h2_assemble_core called with an empty caller-supplied
symbol table, exposing the final table next to the image. -/
def h2_assemble_coreT (cs : List Nat) : Option (h2_t × symbol_table_t) :=
  match parseBytes cs with
  | .error _ => none
  | .ok n => codeGenWith n ⟨[]⟩

/-- Zeroed assembler state with the fence at START_ADDR, as code sets
it up. -/
def a0 : assembler_t :=
  { in_definition := false
  , start_defined := false
  , built_in_words_defined := false
  , start := 0
  , mode := 0
  , pwd := 0
  , fence := START_ADDR
  , do_r_minus_one := none
  , do_next := none
  , do_var := none
  , do_const := none }

/-- Machine state with a dup ALU op just emitted at cell 1 and pc at 2,
used to exercise the EXIT merge at a cell strictly past the fence. -/
def c4w_h : h2_t :=
  { core := fun j => if j = 1 then CODE_DUP else 0
  , pc := 2
  , tos := 0
  , sp := VARIABLE_STACK_START
  , rp := RETURN_STACK_START }

/-- Assembler state with optimization on and the fence at 0. -/
def c4w_a : assembler_t := { a0 with mode := MODE_OPTIMIZATION_ON, fence := 0 }

/-- Symbol table holding one call-typed symbol x at address 8, the
table produced by assembling a definition of x at the start address. -/
def c8_t : symbol_table_t := ⟨[⟨str2bytes "x", 8, .call, false⟩]⟩

/-! ## Helper lemmas -/

theorem coreWrite_same (m : Nat → Nat) (i v : Nat) : coreWrite m i v i = v := by
  simp [coreWrite]

theorem coreWrite_other (m : Nat → Nat) {i j : Nat} (v : Nat) (hne : j ≠ i) :
    coreWrite m i v j = m j := by
  simp [coreWrite, hne]

theorem and_bit15_eq_zero_iff {n : Nat} (h : n < 65536) :
    n &&& 0x8000 = 0 ↔ n < 32768 := by
  have e : n &&& 0x8000 = (n.testBit 15).toNat * 2 ^ 15 := by
    rw [show (0x8000 : Nat) = 2 ^ 15 from rfl, Nat.and_two_pow]
  have ht : n.testBit 15 = decide (n / 2 ^ 15 % 2 = 1) := Nat.testBit_to_div_mod
  have h32 : (2 : Nat) ^ 15 = 32768 := by norm_num
  rw [h32] at e ht
  by_cases hd : n / 32768 % 2 = 1
  · rw [ht] at e
    simp [hd] at e
    rw [e]
    omega
  · rw [ht] at e
    simp [hd] at e
    rw [e]
    omega

theorem and_bit15_eq_pow_of_ne {n : Nat} (h : n &&& 0x8000 ≠ 0) :
    n &&& 0x8000 = 0x8000 := by
  have e : n &&& 0x8000 = (n.testBit 15).toNat * 2 ^ 15 := by
    rw [show (0x8000 : Nat) = 2 ^ 15 from rfl, Nat.and_two_pow]
  cases hb : n.testBit 15
  · rw [hb] at e
    simp at e
    exact absurd e h
  · rw [hb] at e
    simp at e
    exact e

theorem lit_and_7fff {n : Nat} (h : n < 32768) : (OP_LITERAL ||| n) &&& 0x7FFF = n := by
  show ((0x8000 : Nat) ||| n) &&& 0x7FFF = n
  rw [Nat.and_distrib_right]
  have h1 : (0x8000 : Nat) &&& 0x7FFF = 0 := by decide
  have h2 : n &&& 0x7FFF = n := by
    have e : (0x7FFF : Nat) = 2 ^ 15 - 1 := rfl
    rw [e, Nat.and_pow_two_sub_one_eq_mod, Nat.mod_eq_of_lt h]
  rw [h1, h2, Nat.zero_or]

theorem lit_is_literal {n : Nat} (h : n < 32768) : IS_LITERAL (OP_LITERAL ||| n) := by
  show ((0x8000 : Nat) ||| n) &&& 0x8000 = 0x8000
  rw [Nat.and_distrib_right]
  have h1 : (0x8000 : Nat) &&& 0x8000 = 0x8000 := by decide
  have h2 : n &&& 0x8000 = 0 := (and_bit15_eq_zero_iff (by omega)).mpr h
  rw [h1, h2, Nat.or_zero]

theorem alu_not_literal {i : Nat} (h : IS_ALU_OP i) : ¬IS_LITERAL i := by
  intro hl
  unfold IS_ALU_OP at h
  unfold IS_LITERAL at hl
  have e : (i &&& 0xE000) &&& 0x8000 = i &&& 0x8000 := by
    rw [Nat.and_assoc, show ((0xE000 : Nat) &&& 0x8000) = 0x8000 from by decide]
  rw [h, show ((0x6000 : Nat) &&& 0x8000) = 0 from by decide] at e
  rw [hl] at e
  exact absurd e (by decide)

/-! ## Claim C1 -/

/-- C1: h2_run returns the low 16 bits of the tos register at the
moment an ALU BYE op executes (for every state whose 16-bit tos
invariant holds, a step from a BYE ALU instruction returns tos); in
particular, running the image holding, at the start address, the cells
literal 1, literal 2, ALU T+N with data-stack delta -1, ALU BYE returns
3. -/
theorem claimC1 :
    (∀ (h : h2_t) (io : io_t), h.tos < 65536 →
      IS_ALU_OP (h.core h.pc) → ALU_OP (h.core h.pc) = ALU_OP_BYE →
      h2_step h io = .bye h.tos io) ∧
    h2_run 5 c1_image io0 = .ret 3 io0 := by
  constructor
  · intro h io _htos halu hop
    unfold h2_step
    rw [if_neg (alu_not_literal halu), if_pos halu, hop]
    rfl
  · rfl

/-- Witness for C1: the general BYE conjunct applied at the concrete
state of c1_image after three steps (pc at the BYE cell, tos 3). -/
theorem claimC1_witness :
    h2_step { c1_image with pc := START_ADDR + 3, tos := 3, sp := VARIABLE_STACK_START + 1 }
      io0 = .bye 3 io0 :=
  claimC1.1 _ io0 (by decide) (by decide) (by decide)

/-! ## Claim C7 -/

/-- C7: assembling .mode 2 : a 1 ; : b a ; (optimization on) produces
as the body of b a single cell holding OP_BRANCH to the entry address
of a (cell 10 is OP_BRANCH to 8 and the final pc is 11, one past the
entry of b at 10, so no CODE_EXIT cell follows the rewritten call). -/
theorem claimC7 :
    (h2_assemble_coreT srcTailAB).map
      (fun p => (p.1.pc,
                 (symbol_table_lookup p.2 (str2bytes "a")).map (fun s => (s.value, s.type)),
                 (symbol_table_lookup p.2 (str2bytes "b")).map (fun s => (s.value, s.type)),
                 p.1.core 10)) =
    some (11, some (8, .call), some (10, .call), OP_BRANCH ||| 8) := by
  decide

/-! ## Claim C5 -/

/-- Counterexample to C5: the same source .mode 2 : id dup ; assembles
to a body of two cells (the entry of id is 8 but the final pc is 10,
and cell 8 still holds the unmerged dup word), while the claim asserts
a single merged cell. -/
theorem claimC5_counterexample :
    (h2_assemble_coreT srcIdDup).map
      (fun p => (p.1.pc,
                 (symbol_table_lookup p.2 (str2bytes "id")).map (fun s => s.value),
                 p.1.core 8, p.1.core 9)) =
      some (10, some 8, CODE_DUP, CODE_EXIT) ∧
    (10 : Nat) ≠ 8 + 1 ∧ CODE_DUP ≠ CODE_DUP ||| CODE_EXIT := by
  refine ⟨by decide, by decide, by decide⟩

/-- C5 as amended: assembling : id dup ; with MODE_OPTIMIZATION_ON
emits two cells for the body of id, the dup ALU word followed by a
separate CODE_EXIT; the EXIT merge does not fire because the dup cell
does not lie strictly past the fence, which the definition raised to
the body entry address. -/
theorem claimC5 :
    (h2_assemble_coreT srcIdDup).map
      (fun p => (p.1.pc,
                 (symbol_table_lookup p.2 (str2bytes "id")).map (fun s => s.value),
                 p.1.core 8, p.1.core 9)) =
      some (10, some 8, CODE_DUP, CODE_EXIT) := by
  decide

/-! ## Claim C3 (counterexample part; the amended theorem follows the
assembler invariant developed below) -/

/-- Counterexample to C3: the source .set 0 0 parses and assembles
successfully, yet cell 0 of the produced image holds 0 and not
OP_BRANCH to START_ADDR: a .set directive addressing the reset region
overwrites the pre-filled branch. -/
theorem claimC3_counterexample :
    (h2_assemble_core srcSet00).map (fun h => h.core 0) = some 0 ∧
    (0 : Nat) ≠ OP_BRANCH ||| START_ADDR := by
  refine ⟨by decide, by decide⟩

/-! ## Claim C4 -/

/-- Counterexample to C4: in .mode 2 : w dup >r ;, the cell before the
exit holds the to-r ALU word, which lies strictly past the fence, has
R-to-PC clear and r-stack delta code +1; the claim says the EXIT is
ORed into it, but the image shows an unchanged to-r cell followed by a
separate CODE_EXIT. -/
theorem claimC4_counterexample :
    (h2_assemble_core srcDupTor).map (fun h => (h.pc, h.core 9, h.core 10)) =
      some (11, CODE_TOR, CODE_EXIT) ∧
    CODE_TOR &&& R_TO_PC = 0 ∧ RSTACK CODE_TOR = DELTA_1 ∧
    CODE_TOR ≠ CODE_TOR ||| CODE_EXIT := by
  refine ⟨by decide, by decide, by decide, by decide⟩

/-- C4 as amended: with MODE_OPTIMIZATION_ON, when generate is handed
CODE_EXIT and the previous cell is an ALU op lying strictly past the
fence, the EXIT is ORed into the previous cell if and only if the
previous op has neither R-to-PC set nor any nonzero r-stack delta
field: the C test masks with MK_RSTACK(DELTA_N1) = 0xC, which covers
both delta bits, so deltas +1 and -2 also block the merge. -/
theorem claimC4 (h : h2_t) (a : assembler_t)
    (hopt : a.mode &&& MODE_OPTIMIZATION_ON ≠ 0) (hpc : h.pc ≠ 0)
    (hfence : h.pc - 1 > a.fence) (halu : IS_ALU_OP (h.core (h.pc - 1))) :
    ((generate h a CODE_EXIT).1.pc = h.pc ∧
     (generate h a CODE_EXIT).1.core (h.pc - 1) = h.core (h.pc - 1) ||| CODE_EXIT)
    ↔ (h.core (h.pc - 1) &&& R_TO_PC = 0 ∧
       h.core (h.pc - 1) &&& MK_RSTACK DELTA_N1 = 0) := by
  have hnf : ¬(IS_CALL CODE_EXIT ∨ IS_LITERAL CODE_EXIT ∨ IS_0BRANCH CODE_EXIT ∨
      IS_BRANCH CODE_EXIT) := by decide
  unfold generate
  rw [if_neg hnf, if_pos ⟨hopt, hpc⟩, if_pos ⟨hfence, halu, rfl⟩]
  by_cases hm : (h.core (h.pc - 1) &&& R_TO_PC = 0 ∧
      h.core (h.pc - 1) &&& MK_RSTACK DELTA_N1 = 0)
  · rw [if_pos hm]
    simp [coreWrite_same, hm.1, hm.2]
  · rw [if_neg hm]
    constructor
    · intro hcontra
      exact absurd hcontra.1 (by simp)
    · intro hr
      exact absurd hr hm

/-- Witness for C4: at a state with a dup word at cell 1 (past the
fence 0) and pc 2, generating CODE_EXIT merges: pc stays 2 and cell 1
becomes dup with the exit effects ORed in. -/
theorem claimC4_witness :
    (generate c4w_h c4w_a CODE_EXIT).1.pc = c4w_h.pc ∧
    (generate c4w_h c4w_a CODE_EXIT).1.core 1 = c4w_h.core 1 ||| CODE_EXIT :=
  (claimC4 c4w_h c4w_a (by decide) (by decide) (by decide) (by decide)).mpr
    ⟨by decide, by decide⟩

/-! ## Claim C6 -/

/-- Counterexample to C6: at the state reached while assembling
.mode 2 : a 1 ; : b a ; just before the final CODE_EXIT (the call to a
sits at cell 10, the fence is 10, pc is 11), generate rewrites the
already emitted cell 10 although 10 is not strictly greater than the
fence: the tail-call rewrite touches memory exactly at the fence. -/
theorem claimC6_counterexample :
    (generate c6_h c6_a CODE_EXIT).1.core 10 ≠ c6_h.core 10 ∧
    (generate c6_h c6_a CODE_EXIT).1.pc = c6_h.pc ∧
    ¬(10 > c6_a.fence) := by
  refine ⟨by decide, by decide, by decide⟩

theorem alu_not_call {i : Nat} (h : IS_ALU_OP i) : ¬IS_CALL i := by
  intro hc
  unfold IS_ALU_OP at h
  unfold IS_CALL at hc
  rw [h] at hc
  exact absurd hc (by decide)

/-- C6 as amended: every peephole rewrite of an already emitted cell
happens at the cell just below pc and at a word address greater than
or equal to the fence; the EXIT merge only rewrites strictly above the
fence, while the tail-call rewrite may touch the cell exactly at the
fence (the cell of the call being rewritten, whose own emission raised
the fence to its address). -/
theorem claimC6 (h : h2_t) (a : assembler_t) (i j : Nat)
    (hj : j ≠ h.pc) (hch : (generate h a i).1.core j ≠ h.core j) :
    j = h.pc - 1 ∧ a.fence ≤ j ∧ (IS_ALU_OP (h.core j) → a.fence < j) := by
  simp only [generate] at hch
  by_cases hc1 : IS_CALL i ∨ IS_LITERAL i ∨ IS_0BRANCH i ∨ IS_BRANCH i
  · rw [if_pos hc1] at hch
    by_cases hg : (update_fence a h.pc).mode &&& MODE_OPTIMIZATION_ON ≠ 0 ∧ h.pc ≠ 0
    · rw [if_pos hg] at hch
      by_cases hmo : h.pc - 1 > (update_fence a h.pc).fence ∧
          IS_ALU_OP (h.core (h.pc - 1)) ∧ i = CODE_EXIT
      · rw [if_pos hmo] at hch
        simp only [update_fence] at hmo
        have : max a.fence h.pc < h.pc - 1 := hmo.1
        omega
      · rw [if_neg hmo] at hch
        by_cases ht : h.pc > (update_fence a h.pc).fence ∧
            IS_CALL (h.core (h.pc - 1)) ∧ i = CODE_EXIT
        · rw [if_pos ht] at hch
          simp only [update_fence] at ht
          have : max a.fence h.pc < h.pc := ht.1
          omega
        · rw [if_neg ht] at hch
          exact absurd (coreWrite_other h.core i hj) hch
    · rw [if_neg hg] at hch
      exact absurd (coreWrite_other h.core i hj) hch
  · rw [if_neg hc1] at hch
    by_cases hg : a.mode &&& MODE_OPTIMIZATION_ON ≠ 0 ∧ h.pc ≠ 0
    · rw [if_pos hg] at hch
      by_cases hmo : h.pc - 1 > a.fence ∧ IS_ALU_OP (h.core (h.pc - 1)) ∧ i = CODE_EXIT
      · rw [if_pos hmo] at hch
        by_cases hmi : h.core (h.pc - 1) &&& R_TO_PC = 0 ∧
            h.core (h.pc - 1) &&& MK_RSTACK DELTA_N1 = 0
        · rw [if_pos hmi] at hch
          by_cases hje : j = h.pc - 1
          · subst hje
            exact ⟨rfl, Nat.le_of_lt hmo.1, fun _ => hmo.1⟩
          · exact absurd (coreWrite_other h.core _ hje) hch
        · rw [if_neg hmi] at hch
          exact absurd (coreWrite_other h.core i hj) hch
      · rw [if_neg hmo] at hch
        by_cases ht : h.pc > a.fence ∧ IS_CALL (h.core (h.pc - 1)) ∧ i = CODE_EXIT
        · rw [if_pos ht] at hch
          by_cases hje : j = h.pc - 1
          · subst hje
            refine ⟨rfl, by omega, fun halu => ?_⟩
            exact absurd ht.2.1 (alu_not_call halu)
          · exact absurd (coreWrite_other h.core _ hje) hch
        · rw [if_neg ht] at hch
          exact absurd (coreWrite_other h.core i hj) hch
    · rw [if_neg hg] at hch
      exact absurd (coreWrite_other h.core i hj) hch

/-- Witness for C6: applying the amended statement at the tail-call
rewrite state of the srcTailAB assembly shows the touched cell is 10,
at pc - 1, and at (not above) the fence. -/
theorem claimC6_witness :
    10 = c6_h.pc - 1 ∧ c6_a.fence ≤ 10 ∧ (IS_ALU_OP (c6_h.core 10) → c6_a.fence < 10) :=
  claimC6 c6_h c6_a CODE_EXIT 10 (by decide) (by decide)

/-! ## Claim C8 -/

/-- C8: a branch or 0branch statement whose identifier target resolves
to a call-typed symbol makes generate_jump raise the assembly error
(before any range check, hence unconditionally), aborting assembly; the
same identifier as the target of a call statement emits OP_CALL ORed
with the symbol value.  Concretely, : x 1 ; 0branch x and
: x 1 ; branch x produce no memory image, while : x 1 ; call x
assembles and stores OP_CALL with the address of x. -/
theorem claimC8 :
    (∀ (h : h2_t) (a : assembler_t) (t : symbol_table_t) (id : List Nat) (s : symbol_t),
      symbol_table_lookup t id = some s → s.type = .call →
      generate_jump h a t (.ident id) .br = .error (.asmError "cannot branch/0branch to call") ∧
      generate_jump h a t (.ident id) .zbr = .error (.asmError "cannot branch/0branch to call") ∧
      (s.value ≤ MAX_PROGRAM →
        generate_jump h a t (.ident id) .callJ = .ok (generate h a (OP_CALL ||| s.value)))) ∧
    h2_assemble_core srcZbrX = none ∧
    h2_assemble_core srcBrX = none ∧
    (h2_assemble_coreT srcCallX).map
      (fun p => (p.1.pc, p.1.core 10,
        (symbol_table_lookup p.2 (str2bytes "x")).map (fun s => (s.value, s.type)))) =
      some (11, OP_CALL ||| 8, some (8, .call)) := by
  refine ⟨?_, by rfl, by rfl, by decide⟩
  intro h a t id s hlook htype
  refine ⟨?_, ?_, ?_⟩
  · simp only [generate_jump, hlook]
    rw [if_pos ⟨htype, by decide⟩]
  · simp only [generate_jump, hlook]
    rw [if_pos ⟨htype, by decide⟩]
  · intro hrange
    simp only [generate_jump, hlook]
    rw [if_neg (by simp)]
    simp only [generate_jump_tail]
    rw [if_neg (by omega)]

/-- Witness for C8: the generic conjunct applied to the one-entry
table binding x to a call symbol at address 8. -/
theorem claimC8_witness :
    generate_jump (h2_new START_ADDR) a0 c8_t (.ident (str2bytes "x")) .br =
      .error (.asmError "cannot branch/0branch to call") ∧
    generate_jump (h2_new START_ADDR) a0 c8_t (.ident (str2bytes "x")) .callJ =
      .ok (generate (h2_new START_ADDR) a0 (OP_CALL ||| 8)) := by
  have hl : symbol_table_lookup c8_t (str2bytes "x") = some ⟨str2bytes "x", 8, .call, false⟩ := by
    decide
  have hmain := claimC8.1 (h2_new START_ADDR) a0 c8_t (str2bytes "x") _ hl rfl
  exact ⟨hmain.1, hmain.2.2 (by decide)⟩

/-! ## Error classification helpers (which errors each primitive can
raise), used by the variable-declaration claim -/

theorem here_err {h : h2_t} {a : assembler_t} {e : AsmErr} (he : here h a = .error e) :
    e = .fatalError "assert failed: pc < MAX_PROGRAM" := by
  unfold here at he
  split at he
  · exact absurd he (by simp)
  · cases he
    rfl

theorem hole_err {h : h2_t} {a : assembler_t} {e : AsmErr} (he : hole h a = .error e) :
    e = .fatalError "assert failed: pc < MAX_PROGRAM" := by
  unfold hole at he
  split at he
  · exact absurd he (by simp)
  · cases he
    rfl

theorem fix_err {h : h2_t} {i p : Nat} {e : AsmErr} (he : fix h i p = .error e) :
    e = .fatalError "assert failed: hole < MAX_PROGRAM" := by
  unfold fix at he
  split at he
  · exact absurd he (by simp)
  · cases he
    rfl

theorem symbol_table_add_err {t : symbol_table_t} {ty : symbol_type_e} {id : List Nat}
    {v : Nat} {hid : Bool} {e : AsmErr}
    (he : symbol_table_add t ty id v hid = .error e) :
    e = .asmError "redefinition of symbol" := by
  unfold symbol_table_add at he
  split at he
  · cases he
    rfl
  · exact absurd he (by simp)

theorem pack_loop_err {h : h2_t} {a : assembler_t} {s : List Nat} {i l : Nat} {e : AsmErr}
    (he : pack_loop h a s i l = .error e) :
    e = .fatalError "assert failed: pc < MAX_PROGRAM" := by
  induction h, a, s, i, l using pack_loop.induct with
  | case1 h a s i l hil e0 hhole =>
    rw [pack_loop, dif_pos hil, hhole] at he
    have he2 : (Except.error e0 : Except AsmErr (h2_t × assembler_t)) = .error e := he
    cases he2
    exact hole_err hhole
  | case2 h a s i l hil p h2 a2 hhole ih =>
    rw [pack_loop, dif_pos hil, hhole] at he
    exact ih he
  | case3 h a s i l hil =>
    rw [pack_loop, dif_neg hil] at he
    exact absurd he (by simp)

theorem pack_string_err {h : h2_t} {a : assembler_t} {s : List Nat} {e : AsmErr}
    (he : pack_string h a s = .error e) :
    e = .asmError "string is too large" ∨
    e = .fatalError "assert failed: pc < MAX_PROGRAM" := by
  simp only [pack_string] at he
  by_cases hl : s.length > 255
  · rw [if_pos hl] at he
    have he2 : (Except.error (AsmErr.asmError "string is too large") :
        Except AsmErr (Nat × h2_t × assembler_t)) = .error e := he
    cases he2
    exact Or.inl rfl
  · rw [if_neg hl] at he
    cases hh : hole h a with
    | error e0 =>
      rw [hh] at he
      have he2 : (Except.error e0 : Except AsmErr (Nat × h2_t × assembler_t)) = .error e := he
      cases he2
      exact Or.inr (hole_err hh)
    | ok trip =>
      obtain ⟨i1, h1, a1⟩ := trip
      rw [hh] at he
      dsimp only at he
      cases hp : pack_loop
          { h1 with core := coreWrite h1.core i1 (pack_16 s.length (byteAt s 0)) }
          a1 s 1 s.length with
      | error e0 =>
        rw [hp] at he
        have he2 : (Except.error e0 : Except AsmErr (Nat × h2_t × assembler_t)) = .error e := he
        cases he2
        exact Or.inr (pack_loop_err hp)
      | ok pr =>
        obtain ⟨h3, a3⟩ := pr
        rw [hp] at he
        dsimp only at he
        cases hr : here h3 a3 with
        | error e0 =>
          rw [hr] at he
          have he2 : (Except.error e0 : Except AsmErr (Nat × h2_t × assembler_t)) = .error e := he
          cases he2
          exact Or.inr (here_err hr)
        | ok pr2 =>
          rw [hr] at he
          exact absurd he (by simp)

theorem assembleVarBody_err {h : h2_t} {a : assembler_t} {t : symbol_table_t}
    {id : List Nat} {v : Tok} {loc : Bool} {e : AsmErr}
    (he : assembleVarBody h a t id v loc = .error e) :
    e ≠ .asmError "variable used but doVar not defined, use location" := by
  simp only [assembleVarBody] at he
  cases hh : here h a with
  | error e0 =>
    rw [hh] at he
    have he2 : (Except.error e0 :
        Except AsmErr (h2_t × assembler_t × symbol_table_t)) = .error e := he
    cases he2
    rw [here_err hh]
    decide
  | ok pr =>
    obtain ⟨x, a1⟩ := pr
    rw [hh] at he
    dsimp only at he
    cases v with
    | lit num =>
      dsimp only at he
      cases hhl : hole h a1 with
      | error e0 =>
        rw [hhl] at he
        have he2 : (Except.error e0 :
            Except AsmErr (h2_t × assembler_t × symbol_table_t)) = .error e := he
        cases he2
        rw [hole_err hhl]
        decide
      | ok trip =>
        obtain ⟨i1, h1, a2⟩ := trip
        rw [hhl] at he
        dsimp only at he
        cases hf : fix h1 i1 (num % 65536) with
        | error e0 =>
          rw [hf] at he
          have he2 : (Except.error e0 :
              Except AsmErr (h2_t × assembler_t × symbol_table_t)) = .error e := he
          cases he2
          rw [fix_err hf]
          decide
        | ok h2 =>
          rw [hf] at he
          dsimp only at he
          cases hadd : symbol_table_add t .variableSym id (i1 <<< 1) loc with
          | error e0 =>
            rw [hadd] at he
            have he2 : (Except.error e0 :
                Except AsmErr (h2_t × assembler_t × symbol_table_t)) = .error e := he
            cases he2
            rw [symbol_table_add_err hadd]
            decide
          | ok t2 =>
            rw [hadd] at he
            exact absurd he (by simp)
    | str s =>
      dsimp only at he
      cases hps : pack_string h a1 s with
      | error e0 =>
        rw [hps] at he
        have he2 : (Except.error e0 :
            Except AsmErr (h2_t × assembler_t × symbol_table_t)) = .error e := he
        cases he2
        rcases pack_string_err hps with h1 | h1 <;> rw [h1] <;> decide
      | ok trip =>
        obtain ⟨i1, h1, a2⟩ := trip
        rw [hps] at he
        dsimp only at he
        cases hadd : symbol_table_add t .variableSym id (i1 <<< 1) loc with
        | error e0 =>
          rw [hadd] at he
          have he2 : (Except.error e0 :
              Except AsmErr (h2_t × assembler_t × symbol_table_t)) = .error e := he
          cases he2
          rw [symbol_table_add_err hadd]
          decide
        | ok t2 =>
          rw [hadd] at he
          exact absurd he (by simp)
    | ident s =>
      dsimp only at he
      cases hps : pack_string h a1 s with
      | error e0 =>
        rw [hps] at he
        have he2 : (Except.error e0 :
            Except AsmErr (h2_t × assembler_t × symbol_table_t)) = .error e := he
        cases he2
        rcases pack_string_err hps with h1 | h1 <;> rw [h1] <;> decide
      | ok trip =>
        obtain ⟨i1, h1, a2⟩ := trip
        rw [hps] at he
        dsimp only at he
        cases hadd : symbol_table_add t .variableSym id (i1 <<< 1) loc with
        | error e0 =>
          rw [hadd] at he
          have he2 : (Except.error e0 :
              Except AsmErr (h2_t × assembler_t × symbol_table_t)) = .error e := he
          cases he2
          rw [symbol_table_add_err hadd]
          decide
        | ok t2 =>
          rw [hadd] at he
          exact absurd he (by simp)

theorem assembleVarBody_lit_ok (h : h2_t) (a : assembler_t) (t : symbol_table_t)
    (id : List Nat) (num : Nat) (loc : Bool)
    (hlt : h.pc < MAX_PROGRAM) (hfresh : symbol_table_lookup t id = none) :
    assembleVarBody h a t id (.lit num) loc =
      .ok ({ h with core := coreWrite h.core h.pc (num % 65536), pc := h.pc + 1 },
           update_fence (update_fence a h.pc) h.pc,
           ⟨t.symbols ++ [⟨id, (h.pc <<< 1) % 65536, .variableSym, loc⟩]⟩) := by
  simp only [assembleVarBody, here, hole, fix, symbol_table_add, hfresh]
  rw [if_pos hlt]
  dsimp only
  rw [if_pos hlt]
  dsimp only
  rw [if_pos hlt]

/-! ## Claim C10 -/

/-- C10: assembling a variable declaration (with a literal value)
raises the variable-used-but-doVar-not-defined error exactly when the
declaration lacks the hidden flag and the header path is unavailable
(header mode clear or built-in words not yet processed); a hidden
variable is always accepted without emitting a header (a single value
cell is written) and its symbol table entry is added with hidden set
to false, while only location declarations produce entries marked
hidden. -/
theorem claimC10 (h : h2_t) (a : assembler_t) (t : symbol_table_t)
    (id : List Nat) (num bits : Nat) (hpc : h.pc ≤ MAX_PROGRAM) :
    ((assemble h a (.varDecl id (.lit num) bits) t =
        .error (.asmError "variable used but doVar not defined, use location")) ↔
      (bits &&& DEFINE_HIDDEN = 0 ∧
       (a.mode &&& MODE_COMPILE_WORD_HEADER = 0 ∨ a.built_in_words_defined = false)))
    ∧
    (bits &&& DEFINE_HIDDEN ≠ 0 → symbol_table_lookup t id = none → h.pc < MAX_PROGRAM →
      ∃ h' a' t', assemble h a (.varDecl id (.lit num) bits) t = .ok (h', a', t') ∧
        h'.pc = h.pc + 1 ∧ h'.core h.pc = num % 65536 ∧
        (∀ j, j ≠ h.pc → h'.core j = h.core j) ∧
        t'.symbols = t.symbols ++ [⟨id, (h.pc <<< 1) % 65536, .variableSym, false⟩])
    ∧
    (symbol_table_lookup t id = none → h.pc < MAX_PROGRAM →
      ∃ h' a' t', assemble h a (.location id (.lit num) bits) t = .ok (h', a', t') ∧
        t'.symbols = t.symbols ++ [⟨id, (h.pc <<< 1) % 65536, .variableSym, true⟩]) := by
  have hpcneg : ¬h.pc > MAX_PROGRAM := by omega
  refine ⟨?_, ?_, ?_⟩
  · by_cases hhid : bits &&& DEFINE_HIDDEN = 0
    · by_cases hcond : a.mode &&& MODE_COMPILE_WORD_HEADER ≠ 0 ∧
          a.built_in_words_defined = true ∧ bits &&& DEFINE_HIDDEN = 0
      · have hne : assemble h a (.varDecl id (.lit num) bits) t ≠
            .error (.asmError "variable used but doVar not defined, use location") := by
          simp only [assemble]
          rw [if_neg hpcneg]
          rw [if_pos hcond]
          cases hc : (match a.do_var with
            | some s => some s
            | none => symbol_table_lookup t (str2bytes "doVar")) with
          | none =>
            dsimp only
            intro he
            cases he
          | some dv =>
            dsimp only
            cases hhl : hole h { a with do_var := some dv } with
            | error e0 =>
              dsimp only
              intro he
              cases he
              exact absurd (hole_err hhl) (by decide)
            | ok trip =>
              obtain ⟨i1, h1, a1⟩ := trip
              dsimp only
              cases hf : fix h1 i1 a1.pwd with
              | error e0 =>
                dsimp only
                intro he
                cases he
                exact absurd (fix_err hf) (by decide)
              | ok h2 =>
                dsimp only
                cases hps : pack_string h2 { a1 with pwd := i1 <<< 1 } id with
                | error e0 =>
                  dsimp only
                  intro he
                  cases he
                  rcases pack_string_err hps with h1 | h1 <;> exact absurd h1 (by decide)
                | ok trip2 =>
                  obtain ⟨x2, h3, a3⟩ := trip2
                  dsimp only
                  intro he
                  exact assembleVarBody_err he rfl
        constructor
        · intro hx
          exact absurd hx hne
        · intro hr
          rcases hr.2 with hm | hbi
          · exact absurd hm hcond.1
          · rw [hcond.2.1] at hbi
            cases hbi
      · have heq : assemble h a (.varDecl id (.lit num) bits) t =
            .error (.asmError "variable used but doVar not defined, use location") := by
          simp only [assemble]
          rw [if_neg hpcneg]
          rw [if_neg hcond, if_pos hhid]
        rw [heq]
        constructor
        · intro _
          refine ⟨hhid, ?_⟩
          by_cases hA : a.mode &&& MODE_COMPILE_WORD_HEADER = 0
          · exact Or.inl hA
          · cases hbool : a.built_in_words_defined with
            | false => exact Or.inr rfl
            | true => exact absurd ⟨hA, hbool, hhid⟩ hcond
        · intro _
          rfl
    · have hne : assemble h a (.varDecl id (.lit num) bits) t ≠
          .error (.asmError "variable used but doVar not defined, use location") := by
        simp only [assemble]
        rw [if_neg hpcneg]
        rw [if_neg (fun hc => hhid hc.2.2), if_neg hhid]
        intro he
        exact assembleVarBody_err he rfl
      constructor
      · intro hx
        exact absurd hx hne
      · intro hr
        exact absurd hr.1 hhid
  · intro hb hfresh hlt
    have heq : assemble h a (.varDecl id (.lit num) bits) t =
        assembleVarBody h a t id (.lit num) false := by
      simp only [assemble]
      rw [if_neg hpcneg]
      rw [if_neg (fun hc => hb hc.2.2), if_neg hb]
    refine ⟨_, _, _, heq.trans (assembleVarBody_lit_ok h a t id num false hlt hfresh),
      rfl, coreWrite_same _ _ _, fun j hj => coreWrite_other _ _ hj, rfl⟩
  · intro hfresh hlt
    have heq : assemble h a (.location id (.lit num) bits) t =
        assembleVarBody h a t id (.lit num) true := by
      simp only [assemble]
      rw [if_neg hpcneg]
    exact ⟨_, _, _, heq.trans (assembleVarBody_lit_ok h a t id num true hlt hfresh), rfl⟩

/-- Witness for C10: at a fresh machine and empty table, a hidden
variable declaration (bits 1) of v with value 7 is accepted, writes the
single cell 7 at START_ADDR and adds a non-hidden variable symbol. -/
theorem claimC10_witness :
    ((assemble (h2_new START_ADDR) a0 (.varDecl (str2bytes "v") (.lit 7) 1) ⟨[]⟩ =
        .error (.asmError "variable used but doVar not defined, use location")) ↔
      (1 &&& DEFINE_HIDDEN = 0 ∧
       (a0.mode &&& MODE_COMPILE_WORD_HEADER = 0 ∨ a0.built_in_words_defined = false))) ∧
    (∃ h' a' t', assemble (h2_new START_ADDR) a0 (.varDecl (str2bytes "v") (.lit 7) 1) ⟨[]⟩ =
        .ok (h', a', t') ∧
      h'.pc = (h2_new START_ADDR).pc + 1 ∧ h'.core (h2_new START_ADDR).pc = 7 % 65536 ∧
      (∀ j, j ≠ (h2_new START_ADDR).pc → h'.core j = (h2_new START_ADDR).core j) ∧
      t'.symbols = [] ++ [⟨str2bytes "v", ((h2_new START_ADDR).pc <<< 1) % 65536,
        .variableSym, false⟩]) := by
  have hmain := claimC10 (h2_new START_ADDR) a0 ⟨[]⟩ (str2bytes "v") 7 1 (by decide)
  exact ⟨hmain.1, hmain.2.1 (by decide) (by decide) (by decide)⟩

/-! ## Claim C2 -/

theorem xor_ffff_clears_bit15 {n : Nat} (hn : n < 65536) (hb : n &&& 0x8000 ≠ 0) :
    n ^^^ 0xFFFF < 32768 := by
  have hx : n ^^^ 0xFFFF < 65536 := by
    have := Nat.xor_lt_two_pow (n := 16) (x := n) (y := 0xFFFF) (by omega) (by omega)
    omega
  have hm : (n ^^^ 0xFFFF) &&& 0x8000 = (n &&& 0x8000) ^^^ (0xFFFF &&& 0x8000) :=
    Nat.and_xor_distrib_right
  rw [and_bit15_eq_pow_of_ne hb,
    show ((0xFFFF : Nat) &&& 0x8000) = 0x8000 from by decide, Nat.xor_self] at hm
  exact (and_bit15_eq_zero_iff hx).mp hm

theorem generate_fst_ne_exit (h : h2_t) (a : assembler_t) {i : Nat} (hne : i ≠ CODE_EXIT) :
    (generate h a i).1 = { h with core := coreWrite h.core h.pc i, pc := h.pc + 1 } := by
  simp only [generate]
  by_cases hc1 : IS_CALL i ∨ IS_LITERAL i ∨ IS_0BRANCH i ∨ IS_BRANCH i
  · rw [if_pos hc1]
    by_cases hg : (update_fence a h.pc).mode &&& MODE_OPTIMIZATION_ON ≠ 0 ∧ h.pc ≠ 0
    · rw [if_pos hg, if_neg (fun hcond => hne hcond.2.2),
        if_neg (fun hcond => hne hcond.2.2)]
    · rw [if_neg hg]
  · rw [if_neg hc1]
    by_cases hg : a.mode &&& MODE_OPTIMIZATION_ON ≠ 0 ∧ h.pc ≠ 0
    · rw [if_pos hg, if_neg (fun hcond => hne hcond.2.2),
        if_neg (fun hcond => hne hcond.2.2)]
    · rw [if_neg hg]

theorem lit_ne_exit {n : Nat} (hlt : n < 32768) : OP_LITERAL ||| n ≠ CODE_EXIT := by
  intro he
  have := lit_is_literal hlt
  rw [he] at this
  exact absurd this (by decide)

/-- C2: generate_literal emits exactly one cell OP_LITERAL ORed with n
when bit 15 of n is clear, and otherwise the two cells OP_LITERAL ORed
with the complement of n followed by CODE_INVERT; and executing the
emitted cell or cells on the VM (from any state holding the emitted
image at the emission pc, with the fetch of the second cell neither
wrapped nor clobbered by the push) leaves n in the top-of-stack
register. -/
theorem claimC2 (h : h2_t) (a : assembler_t) (n : Nat) (hn : n < 65536) :
    (n &&& 0x8000 = 0 →
      (generate_literal h a n).1.pc = h.pc + 1 ∧
      (generate_literal h a n).1.core h.pc = OP_LITERAL ||| n ∧
      (∀ j, j ≠ h.pc → (generate_literal h a n).1.core j = h.core j)) ∧
    (n &&& 0x8000 ≠ 0 →
      (generate_literal h a n).1.pc = h.pc + 2 ∧
      (generate_literal h a n).1.core h.pc = OP_LITERAL ||| (n ^^^ 0xFFFF) ∧
      (generate_literal h a n).1.core (h.pc + 1) = CODE_INVERT ∧
      (∀ j, j ≠ h.pc → j ≠ h.pc + 1 → (generate_literal h a n).1.core j = h.core j)) ∧
    (∀ (vm : h2_t) (io : io_t), vm.core = (generate_literal h a n).1.core → vm.pc = h.pc →
      h.pc + 1 < MAX_PROGRAM → (vm.sp + 1) % 65536 ≠ h.pc + 1 →
      (h2_steps (if n &&& 0x8000 = 0 then 1 else 2) vm io).map (fun p => p.1.tos) =
        some n) := by
  by_cases hbit : n &&& 0x8000 = 0
  · have hlt : n < 32768 := (and_bit15_eq_zero_iff hn).mp hbit
    have hemit : (generate_literal h a n).1 =
        { h with core := coreWrite h.core h.pc (OP_LITERAL ||| n), pc := h.pc + 1 } := by
      unfold generate_literal
      rw [if_neg (by simpa using hbit)]
      exact generate_fst_ne_exit h a (lit_ne_exit hlt)
    refine ⟨fun _ => ?_, fun hc => absurd hbit hc, ?_⟩
    · rw [hemit]
      exact ⟨rfl, coreWrite_same _ _ _, fun j hj => coreWrite_other _ _ hj⟩
    · intro vm io hcore hpc _hflt _hsp
      rw [if_pos hbit]
      have hinstr : vm.core vm.pc = OP_LITERAL ||| n := by
        rw [hcore, hpc, hemit]
        exact coreWrite_same _ _ _
      have hstep1 : h2_step vm io = .next
          { dpush vm ((OP_LITERAL ||| n) &&& 0x7FFF) with
            pc := (vm.pc + 1) % MAX_PROGRAM } io := by
        unfold h2_step
        rw [hinstr, if_pos (lit_is_literal hlt)]
      show ((match h2_step vm io with
        | .next h2 io2 => h2_steps 0 h2 io2
        | _ => none : Option (h2_t × io_t))).map (fun p => p.1.tos) = some n
      rw [hstep1]
      show some ((OP_LITERAL ||| n) &&& 0x7FFF) = some n
      rw [lit_and_7fff hlt]
  · have hm : n ^^^ 0xFFFF < 32768 := xor_ffff_clears_bit15 hn hbit
    have hemit1 : (generate h a (OP_LITERAL ||| (n ^^^ 0xFFFF))).1 =
        { h with core := coreWrite h.core h.pc (OP_LITERAL ||| (n ^^^ 0xFFFF)),
                 pc := h.pc + 1 } :=
      generate_fst_ne_exit h a (lit_ne_exit hm)
    have hemit : (generate_literal h a n).1 =
        { h with
          core := coreWrite (coreWrite h.core h.pc (OP_LITERAL ||| (n ^^^ 0xFFFF))) (h.pc + 1) CODE_INVERT,
          pc := h.pc + 2 } := by
      have e1 : generate_literal h a n =
          generate (generate h a (OP_LITERAL ||| (n ^^^ 0xFFFF))).1
            (generate h a (OP_LITERAL ||| (n ^^^ 0xFFFF))).2 CODE_INVERT := by
        unfold generate_literal
        rw [if_pos (by simpa using hbit)]
      rw [e1, generate_fst_ne_exit _ _ (show CODE_INVERT ≠ CODE_EXIT from by decide),
        hemit1]
    refine ⟨fun hc => absurd hc hbit, fun _ => ?_, ?_⟩
    · rw [hemit]
      refine ⟨rfl, ?_, coreWrite_same _ _ _, ?_⟩
      · show coreWrite (coreWrite h.core h.pc (OP_LITERAL ||| (n ^^^ 0xFFFF)))
          (h.pc + 1) CODE_INVERT h.pc = _
        rw [coreWrite_other _ _ (by omega)]
        exact coreWrite_same _ _ _
      · intro j hj hj1
        show coreWrite (coreWrite h.core h.pc (OP_LITERAL ||| (n ^^^ 0xFFFF)))
          (h.pc + 1) CODE_INVERT j = _
        rw [coreWrite_other _ _ hj1, coreWrite_other _ _ hj]
    · intro vm io hcore hpc hflt hsp
      rw [if_neg hbit]
      have hinstr : vm.core vm.pc = OP_LITERAL ||| (n ^^^ 0xFFFF) := by
        rw [hcore, hpc, hemit]
        show coreWrite (coreWrite h.core h.pc (OP_LITERAL ||| (n ^^^ 0xFFFF)))
          (h.pc + 1) CODE_INVERT h.pc = _
        rw [coreWrite_other _ _ (by omega)]
        exact coreWrite_same _ _ _
      have hmod : (vm.pc + 1) % MAX_PROGRAM = h.pc + 1 := by
        rw [hpc]
        exact Nat.mod_eq_of_lt hflt
      have hstep1 : h2_step vm io = .next
          { dpush vm ((OP_LITERAL ||| (n ^^^ 0xFFFF)) &&& 0x7FFF) with
            pc := (vm.pc + 1) % MAX_PROGRAM } io := by
        unfold h2_step
        rw [hinstr, if_pos (lit_is_literal hm)]
      have hinstr2 : coreWrite vm.core ((vm.sp + 1) % 65536) vm.tos
          ((vm.pc + 1) % MAX_PROGRAM) = CODE_INVERT := by
        rw [hmod, coreWrite_other _ _ (fun he => hsp he.symm), hcore, hemit]
        exact coreWrite_same _ _ _
      show ((match h2_step vm io with
        | .next h2 io2 => h2_steps 1 h2 io2
        | _ => none : Option (h2_t × io_t))).map (fun p => p.1.tos) = some n
      rw [hstep1]
      show ((match h2_step { dpush vm ((OP_LITERAL ||| (n ^^^ 0xFFFF)) &&& 0x7FFF) with
          pc := (vm.pc + 1) % MAX_PROGRAM } io with
        | .next h2 io2 => h2_steps 0 h2 io2
        | _ => none : Option (h2_t × io_t))).map (fun p => p.1.tos) = some n
      unfold h2_step
      simp only [dpush]
      rw [hinstr2]
      rw [if_neg (by decide), if_pos (by decide)]
      show some (((OP_LITERAL ||| (n ^^^ 0xFFFF)) &&& 0x7FFF) ^^^ 0xFFFF) = some n
      rw [lit_and_7fff hm, Nat.xor_cancel_right]

/-- Witness for C2: at n = 0x8000 (bit 15 set), generate_literal at a
fresh machine emits the two cells OP_LITERAL ORed with 0x7FFF and
CODE_INVERT, and running two VM steps over the emitted image leaves
0x8000 in the top-of-stack register. -/
theorem claimC2_witness :
    (0x8000 : Nat) < 65536 ∧ (0x8000 : Nat) &&& 0x8000 ≠ 0 ∧
    (generate_literal (h2_new START_ADDR) a0 0x8000).1.pc = (h2_new START_ADDR).pc + 2 ∧
    (generate_literal (h2_new START_ADDR) a0 0x8000).1.core (h2_new START_ADDR).pc =
      OP_LITERAL ||| (0x8000 ^^^ 0xFFFF) ∧
    (generate_literal (h2_new START_ADDR) a0 0x8000).1.core ((h2_new START_ADDR).pc + 1) =
      CODE_INVERT ∧
    (h2_steps 2
        { h2_new START_ADDR with
          core := (generate_literal (h2_new START_ADDR) a0 0x8000).1.core } io0).map
      (fun p => p.1.tos) = some 0x8000 := by
  have hmain := claimC2 (h2_new START_ADDR) a0 0x8000 (by decide)
  have hneg := hmain.2.1 (by decide)
  have hrun := hmain.2.2
    { h2_new START_ADDR with
      core := (generate_literal (h2_new START_ADDR) a0 0x8000).1.core } io0
    rfl rfl (by decide) (by decide)
  exact ⟨by decide, by decide, hneg.1, hneg.2.1, hneg.2.2.1, by simpa using hrun⟩

/-! ## Claim C9 -/

theorem lexSkip_word (c : Nat) (r : List Nat) (h1 : isSkipSpace c = false)
    (h2 : c ≠ 92) (h3 : c ≠ 40) :
    lexSkip .normal (c :: r) = .ok (c :: r) := by
  unfold lexSkip
  rw [if_neg (by simp [h1]), if_neg h2, if_neg h3]

theorem lexGraphLoop_append (w : List Nat) : ∀ (acc rest : List Nat),
    (∀ c ∈ w, isgraphB c = true) → acc.length + w.length ≤ 255 →
    (∀ c r, rest = c :: r → isgraphB c = false) →
    lexGraphLoop acc (w ++ rest) = .ok (acc ++ w, rest) := by
  induction w with
  | nil =>
    intro acc rest _ _ hrest
    cases rest with
    | nil => simp [lexGraphLoop]
    | cons c r =>
      show lexGraphLoop acc (c :: r) = .ok (acc ++ [], c :: r)
      unfold lexGraphLoop
      rw [if_neg (by simp [hrest c r rfl])]
      simp
  | cons c w2 ih =>
    intro acc rest hg hlen hrest
    have hlen2 : acc.length + (c :: w2).length ≤ 255 := hlen
    rw [List.length_cons] at hlen2
    show lexGraphLoop acc (c :: (w2 ++ rest)) = _
    unfold lexGraphLoop
    rw [if_pos (by simp [hg c (by simp)]), if_neg (by omega : ¬ acc.length ≥ 255),
      ih (acc ++ [c]) rest (fun x hx => hg x (by simp [hx]))
        (by rw [List.length_append]; simp; omega) hrest]
    simp

theorem numLoop32_digits (ds : List Nat) : ∀ acc : Nat, (∀ c ∈ ds, isdigitB c = true) →
    numLoop32 10 ds (acc % 4294967296) =
      (ds.foldl (fun a c => a * 10 + (c - 48)) acc) % 4294967296 := by
  induction ds with
  | nil => intro acc _; rfl
  | cons c r ih =>
    intro acc hd
    show numLoop32 10 r ((acc % 4294967296 * 10 + map_char_to_number c) % 4294967296) = _
    have hb : 48 ≤ c ∧ c ≤ 57 := by simpa [isdigitB] using hd c (by simp)
    have hc : map_char_to_number c = c - 48 := by
      unfold map_char_to_number
      rw [if_pos hb]
    rw [hc, show (acc % 4294967296 * 10 + (c - 48)) % 4294967296 =
        (acc * 10 + (c - 48)) % 4294967296 from by omega,
      ih (acc * 10 + (c - 48)) (fun x hx => hd x (by simp [hx]))]
    rfl

theorem numberBase_digits (negate : Bool) (ds : List Nat)
    (hd : ∀ c ∈ ds, isdigitB c = true) :
    numberBase negate 10 ds =
      some ((if negate then (4294967296 - denote10 ds % 4294967296) % 4294967296
             else denote10 ds % 4294967296) % 65536) := by
  have h0 := numLoop32_digits ds 0 hd
  rw [Nat.zero_mod] at h0
  unfold numberBase
  rw [if_pos (by
    simp only [List.all_eq_true]
    intro c hc
    have := hd c hc
    simp only [numericB, if_pos rfl]
    exact this)]
  rw [h0]
  rfl

theorem numberTail_ne36 (negate : Bool) (d : Nat) (r : List Nat) (hd : d ≠ 36) :
    numberTail negate (d :: r) = numberBase negate 10 (d :: r) := by
  unfold numberTail
  split
  · rename_i rest heq
    injection heq with h1 _
    exact absurd h1 hd
  · rfl

theorem number_pos (d : Nat) (r : List Nat) (hd : d ≠ 45) :
    number (d :: r) = numberTail false (d :: r) := by
  unfold number
  split
  · rename_i heq
    exact absurd heq (by simp)
  · rename_i heq
    injection heq with h1 _
    exact absurd h1 hd
  · rename_i rest heq
    injection heq with h1 _
    exact absurd h1 hd
  · rfl

theorem number_digits (neg : Bool) (ds : List Nat) (hne : ds ≠ [])
    (hd : ∀ c ∈ ds, isdigitB c = true) :
    number ((if neg then [45] else []) ++ ds) =
      some ((if neg then (4294967296 - denote10 ds % 4294967296) % 4294967296
             else denote10 ds % 4294967296) % 65536) := by
  obtain ⟨d, r, rfl⟩ : ∃ d r, ds = d :: r := by
    cases ds with
    | nil => exact absurd rfl hne
    | cons a b => exact ⟨a, b, rfl⟩
  have hb : 48 ≤ d ∧ d ≤ 57 := by simpa [isdigitB] using hd d (by simp)
  cases neg with
  | false =>
    show number (d :: r) = _
    rw [number_pos d r (by omega), numberTail_ne36 false d r (by omega),
      numberBase_digits false (d :: r) hd]
  | true =>
    show number (45 :: d :: r) = _
    rw [show number (45 :: d :: r) = numberTail true (d :: r) from rfl,
      numberTail_ne36 true d r (by omega), numberBase_digits true (d :: r) hd]

/-- C9: a bare word of one or more decimal digits, optionally preceded
by a single minus sign, of any length up to the 255-character
identifier limit, lexes to a literal token whose 16-bit value is the
denoted integer reduced modulo 2 to the 16, two's-complement negated
when the minus is present; no out-of-range error is raised. -/
theorem claimC9 (neg : Bool) (ds rest : List Nat) (ind : Bool)
    (hne : ds ≠ [])
    (hdig : ∀ c ∈ ds, isdigitB c = true)
    (hlen : ((if neg then [45] else []) ++ ds).length ≤ 255)
    (hrest : ∀ c r, rest = c :: r → isgraphB c = false) :
    lexToken ind (((if neg then [45] else []) ++ ds) ++ rest) =
      .ok (.lit (if neg then (65536 - denote10 ds % 65536) % 65536
                 else denote10 ds % 65536), rest, ind) := by
  obtain ⟨d, dr, rfl⟩ : ∃ d dr, ds = d :: dr := by
    cases ds with
    | nil => exact absurd rfl hne
    | cons a b => exact ⟨a, b, rfl⟩
  have hb : 48 ≤ d ∧ d ≤ 57 := by simpa [isdigitB] using hdig d (by simp)
  have hnum := number_digits neg (d :: dr) hne hdig
  have hgr : ∀ c ∈ (if neg then [45] else []) ++ (d :: dr), isgraphB c = true := by
    intro c hc
    rw [List.mem_append] at hc
    cases hc with
    | inl h =>
      cases neg with
      | false => simp at h
      | true =>
        simp at h
        subst h
        decide
    | inr h =>
      rw [List.mem_cons] at h
      have hcb : 48 ≤ c ∧ c ≤ 57 := by
        cases h with
        | inl h => subst h; exact hb
        | inr h => simpa [isdigitB] using hdig c (by simp [h])
      simp [isgraphB]
      omega
  have hgraph := lexGraphLoop_append ((if neg then [45] else []) ++ (d :: dr)) [] rest
    hgr (by simpa using hlen) hrest
  rw [List.nil_append] at hgraph
  cases neg with
  | false =>
    have hskip : lexSkip .normal (d :: (dr ++ rest)) = .ok (d :: (dr ++ rest)) :=
      lexSkip_word d _ (by simp [isSkipSpace]; omega) (by omega) (by omega)
    show lexToken ind (d :: (dr ++ rest)) = _
    unfold lexToken
    rw [hskip]
    dsimp only
    rw [if_neg (by omega : ¬ d = 34), if_pos (by simp [isgraphB]; omega)]
    rw [show lexGraphLoop [] (d :: (dr ++ rest)) = .ok (d :: dr, rest) from by
      simpa using hgraph]
    dsimp only
    unfold classifyWord
    rw [show number (d :: dr) = some ((denote10 (d :: dr) % 4294967296) % 65536) from by
      simpa using hnum]
    dsimp only
    rw [show ((denote10 (d :: dr) % 4294967296) % 65536) =
      denote10 (d :: dr) % 65536 from by omega]
    simp
  | true =>
    have hskip : lexSkip .normal (45 :: (d :: dr ++ rest)) =
        .ok (45 :: (d :: dr ++ rest)) :=
      lexSkip_word 45 _ (by decide) (by decide) (by decide)
    show lexToken ind (45 :: (d :: dr ++ rest)) = _
    unfold lexToken
    rw [hskip]
    dsimp only
    rw [if_neg (by decide : ¬ (45 : Nat) = 34), if_pos (by decide : isgraphB 45 = true)]
    rw [show lexGraphLoop [] (45 :: (d :: dr ++ rest)) = .ok (45 :: d :: dr, rest) from by
      simpa using hgraph]
    dsimp only
    unfold classifyWord
    rw [show number (45 :: d :: dr) =
      some (((4294967296 - denote10 (d :: dr) % 4294967296) % 4294967296) % 65536) from by
      simpa using hnum]
    dsimp only
    rw [show (((4294967296 - denote10 (d :: dr) % 4294967296) % 4294967296) % 65536) =
      (65536 - denote10 (d :: dr) % 65536) % 65536 from by omega]
    simp

/-- Witness for C9: the word -70000 lexes to the literal token holding
61072, which is 70000 reduced modulo 65536 and two's-complement
negated. -/
theorem claimC9_witness :
    lexToken false (str2bytes "-70000") = .ok (.lit 61072, [], false) := by
  have h := claimC9 true (str2bytes "70000") [] false (by decide)
    (by decide) (by decide) (fun c r hcr => by cases hcr)
  rw [show ((if true then [45] else []) ++ str2bytes "70000") ++ ([] : List Nat) =
    str2bytes "-70000" from by decide] at h
  rw [h, show (if true = true then (65536 - denote10 (str2bytes "70000") % 65536) % 65536
    else denote10 (str2bytes "70000") % 65536) = 61072 from by decide]

/-! ## Claim C3: preservation of the low-memory branch prefix -/

theorem lookup_wf {t : symbol_table_t} {id : List Nat} {s : symbol_t}
    (hwf : tableWF t) (hl : symbol_table_lookup t id = some s) : s.value < 65536 := by
  unfold symbol_table_lookup at hl
  exact hwf s (List.mem_of_find?_eq_some hl)

theorem tableWF_add {t : symbol_table_t} {ty : symbol_type_e} {id : List Nat}
    {v : Nat} {hid : Bool} {t2 : symbol_table_t} (hwf : tableWF t)
    (ha : symbol_table_add t ty id v hid = .ok t2) : tableWF t2 := by
  unfold symbol_table_add at ha
  cases hl : symbol_table_lookup t id with
  | some s => rw [hl] at ha; exact absurd ha (by simp)
  | none =>
    rw [hl] at ha
    dsimp only at ha
    injection ha with ha2
    subst ha2
    intro s hs
    simp only [List.mem_append, List.mem_singleton] at hs
    cases hs with
    | inl hmem => exact hwf s hmem
    | inr hone => subst hone; dsimp only; omega

theorem here_ok {h : h2_t} {a : assembler_t} {v : Nat × assembler_t}
    (hh : here h a = .ok v) :
    v = (h.pc, update_fence a h.pc) ∧ h.pc < MAX_PROGRAM := by
  unfold here at hh
  by_cases hlt : h.pc < MAX_PROGRAM
  · rw [if_pos hlt] at hh
    injection hh with h1
    exact ⟨h1.symm, hlt⟩
  · rw [if_neg hlt] at hh
    exact absurd hh (by simp)

theorem hole_ok {h : h2_t} {a : assembler_t} {v : Nat × h2_t × assembler_t}
    (hh : hole h a = .ok v) :
    v = (h.pc, { h with pc := h.pc + 1 }, update_fence a h.pc) ∧ h.pc < MAX_PROGRAM := by
  unfold hole at hh
  by_cases hlt : h.pc < MAX_PROGRAM
  · rw [if_pos hlt] at hh
    injection hh with h1
    exact ⟨h1.symm, hlt⟩
  · rw [if_neg hlt] at hh
    exact absurd hh (by simp)

theorem fix_ok {h : h2_t} {loc p : Nat} {h2 : h2_t} (hh : fix h loc p = .ok h2) :
    h2 = { h with core := coreWrite h.core loc p } ∧ loc < MAX_PROGRAM := by
  unfold fix at hh
  by_cases hlt : loc < MAX_PROGRAM
  · rw [if_pos hlt] at hh
    injection hh with h1
    exact ⟨h1.symm, hlt⟩
  · rw [if_neg hlt] at hh
    exact absurd hh (by simp)

theorem update_fence_ge (a : assembler_t) (p : Nat) (hf : START_ADDR ≤ a.fence) :
    START_ADDR ≤ (update_fence a p).fence := by
  simp only [update_fence]
  omega

theorem generate_pres (h : h2_t) (a : assembler_t) (i : Nat)
    (hpc : START_ADDR ≤ h.pc) (hf : START_ADDR ≤ a.fence) :
    START_ADDR ≤ (generate h a i).1.pc ∧ START_ADDR ≤ (generate h a i).2.fence ∧
    ∀ j, j < START_ADDR → (generate h a i).1.core j = h.core j := by
  simp only [generate]
  by_cases hc1 : IS_CALL i ∨ IS_LITERAL i ∨ IS_0BRANCH i ∨ IS_BRANCH i
  · rw [if_pos hc1]
    have hfub : START_ADDR ≤ (update_fence a h.pc).fence := update_fence_ge a h.pc hf
    by_cases hg : (update_fence a h.pc).mode &&& MODE_OPTIMIZATION_ON ≠ 0 ∧ h.pc ≠ 0
    · rw [if_pos hg]
      by_cases hm : h.pc - 1 > (update_fence a h.pc).fence ∧
          IS_ALU_OP (h.core (h.pc - 1)) ∧ i = CODE_EXIT
      · rw [if_pos hm]
        have hm1 : h.pc - 1 > (update_fence a h.pc).fence := hm.1
        by_cases hrr : h.core (h.pc - 1) &&& R_TO_PC = 0 ∧
            h.core (h.pc - 1) &&& MK_RSTACK DELTA_N1 = 0
        · rw [if_pos hrr]
          refine ⟨?_, ?_, ?_⟩
          · show START_ADDR ≤ h.pc
            omega
          · show START_ADDR ≤ (update_fence (update_fence a h.pc) (h.pc - 1)).fence
            exact update_fence_ge _ _ hfub
          · intro j hj
            show coreWrite h.core (h.pc - 1) (h.core (h.pc - 1) ||| i) j = h.core j
            exact coreWrite_other _ _ (by omega)
        · rw [if_neg hrr]
          refine ⟨?_, ?_, ?_⟩
          · show START_ADDR ≤ h.pc + 1
            omega
          · show START_ADDR ≤ (update_fence a h.pc).fence
            exact hfub
          · intro j hj
            show coreWrite h.core h.pc i j = h.core j
            exact coreWrite_other _ _ (by omega)
      · rw [if_neg hm]
        by_cases ht : h.pc > (update_fence a h.pc).fence ∧
            IS_CALL (h.core (h.pc - 1)) ∧ i = CODE_EXIT
        · rw [if_pos ht]
          have ht1 : h.pc > (update_fence a h.pc).fence := ht.1
          refine ⟨?_, ?_, ?_⟩
          · show START_ADDR ≤ h.pc
            omega
          · show START_ADDR ≤ (update_fence (update_fence a h.pc) (h.pc - 1)).fence
            exact update_fence_ge _ _ hfub
          · intro j hj
            show coreWrite h.core (h.pc - 1)
              (OP_BRANCH ||| (h.core (h.pc - 1) &&& 0x1FFF)) j = h.core j
            exact coreWrite_other _ _ (by omega)
        · rw [if_neg ht]
          refine ⟨?_, ?_, ?_⟩
          · show START_ADDR ≤ h.pc + 1
            omega
          · show START_ADDR ≤ (update_fence a h.pc).fence
            exact hfub
          · intro j hj
            show coreWrite h.core h.pc i j = h.core j
            exact coreWrite_other _ _ (by omega)
    · rw [if_neg hg]
      refine ⟨?_, ?_, ?_⟩
      · show START_ADDR ≤ h.pc + 1
        omega
      · show START_ADDR ≤ (update_fence a h.pc).fence
        exact hfub
      · intro j hj
        show coreWrite h.core h.pc i j = h.core j
        exact coreWrite_other _ _ (by omega)
  · rw [if_neg hc1]
    by_cases hg : a.mode &&& MODE_OPTIMIZATION_ON ≠ 0 ∧ h.pc ≠ 0
    · rw [if_pos hg]
      by_cases hm : h.pc - 1 > a.fence ∧ IS_ALU_OP (h.core (h.pc - 1)) ∧ i = CODE_EXIT
      · rw [if_pos hm]
        have hm1 : h.pc - 1 > a.fence := hm.1
        by_cases hrr : h.core (h.pc - 1) &&& R_TO_PC = 0 ∧
            h.core (h.pc - 1) &&& MK_RSTACK DELTA_N1 = 0
        · rw [if_pos hrr]
          refine ⟨?_, ?_, ?_⟩
          · show START_ADDR ≤ h.pc
            omega
          · show START_ADDR ≤ (update_fence a (h.pc - 1)).fence
            exact update_fence_ge _ _ hf
          · intro j hj
            show coreWrite h.core (h.pc - 1) (h.core (h.pc - 1) ||| i) j = h.core j
            exact coreWrite_other _ _ (by omega)
        · rw [if_neg hrr]
          refine ⟨?_, ?_, ?_⟩
          · show START_ADDR ≤ h.pc + 1
            omega
          · show START_ADDR ≤ a.fence
            exact hf
          · intro j hj
            show coreWrite h.core h.pc i j = h.core j
            exact coreWrite_other _ _ (by omega)
      · rw [if_neg hm]
        by_cases ht : h.pc > a.fence ∧ IS_CALL (h.core (h.pc - 1)) ∧ i = CODE_EXIT
        · rw [if_pos ht]
          have ht1 : h.pc > a.fence := ht.1
          refine ⟨?_, ?_, ?_⟩
          · show START_ADDR ≤ h.pc
            omega
          · show START_ADDR ≤ (update_fence a (h.pc - 1)).fence
            exact update_fence_ge _ _ hf
          · intro j hj
            show coreWrite h.core (h.pc - 1)
              (OP_BRANCH ||| (h.core (h.pc - 1) &&& 0x1FFF)) j = h.core j
            exact coreWrite_other _ _ (by omega)
        · rw [if_neg ht]
          refine ⟨?_, ?_, ?_⟩
          · show START_ADDR ≤ h.pc + 1
            omega
          · show START_ADDR ≤ a.fence
            exact hf
          · intro j hj
            show coreWrite h.core h.pc i j = h.core j
            exact coreWrite_other _ _ (by omega)
    · rw [if_neg hg]
      refine ⟨?_, ?_, ?_⟩
      · show START_ADDR ≤ h.pc + 1
        omega
      · show START_ADDR ≤ a.fence
        exact hf
      · intro j hj
        show coreWrite h.core h.pc i j = h.core j
        exact coreWrite_other _ _ (by omega)

theorem pack_loop_pres {h : h2_t} {a : assembler_t} {s : List Nat} {i l : Nat}
    {hx : h2_t} {ax : assembler_t} (he : pack_loop h a s i l = .ok (hx, ax))
    (hpc : START_ADDR ≤ h.pc) (hf : START_ADDR ≤ a.fence) :
    START_ADDR ≤ hx.pc ∧ START_ADDR ≤ ax.fence ∧
    ∀ j, j < START_ADDR → hx.core j = h.core j := by
  induction h, a, s, i, l using pack_loop.induct with
  | case1 h a s i l hil e0 hhole =>
    rw [pack_loop, dif_pos hil, hhole] at he
    exact absurd he (by simp)
  | case2 h a s i l hil p h2 a2 hhole ih =>
    rw [pack_loop, dif_pos hil, hhole] at he
    dsimp only at he
    obtain ⟨hv, hplt⟩ := hole_ok hhole
    injection hv with hp hv2
    injection hv2 with hh2 ha2
    subst hp
    subst hh2
    subst ha2
    have ihr := ih he (by
      show START_ADDR ≤ h.pc + 1
      omega) (update_fence_ge a h.pc hf)
    refine ⟨ihr.1, ihr.2.1, fun j hj => ?_⟩
    rw [ihr.2.2 j hj]
    show coreWrite h.core h.pc (pack_16 (byteAt s i) (byteAt s (i + 1))) j = h.core j
    exact coreWrite_other _ _ (by omega)
  | case3 h a s i l hil =>
    rw [pack_loop, dif_neg hil] at he
    injection he with he2
    injection he2 with e1 e2
    subst e1
    subst e2
    exact ⟨hpc, hf, fun j hj => rfl⟩

theorem pack_string_pres {h : h2_t} {a : assembler_t} {s : List Nat}
    {r : Nat} {hx : h2_t} {ax : assembler_t}
    (he : pack_string h a s = .ok (r, hx, ax))
    (hpc : START_ADDR ≤ h.pc) (hf : START_ADDR ≤ a.fence) :
    START_ADDR ≤ hx.pc ∧ START_ADDR ≤ ax.fence ∧
    ∀ j, j < START_ADDR → hx.core j = h.core j := by
  simp only [pack_string] at he
  by_cases hl : s.length > 255
  · rw [if_pos hl] at he
    exact absurd he (by simp)
  · rw [if_neg hl] at he
    cases hh : hole h a with
    | error e0 =>
      rw [hh] at he
      exact absurd he (by simp)
    | ok trip =>
      obtain ⟨i1, h1, a1⟩ := trip
      rw [hh] at he
      dsimp only at he
      obtain ⟨hv, hplt⟩ := hole_ok hh
      injection hv with hi1 hv2
      injection hv2 with hh1 ha1
      subst hi1
      subst hh1
      subst ha1
      cases hp : pack_loop
          { { h with pc := h.pc + 1 } with
            core := coreWrite { h with pc := h.pc + 1 }.core h.pc (pack_16 s.length (byteAt s 0)) }
          (update_fence a h.pc) s 1 s.length with
      | error e0 =>
        rw [hp] at he
        exact absurd he (by simp)
      | ok pr =>
        obtain ⟨h3, a3⟩ := pr
        rw [hp] at he
        dsimp only at he
        have hploop := pack_loop_pres hp (by
          show START_ADDR ≤ h.pc + 1
          omega) (update_fence_ge a h.pc hf)
        cases hr : here h3 a3 with
        | error e0 =>
          rw [hr] at he
          exact absurd he (by simp)
        | ok v =>
          obtain ⟨x, a4⟩ := v
          rw [hr] at he
          dsimp only at he
          obtain ⟨hv4, _⟩ := here_ok hr
          injection hv4 with hx4 ha4
          subst ha4
          injection he with he2
          injection he2 with e1 he3
          injection he3 with e2 e3
          subst e2
          subst e3
          refine ⟨hploop.1, update_fence_ge _ _ hploop.2.1, fun j hj => ?_⟩
          rw [hploop.2.2 j hj]
          show coreWrite h.core h.pc (pack_16 s.length (byteAt s 0)) j = h.core j
          exact coreWrite_other _ _ (by omega)

theorem genList_pres (codes : List Nat) : ∀ (h : h2_t) (a : assembler_t),
    START_ADDR ≤ h.pc → START_ADDR ≤ a.fence →
    START_ADDR ≤ (genList h a codes).1.pc ∧ START_ADDR ≤ (genList h a codes).2.fence ∧
    ∀ j, j < START_ADDR → (genList h a codes).1.core j = h.core j := by
  induction codes with
  | nil => exact fun h a hpc hf => ⟨hpc, hf, fun j hj => rfl⟩
  | cons c r ih =>
    intro h a hpc hf
    have g := generate_pres h a c hpc hf
    have g2 := ih (generate h a c).1 (generate h a c).2 g.1 g.2.1
    exact ⟨g2.1, g2.2.1, fun j hj => (g2.2.2 j hj).trans (g.2.2 j hj)⟩

theorem gen3_pres (h : h2_t) (a : assembler_t) (i1 i2 i3 : Nat)
    (hpc : START_ADDR ≤ h.pc) (hf : START_ADDR ≤ a.fence) :
    START_ADDR ≤ (generate (generate (generate h a i1).1 (generate h a i1).2 i2).1
        (generate (generate h a i1).1 (generate h a i1).2 i2).2 i3).1.pc ∧
    START_ADDR ≤ (generate (generate (generate h a i1).1 (generate h a i1).2 i2).1
        (generate (generate h a i1).1 (generate h a i1).2 i2).2 i3).2.fence ∧
    ∀ j, j < START_ADDR →
      (generate (generate (generate h a i1).1 (generate h a i1).2 i2).1
        (generate (generate h a i1).1 (generate h a i1).2 i2).2 i3).1.core j = h.core j := by
  have g1 := generate_pres h a i1 hpc hf
  have g2 := generate_pres (generate h a i1).1 (generate h a i1).2 i2 g1.1 g1.2.1
  have g3 := generate_pres (generate (generate h a i1).1 (generate h a i1).2 i2).1
    (generate (generate h a i1).1 (generate h a i1).2 i2).2 i3 g2.1 g2.2.1
  exact ⟨g3.1, g3.2.1, fun j hj =>
    ((g3.2.2 j hj).trans (g2.2.2 j hj)).trans (g1.2.2 j hj)⟩

theorem generate_literal_pres (h : h2_t) (a : assembler_t) (n : Nat)
    (hpc : START_ADDR ≤ h.pc) (hf : START_ADDR ≤ a.fence) :
    START_ADDR ≤ (generate_literal h a n).1.pc ∧
    START_ADDR ≤ (generate_literal h a n).2.fence ∧
    ∀ j, j < START_ADDR → (generate_literal h a n).1.core j = h.core j := by
  unfold generate_literal
  by_cases hb : n &&& OP_LITERAL ≠ 0
  · rw [if_pos hb]
    have g1 := generate_pres h a (OP_LITERAL ||| (n ^^^ 0xFFFF)) hpc hf
    have g2 := generate_pres (generate h a (OP_LITERAL ||| (n ^^^ 0xFFFF))).1
      (generate h a (OP_LITERAL ||| (n ^^^ 0xFFFF))).2 CODE_INVERT g1.1 g1.2.1
    exact ⟨g2.1, g2.2.1, fun j hj => (g2.2.2 j hj).trans (g1.2.2 j hj)⟩
  · rw [if_neg hb]
    exact generate_pres h a (OP_LITERAL ||| n) hpc hf

theorem generate_jump_tail_pres {h : h2_t} {a : assembler_t} {addr : Nat} {k : JumpKind}
    {h1 : h2_t} {a1 : assembler_t} (he : generate_jump_tail h a addr k = .ok (h1, a1))
    (hpc : START_ADDR ≤ h.pc) (hf : START_ADDR ≤ a.fence) :
    START_ADDR ≤ h1.pc ∧ START_ADDR ≤ a1.fence ∧
    ∀ j, j < START_ADDR → h1.core j = h.core j := by
  unfold generate_jump_tail at he
  by_cases hm : addr > MAX_PROGRAM
  · rw [if_pos hm] at he
    exact absurd he (by simp)
  · rw [if_neg hm] at he
    dsimp only at he
    injection he with he2
    cases k with
    | br =>
      dsimp only at he2
      have g := generate_pres h a (OP_BRANCH ||| addr) hpc hf
      rw [he2] at g
      exact ⟨g.1, g.2.1, g.2.2⟩
    | zbr =>
      dsimp only at he2
      have g := generate_pres h a (OP_0BRANCH ||| addr) hpc hf
      rw [he2] at g
      exact ⟨g.1, g.2.1, g.2.2⟩
    | callJ =>
      dsimp only at he2
      have g := generate_pres h a (OP_CALL ||| addr) hpc hf
      rw [he2] at g
      exact ⟨g.1, g.2.1, g.2.2⟩

theorem generate_jump_pres {h : h2_t} {a : assembler_t} {t : symbol_table_t} {tok : Tok}
    {k : JumpKind} {h1 : h2_t} {a1 : assembler_t}
    (he : generate_jump h a t tok k = .ok (h1, a1))
    (hpc : START_ADDR ≤ h.pc) (hf : START_ADDR ≤ a.fence) :
    START_ADDR ≤ h1.pc ∧ START_ADDR ≤ a1.fence ∧
    ∀ j, j < START_ADDR → h1.core j = h.core j := by
  unfold generate_jump at he
  cases tok with
  | lit n =>
    dsimp only at he
    exact generate_jump_tail_pres he hpc hf
  | ident id =>
    dsimp only at he
    cases hl : symbol_table_lookup t id with
    | none =>
      rw [hl] at he
      exact absurd he (by simp)
    | some s =>
      rw [hl] at he
      dsimp only at he
      by_cases hc : s.type = symbol_type_e.call ∧ k ≠ JumpKind.callJ
      · rw [if_pos hc] at he
        exact absurd he (by simp)
      · rw [if_neg hc] at he
        exact generate_jump_tail_pres he hpc hf
  | str id =>
    dsimp only at he
    cases hl : symbol_table_lookup t id with
    | none =>
      rw [hl] at he
      exact absurd he (by simp)
    | some s =>
      rw [hl] at he
      dsimp only at he
      by_cases hc : s.type = symbol_type_e.call ∧ k ≠ JumpKind.callJ
      · rw [if_pos hc] at he
        exact absurd he (by simp)
      · rw [if_neg hc] at he
        exact generate_jump_tail_pres he hpc hf

theorem generate_loop_decrement_pres (h : h2_t) (a : assembler_t) (t : symbol_table_t)
    (hpc : START_ADDR ≤ h.pc) (hf : START_ADDR ≤ a.fence) :
    START_ADDR ≤ (generate_loop_decrement h a t).1.pc ∧
    START_ADDR ≤ (generate_loop_decrement h a t).2.fence ∧
    ∀ j, j < START_ADDR → (generate_loop_decrement h a t).1.core j = h.core j := by
  unfold generate_loop_decrement
  cases hc : (match a.do_r_minus_one with
    | some s => some s
    | none => symbol_table_lookup t (str2bytes "r1-")) with
  | some s =>
    dsimp only
    by_cases hm : { a with do_r_minus_one := some s }.mode &&& MODE_OPTIMIZATION_ON ≠ 0
    · rw [if_pos hm]
      exact generate_pres h { a with do_r_minus_one := some s } (OP_CALL ||| s.value) hpc hf
    · rw [if_neg hm]
      exact gen3_pres h { a with do_r_minus_one := some s } CODE_FROMR CODE_T_N1 CODE_TOR
        hpc hf
  | none =>
    dsimp only
    exact gen3_pres h { a with do_r_minus_one := none } CODE_FROMR CODE_T_N1 CODE_TOR hpc hf

theorem lsl_wf {tok : Tok} {t : symbol_table_t} {v : Nat} (hwf : tableWF t)
    (he : literal_or_symbol_lookup tok t = .ok v) : v < 65536 := by
  unfold literal_or_symbol_lookup at he
  cases tok with
  | lit n =>
    injection he with h1
    omega
  | ident id =>
    dsimp only at he
    cases hl : symbol_table_lookup t id with
    | none =>
      rw [hl] at he
      exact absurd he (by simp)
    | some s =>
      rw [hl] at he
      injection he with h1
      rw [← h1]
      exact lookup_wf hwf hl
  | str id =>
    exact absurd he (by simp)

theorem assembleVarBody_pres {h : h2_t} {a : assembler_t} {t : symbol_table_t}
    {id : List Nat} {value : Tok} {isLoc : Bool}
    {h2 : h2_t} {a2 : assembler_t} {t2 : symbol_table_t}
    (he : assembleVarBody h a t id value isLoc = .ok (h2, a2, t2))
    (hwf : tableWF t) (hpc : START_ADDR ≤ h.pc) (hf : START_ADDR ≤ a.fence) :
    START_ADDR ≤ h2.pc ∧ START_ADDR ≤ a2.fence ∧ tableWF t2 ∧
    ∀ j, j < START_ADDR → h2.core j = h.core j := by
  unfold assembleVarBody at he
  split at he
  · exact absurd he (by simp)
  · rename_i v x a1 heq
    obtain ⟨hv, _⟩ := here_ok heq
    injection hv with hx ha1
    subst ha1
    split at he
    · rename_i num
      split at he
      · exact absurd he (by simp)
      · rename_i trip hole1 hb ab heq3
        obtain ⟨hv2, _⟩ := hole_ok heq3
        injection hv2 with e1 hv3
        injection hv3 with e2 e3
        subst e1
        subst e2
        subst e3
        split at he
        · exact absurd he (by simp)
        · rename_i hc heq4
          obtain ⟨hce, _⟩ := fix_ok heq4
          subst hce
          split at he
          · exact absurd he (by simp)
          · rename_i t3 heq5
            injection he with he2
            injection he2 with f1 he3
            injection he3 with f2 f3
            subst f1
            subst f2
            subst f3
            refine ⟨?_, ?_, tableWF_add hwf heq5, ?_⟩
            · show START_ADDR ≤ h.pc + 1
              omega
            · exact update_fence_ge _ _ (update_fence_ge a h.pc hf)
            · intro j hj
              show coreWrite h.core h.pc (num % 65536) j = h.core j
              exact coreWrite_other _ _ (by omega)
    · rename_i s1
      split at he
      · exact absurd he (by simp)
      · rename_i trip hole1 hb ab heq3
        have hpp := pack_string_pres heq3 hpc (update_fence_ge a h.pc hf)
        split at he
        · exact absurd he (by simp)
        · rename_i t3 heq4
          injection he with he2
          injection he2 with f1 he3
          injection he3 with f2 f3
          subst f1
          subst f2
          subst f3
          exact ⟨hpp.1, hpp.2.1, tableWF_add hwf heq4, hpp.2.2⟩
    · rename_i s1
      split at he
      · exact absurd he (by simp)
      · rename_i trip hole1 hb ab heq3
        have hpp := pack_string_pres heq3 hpc (update_fence_ge a h.pc hf)
        split at he
        · exact absurd he (by simp)
        · rename_i t3 heq4
          injection he with he2
          injection he2 with f1 he3
          injection he3 with f2 f3
          subst f1
          subst f2
          subst f3
          exact ⟨hpp.1, hpp.2.1, tableWF_add hwf heq4, hpp.2.2⟩

theorem assembleBuiltIns_pres (ws : List built_in_words_t) :
    ∀ (h : h2_t) (a : assembler_t) (t : symbol_table_t)
      (h2 : h2_t) (a2 : assembler_t) (t2 : symbol_table_t),
    assembleBuiltIns h a ws t = .ok (h2, a2, t2) → tableWF t →
    START_ADDR ≤ h.pc → START_ADDR ≤ a.fence →
    START_ADDR ≤ h2.pc ∧ START_ADDR ≤ a2.fence ∧ tableWF t2 ∧
    ∀ j, j < START_ADDR → h2.core j = h.core j := by
  induction ws with
  | nil =>
    intro h a t h2 a2 t2 he hwf hpc hf
    rw [assembleBuiltIns] at he
    injection he with he2
    injection he2 with f1 he3
    injection he3 with f2 f3
    subst f1
    subst f2
    subst f3
    exact ⟨hpc, hf, hwf, fun j hj => rfl⟩
  | cons w rest ih =>
    intro h a t h2 a2 t2 he hwf hpc hf
    rw [assembleBuiltIns] at he
    split at he
    · exact ih h a t h2 a2 t2 he hwf hpc hf
    · rename_i hcw
      split at he
      · split at he
        · dsimp only at he
          exact absurd he (by simp)
        · rename_i trip hole1 hbx abx heq1
          dsimp only at he
          obtain ⟨hv, _⟩ := hole_ok heq1
          injection hv with e1 hv2
          injection hv2 with e2 e3
          subst e1
          subst e2
          subst e3
          split at he
          · exact absurd he (by simp)
          · rename_i pr hex aex heq2
            split at heq2
            · simp at heq2
            · rename_i hcx heq3
              obtain ⟨hce, _⟩ := fix_ok heq3
              subst hce
              split at heq2
              · simp at heq2
              · rename_i trip2 r hex aex heq4p
                have hpp := pack_string_pres heq4p
                  (show START_ADDR ≤ h.pc + 1 from by omega)
                  (update_fence_ge a h.pc hf)
                injection heq2 with hq
                injection hq with q1 q2
                subst q1
                subst q2
                have hdr : START_ADDR ≤ hex.pc ∧ START_ADDR ≤ aex.fence ∧
                    ∀ j, j < START_ADDR → hex.core j = h.core j :=
                  ⟨hpp.1, hpp.2.1, fun j hj => by
                    rw [hpp.2.2 j hj]
                    exact coreWrite_other _ _ (by omega)⟩
                split at he
                · exact absurd he (by simp)
                · rename_i v pc0 a3 heq4
                  obtain ⟨hv4, _⟩ := here_ok heq4
                  injection hv4 with e4 e5
                  subst e4
                  subst e5
                  split at he
                  · exact absurd he (by simp)
                  · rename_i t3 heq5
                    have hg1 := genList_pres (w.code.take w.len) hex (update_fence aex hex.pc)
                      hdr.1 (update_fence_ge _ _ hdr.2.1)
                    have hg2 := generate_pres (genList hex (update_fence aex hex.pc) (w.code.take w.len)).1
                      (genList hex (update_fence aex hex.pc) (w.code.take w.len)).2 CODE_EXIT
                      hg1.1 hg1.2.1
                    have hrest := ih _ _ t3 h2 a2 t2 he (tableWF_add hwf heq5) hg2.1 hg2.2.1
                    exact ⟨hrest.1, hrest.2.1, hrest.2.2.1, fun j hj =>
                      ((((hrest.2.2.2 j hj).trans (hg2.2.2 j hj)).trans (hg1.2.2 j hj)).trans
              (hdr.2.2 j hj))⟩
      · dsimp only at he
        have hdr : START_ADDR ≤ h.pc ∧ START_ADDR ≤ a.fence ∧
            ∀ j, j < START_ADDR → h.core j = h.core j := ⟨hpc, hf, fun j hj => rfl⟩
        split at he
        · exact absurd he (by simp)
        · rename_i v pc0 a3 heq4
          obtain ⟨hv4, _⟩ := here_ok heq4
          injection hv4 with e4 e5
          subst e4
          subst e5
          split at he
          · exact absurd he (by simp)
          · rename_i t3 heq5
            have hg1 := genList_pres (w.code.take w.len) h (update_fence a h.pc)
              hdr.1 (update_fence_ge _ _ hdr.2.1)
            have hg2 := generate_pres (genList h (update_fence a h.pc) (w.code.take w.len)).1
              (genList h (update_fence a h.pc) (w.code.take w.len)).2 CODE_EXIT
              hg1.1 hg1.2.1
            have hrest := ih _ _ t3 h2 a2 t2 he (tableWF_add hwf heq5) hg2.1 hg2.2.1
            exact ⟨hrest.1, hrest.2.1, hrest.2.2.1, fun j hj =>
              ((((hrest.2.2.2 j hj).trans (hg2.2.2 j hj)).trans (hg1.2.2 j hj)).trans
              (hdr.2.2 j hj))⟩

theorem here_pres {h : h2_t} {a : assembler_t} {pc0 : Nat} {a1 : assembler_t}
    (hh : here h a = .ok (pc0, a1)) (hf : START_ADDR ≤ a.fence) :
    pc0 = h.pc ∧ START_ADDR ≤ a1.fence := by
  obtain ⟨hv, _⟩ := here_ok hh
  injection hv with e1 e2
  subst e1
  subst e2
  exact ⟨rfl, update_fence_ge a h.pc hf⟩

theorem hole_pres {h : h2_t} {a : assembler_t} {k : Nat} {hK : h2_t} {aK : assembler_t}
    (hh : hole h a = .ok (k, hK, aK)) (hf : START_ADDR ≤ a.fence) :
    k = h.pc ∧ hK.pc = h.pc + 1 ∧ (∀ j, hK.core j = h.core j) ∧
    START_ADDR ≤ aK.fence := by
  obtain ⟨hv, _⟩ := hole_ok hh
  injection hv with e1 hv2
  injection hv2 with e2 e3
  subst e1
  subst e2
  subst e3
  exact ⟨rfl, rfl, fun j => rfl, update_fence_ge a h.pc hf⟩

theorem fix_pres {h : h2_t} {loc p : Nat} {h2 : h2_t} (hfx : fix h loc p = .ok h2)
    (hge : START_ADDR ≤ loc) :
    h2.pc = h.pc ∧ ∀ j, j < START_ADDR → h2.core j = h.core j := by
  obtain ⟨hv, _⟩ := fix_ok hfx
  subst hv
  exact ⟨rfl, fun j hj => coreWrite_other _ _ (by omega)⟩

mutual

theorem assemble_pres (n : Node) : ∀ (h : h2_t) (a : assembler_t) (t : symbol_table_t)
    (h2 : h2_t) (a2 : assembler_t) (t2 : symbol_table_t),
    assemble h a n t = .ok (h2, a2, t2) → noSetPc n = true → tableWF t →
    START_ADDR ≤ h.pc → START_ADDR ≤ a.fence →
    START_ADDR ≤ h2.pc ∧ START_ADDR ≤ a2.fence ∧ tableWF t2 ∧
    ∀ j, j < START_ADDR → h2.core j = h.core j := by
  cases n with
  | program o0 =>
    intro h a t h2 a2 t2 he hn hwf hpc hf
    rw [assemble] at he
    try dsimp only at he
    by_cases hov : h.pc > MAX_PROGRAM
    · rw [if_pos hov] at he
      exact absurd he (by simp)
    · rw [if_neg hov] at he
      exact assemble_pres o0 h a t h2 a2 t2 he hn hwf hpc hf
  | statements os =>
    intro h a t h2 a2 t2 he hn hwf hpc hf
    rw [assemble] at he
    try dsimp only at he
    by_cases hov : h.pc > MAX_PROGRAM
    · rw [if_pos hov] at he
      exact absurd he (by simp)
    · rw [if_neg hov] at he
      exact assembleList_pres os h a t h2 a2 t2 he hn hwf hpc hf
  | labelN id =>
    intro h a t h2 a2 t2 he hn hwf hpc hf
    rw [assemble] at he
    try dsimp only at he
    by_cases hov : h.pc > MAX_PROGRAM
    · rw [if_pos hov] at he
      exact absurd he (by simp)
    · rw [if_neg hov] at he
      split at he
      · exact absurd he (by simp)
      · rename_i v pc0 a1 heq1
        obtain ⟨e1, hfn1⟩ := here_pres heq1 hf
        subst e1
        split at he
        · exact absurd he (by simp)
        · rename_i t3 heq2
          injection he with he2
          injection he2 with f1 he3
          injection he3 with f2 f3
          subst f1
          subst f2
          subst f3
          exact ⟨hpc, hfn1, tableWF_add hwf heq2, fun j hj => rfl⟩
  | branch tok =>
    intro h a t h2 a2 t2 he hn hwf hpc hf
    rw [assemble] at he
    try dsimp only at he
    by_cases hov : h.pc > MAX_PROGRAM
    · rw [if_pos hov] at he
      exact absurd he (by simp)
    · rw [if_neg hov] at he
      split at he
      · exact absurd he (by simp)
      · rename_i p hx ax heq1
        have hj1 := generate_jump_pres heq1 hpc hf
        injection he with he2
        injection he2 with f1 he3
        injection he3 with f2 f3
        subst f1
        subst f2
        subst f3
        exact ⟨hj1.1, hj1.2.1, hwf, hj1.2.2⟩
  | zbranch tok =>
    intro h a t h2 a2 t2 he hn hwf hpc hf
    rw [assemble] at he
    try dsimp only at he
    by_cases hov : h.pc > MAX_PROGRAM
    · rw [if_pos hov] at he
      exact absurd he (by simp)
    · rw [if_neg hov] at he
      split at he
      · exact absurd he (by simp)
      · rename_i p hx ax heq1
        have hj1 := generate_jump_pres heq1 hpc hf
        injection he with he2
        injection he2 with f1 he3
        injection he3 with f2 f3
        subst f1
        subst f2
        subst f3
        exact ⟨hj1.1, hj1.2.1, hwf, hj1.2.2⟩
  | callN tok =>
    intro h a t h2 a2 t2 he hn hwf hpc hf
    rw [assemble] at he
    try dsimp only at he
    by_cases hov : h.pc > MAX_PROGRAM
    · rw [if_pos hov] at he
      exact absurd he (by simp)
    · rw [if_neg hov] at he
      split at he
      · exact absurd he (by simp)
      · rename_i p hx ax heq1
        have hj1 := generate_jump_pres heq1 hpc hf
        injection he with he2
        injection he2 with f1 he3
        injection he3 with f2 f3
        subst f1
        subst f2
        subst f3
        exact ⟨hj1.1, hj1.2.1, hwf, hj1.2.2⟩
  | constant id value bits =>
    intro h a t h2 a2 t2 he hn hwf hpc hf
    rw [assemble] at he
    try dsimp only at he
    by_cases hov : h.pc > MAX_PROGRAM
    · rw [if_pos hov] at he
      exact absurd he (by simp)
    · rw [if_neg hov] at he
      split at he
      · split at he
        · exact absurd he (by simp)
        · rename_i s0 dc heqdc
          try dsimp only at he
          split at he
          · exact absurd he (by simp)
          · rename_i trip k1 hB aB heqA
            obtain ⟨ek1, hBpc, hBcore, haB⟩ := hole_pres heqA hf
            subst ek1
            split at he
            · exact absurd he (by simp)
            · rename_i hC heqB
              obtain ⟨hCpc, hCfr⟩ := fix_pres heqB (by omega)
              split at he
              · exact absurd he (by simp)
              · rename_i trip2 r1 hD aD heqC
                have hppD := pack_string_pres heqC
                  (show START_ADDR ≤ hC.pc from by rw [hCpc, hBpc]; omega) haB
                have hgE := generate_pres hD aD (OP_CALL ||| dc.value) hppD.1 hppD.2.1
                split at he
                · exact absurd he (by simp)
                · rename_i trip3 k2 hF aF heqD
                  obtain ⟨ek2, hFpc, hFcore, haF⟩ := hole_pres heqD hgE.2.1
                  split at he
                  · exact absurd he (by simp)
                  · rename_i hG heqE
                    obtain ⟨hGpc, hGfr⟩ := fix_pres heqE (by rw [ek2]; exact hgE.1)
                    split at he
                    · exact absurd he (by simp)
                    · rename_i t3 heqF
                      injection he with he2
                      injection he2 with f1 he3
                      injection he3 with f2 f3
                      subst f1
                      subst f2
                      subst f3
                      refine ⟨?_, haF, tableWF_add hwf heqF, ?_⟩
                      · rw [hGpc, hFpc]
                        have h1 := hgE.1
                        omega
                      · intro j hj
                        rw [hGfr j hj, hFcore j, hgE.2.2 j hj, hppD.2.2 j hj, hCfr j hj,
                          hBcore j]
      · split at he
        · exact absurd he (by simp)
        · rename_i t3 heqF
          injection he with he2
          injection he2 with f1 he3
          injection he3 with f2 f3
          subst f1
          subst f2
          subst f3
          exact ⟨hpc, hf, tableWF_add hwf heqF, fun j hj => rfl⟩
  | varDecl id value bits =>
    intro h a t h2 a2 t2 he hn hwf hpc hf
    rw [assemble] at he
    try dsimp only at he
    by_cases hov : h.pc > MAX_PROGRAM
    · rw [if_pos hov] at he
      exact absurd he (by simp)
    · rw [if_neg hov] at he
      split at he
      · split at he
        · exact absurd he (by simp)
        · rename_i s0 dv heqdv
          try dsimp only at he
          split at he
          · exact absurd he (by simp)
          · rename_i trip k1 hB aB heqA
            obtain ⟨ek1, hBpc, hBcore, haB⟩ := hole_pres heqA hf
            subst ek1
            split at he
            · exact absurd he (by simp)
            · rename_i hC heqB
              obtain ⟨hCpc, hCfr⟩ := fix_pres heqB (by omega)
              split at he
              · exact absurd he (by simp)
              · rename_i trip2 r1 hD aD heqC
                have hppD := pack_string_pres heqC
                  (show START_ADDR ≤ hC.pc from by rw [hCpc, hBpc]; omega) haB
                have hgE := generate_pres hD aD (OP_CALL ||| dv.value) hppD.1 hppD.2.1
                have hvb := assembleVarBody_pres he hwf hgE.1 hgE.2.1
                exact ⟨hvb.1, hvb.2.1, hvb.2.2.1, fun j hj =>
                  ((((hvb.2.2.2 j hj).trans (hgE.2.2 j hj)).trans (hppD.2.2 j hj)).trans
                    (hCfr j hj)).trans (hBcore j)⟩
      · split at he
        · exact absurd he (by simp)
        · have hvb := assembleVarBody_pres he hwf hpc hf
          exact ⟨hvb.1, hvb.2.1, hvb.2.2.1, hvb.2.2.2⟩
  | location id value bits =>
    intro h a t h2 a2 t2 he hn hwf hpc hf
    rw [assemble] at he
    try dsimp only at he
    by_cases hov : h.pc > MAX_PROGRAM
    · rw [if_pos hov] at he
      exact absurd he (by simp)
    · rw [if_neg hov] at he
      have hvb := assembleVarBody_pres he hwf hpc hf
      exact ⟨hvb.1, hvb.2.1, hvb.2.2.1, hvb.2.2.2⟩
  | quoteN id =>
    intro h a t h2 a2 t2 he hn hwf hpc hf
    rw [assemble] at he
    try dsimp only at he
    by_cases hov : h.pc > MAX_PROGRAM
    · rw [if_pos hov] at he
      exact absurd he (by simp)
    · rw [if_neg hov] at he
      split at he
      · exact absurd he (by simp)
      · rename_i s heqL
        split at he
        · exact absurd he (by simp)
        · try dsimp only at he
          have hgl := generate_literal_pres h a ((s.value <<< 1) % 65536) hpc hf
          injection he with he2
          injection he2 with f1 he3
          injection he3 with f2 f3
          subst f1
          subst f2
          subst f3
          exact ⟨hgl.1, hgl.2.1, hwf, hgl.2.2⟩
  | literal tok =>
    intro h a t h2 a2 t2 he hn hwf hpc hf
    rw [assemble] at he
    try dsimp only at he
    by_cases hov : h.pc > MAX_PROGRAM
    · rw [if_pos hov] at he
      exact absurd he (by simp)
    · rw [if_neg hov] at he
      try dsimp only at he
      have hgl := generate_literal_pres h a tok.num hpc hf
      injection he with he2
      injection he2 with f1 he3
      injection he3 with f2 f3
      subst f1
      subst f2
      subst f3
      exact ⟨hgl.1, hgl.2.1, hwf, hgl.2.2⟩
  | instruction code =>
    intro h a t h2 a2 t2 he hn hwf hpc hf
    rw [assemble] at he
    try dsimp only at he
    by_cases hov : h.pc > MAX_PROGRAM
    · rw [if_pos hov] at he
      exact absurd he (by simp)
    · rw [if_neg hov] at he
      try dsimp only at he
      have hg := generate_pres h a code hpc hf
      injection he with he2
      injection he2 with f1 he3
      injection he3 with f2 f3
      subst f1
      subst f2
      subst f3
      exact ⟨hg.1, hg.2.1, hwf, hg.2.2⟩
  | beginUntil o0 =>
    intro h a t h2 a2 t2 he hn hwf hpc hf
    rw [assemble] at he
    try dsimp only at he
    by_cases hov : h.pc > MAX_PROGRAM
    · rw [if_pos hov] at he
      exact absurd he (by simp)
    · rw [if_neg hov] at he
      split at he
      · exact absurd he (by simp)
      · rename_i v k1 a1 heqH
        obtain ⟨ek1, ha1⟩ := here_pres heqH hf
        subst ek1
        split at he
        · exact absurd he (by simp)
        · rename_i trip hx ax tx heqR
          have hrec := assemble_pres o0 h a1 t hx ax tx heqR hn hwf hpc ha1
          try dsimp only at he
          have hg := generate_pres hx ax (OP_0BRANCH ||| h.pc) hrec.1 hrec.2.1
          injection he with he2
          injection he2 with f1 he3
          injection he3 with f2 f3
          subst f1
          subst f2
          subst f3
          exact ⟨hg.1, hg.2.1, hrec.2.2.1, fun j hj =>
            (hg.2.2 j hj).trans (hrec.2.2.2 j hj)⟩
  | beginAgain o0 =>
    intro h a t h2 a2 t2 he hn hwf hpc hf
    rw [assemble] at he
    try dsimp only at he
    by_cases hov : h.pc > MAX_PROGRAM
    · rw [if_pos hov] at he
      exact absurd he (by simp)
    · rw [if_neg hov] at he
      split at he
      · exact absurd he (by simp)
      · rename_i v k1 a1 heqH
        obtain ⟨ek1, ha1⟩ := here_pres heqH hf
        subst ek1
        split at he
        · exact absurd he (by simp)
        · rename_i trip hx ax tx heqR
          have hrec := assemble_pres o0 h a1 t hx ax tx heqR hn hwf hpc ha1
          try dsimp only at he
          have hg := generate_pres hx ax (OP_BRANCH ||| h.pc) hrec.1 hrec.2.1
          injection he with he2
          injection he2 with f1 he3
          injection he3 with f2 f3
          subst f1
          subst f2
          subst f3
          exact ⟨hg.1, hg.2.1, hrec.2.2.1, fun j hj =>
            (hg.2.2 j hj).trans (hrec.2.2.2 j hj)⟩
  | forNext o0 =>
    intro h a t h2 a2 t2 he hn hwf hpc hf
    rw [assemble] at he
    try dsimp only at he
    by_cases hov : h.pc > MAX_PROGRAM
    · rw [if_pos hov] at he
      exact absurd he (by simp)
    · rw [if_neg hov] at he
      split at he
      · rename_i s0 sv heqdn
        try dsimp only at he
        split at he
        ·
          have hg1 := generate_pres h a CODE_TOR hpc hf
          split at he
          · exact absurd he (by simp)
          · rename_i v k1 aH heqH
            obtain ⟨ek1, haH⟩ := here_pres heqH hg1.2.1
            split at he
            · exact absurd he (by simp)
            · rename_i trip hx ax tx heqR
              have hrec := assemble_pres o0 (generate h a CODE_TOR).1 aH t hx ax tx heqR hn hwf
                hg1.1 haH
              try dsimp only at he
              have hg2 := generate_pres hx ax (OP_CALL ||| sv.value) hrec.1 hrec.2.1
              have hg3 := generate_pres (generate hx ax (OP_CALL ||| sv.value)).1
                (generate hx ax (OP_CALL ||| sv.value)).2 (k1 <<< 1) hg2.1 hg2.2.1
              injection he with he2
              injection he2 with f1 he3
              injection he3 with f2 f3
              subst f1
              subst f2
              subst f3
              exact ⟨hg3.1, hg3.2.1, hrec.2.2.1, fun j hj =>
                (((hg3.2.2 j hj).trans (hg2.2.2 j hj)).trans (hrec.2.2.2 j hj)).trans
                  (hg1.2.2 j hj)⟩
        ·
          have hg1 := generate_pres h a CODE_TOR hpc hf
          split at he
          · exact absurd he (by simp)
          · rename_i v k1 aH heqH
            obtain ⟨ek1, haH⟩ := here_pres heqH hg1.2.1
            split at he
            · exact absurd he (by simp)
            · rename_i trip hx ax tx heqR
              have hrec := assemble_pres o0 (generate h a CODE_TOR).1 aH t hx ax tx heqR hn hwf
                hg1.1 haH
              have hg2 := generate_pres hx ax CODE_RAT hrec.1 hrec.2.1
              split at he
              · exact absurd he (by simp)
              · rename_i trip2 k2 hB aB heqHo
                obtain ⟨ek2, hBpc, hBcore, haB⟩ := hole_pres heqHo hg2.2.1
                have hld := generate_loop_decrement_pres hB aB tx
                  (by have h1 := hg2.1; omega) haB
                have hg4 := generate_pres (generate_loop_decrement hB aB tx).1
                  (generate_loop_decrement hB aB tx).2 (OP_BRANCH ||| k1) hld.1 hld.2.1
                split at he
                · exact absurd he (by simp)
                · rename_i v2 pc1 aD heqH2
                  obtain ⟨epc1, haD⟩ := here_pres heqH2 hg4.2.1
                  split at he
                  · exact absurd he (by simp)
                  · rename_i hE heqF
                    obtain ⟨hEpc, hEfr⟩ := fix_pres heqF (by have h1 := hg2.1; omega)
                    try dsimp only at he
                    have hg5 := generate_pres hE aD CODE_RDROP
                      (by rw [hEpc]; exact hg4.1) haD
                    injection he with he2
                    injection he2 with f1 he3
                    injection he3 with f2 f3
                    subst f1
                    subst f2
                    subst f3
                    exact ⟨hg5.1, hg5.2.1, hrec.2.2.1, fun j hj =>
                      (((((((hg5.2.2 j hj).trans (hEfr j hj)).trans (hg4.2.2 j hj)).trans
                        (hld.2.2 j hj)).trans (hBcore j)).trans (hg2.2.2 j hj)).trans
                        (hrec.2.2.2 j hj)).trans (hg1.2.2 j hj)⟩
      · rename_i s0 heqdn
        try dsimp only at he
        have hg1 := generate_pres h a CODE_TOR hpc hf
        split at he
        · exact absurd he (by simp)
        · rename_i v k1 aH heqH
          obtain ⟨ek1, haH⟩ := here_pres heqH hg1.2.1
          split at he
          · exact absurd he (by simp)
          · rename_i trip hx ax tx heqR
            have hrec := assemble_pres o0 (generate h a CODE_TOR).1 aH t hx ax tx heqR hn hwf
              hg1.1 haH
            have hg2 := generate_pres hx ax CODE_RAT hrec.1 hrec.2.1
            split at he
            · exact absurd he (by simp)
            · rename_i trip2 k2 hB aB heqHo
              obtain ⟨ek2, hBpc, hBcore, haB⟩ := hole_pres heqHo hg2.2.1
              have hld := generate_loop_decrement_pres hB aB tx
                (by have h1 := hg2.1; omega) haB
              have hg4 := generate_pres (generate_loop_decrement hB aB tx).1
                (generate_loop_decrement hB aB tx).2 (OP_BRANCH ||| k1) hld.1 hld.2.1
              split at he
              · exact absurd he (by simp)
              · rename_i v2 pc1 aD heqH2
                obtain ⟨epc1, haD⟩ := here_pres heqH2 hg4.2.1
                split at he
                · exact absurd he (by simp)
                · rename_i hE heqF
                  obtain ⟨hEpc, hEfr⟩ := fix_pres heqF (by have h1 := hg2.1; omega)
                  try dsimp only at he
                  have hg5 := generate_pres hE aD CODE_RDROP
                    (by rw [hEpc]; exact hg4.1) haD
                  injection he with he2
                  injection he2 with f1 he3
                  injection he3 with f2 f3
                  subst f1
                  subst f2
                  subst f3
                  exact ⟨hg5.1, hg5.2.1, hrec.2.2.1, fun j hj =>
                    (((((((hg5.2.2 j hj).trans (hEfr j hj)).trans (hg4.2.2 j hj)).trans
                      (hld.2.2 j hj)).trans (hBcore j)).trans (hg2.2.2 j hj)).trans
                      (hrec.2.2.2 j hj)).trans (hg1.2.2 j hj)⟩
  | forAftThenNext o0 o1 o2 =>
    intro h a t h2 a2 t2 he hn hwf hpc hf
    rw [assemble] at he
    try dsimp only at he
    by_cases hov : h.pc > MAX_PROGRAM
    · rw [if_pos hov] at he
      exact absurd he (by simp)
    · rw [if_neg hov] at he
      simp only [noSetPc, Bool.and_eq_true] at hn
      have hg1 := generate_pres h a CODE_TOR hpc hf
      split at he
      · exact absurd he (by simp)
      · rename_i trip hx ax tx heqR1
        have hrec1 := assemble_pres o0 (generate h a CODE_TOR).1 (generate h a CODE_TOR).2
          t hx ax tx heqR1 hn.1.1 hwf hg1.1 hg1.2.1
        split at he
        · exact absurd he (by simp)
        · rename_i trip2 k1 hB aB heqHo1
          obtain ⟨ek1, hBpc, hBcore, haB⟩ := hole_pres heqHo1 hrec1.2.1
          have hg2 := generate_pres hB aB CODE_RAT (by have h1 := hrec1.1; omega) haB
          have hld := generate_loop_decrement_pres (generate hB aB CODE_RAT).1
            (generate hB aB CODE_RAT).2 tx hg2.1 hg2.2.1
          split at he
          · exact absurd he (by simp)
          · rename_i trip3 k2 hC aC heqHo2
            obtain ⟨ek2, hCpc, hCcore, haC⟩ := hole_pres heqHo2 hld.2.1
            split at he
            · exact absurd he (by simp)
            · rename_i trip4 hD aD tD heqR2
              have hrec2 := assemble_pres o1 hC aC tx hD aD tD heqR2 hn.1.2
                hrec1.2.2.1 (by have h1 := hld.1; omega) haC
              split at he
              · exact absurd he (by simp)
              · rename_i v2 pc1 aE heqH2
                obtain ⟨epc1, haE⟩ := here_pres heqH2 hrec2.2.1
                split at he
                · exact absurd he (by simp)
                · rename_i hF heqF1
                  obtain ⟨hFpc, hFfr⟩ := fix_pres heqF1 (by rw [ek1]; exact hrec1.1)
                  split at he
                  · exact absurd he (by simp)
                  · rename_i trip5 hG aG tG heqR3
                    have hrec3 := assemble_pres o2 hF aE tD hG aG tG heqR3 hn.2
                      hrec2.2.2.1 (by rw [hFpc]; exact hrec2.1) haE
                    try dsimp only at he
                    have hg6 := generate_pres hG aG (OP_BRANCH ||| (k1 + 1))
                      hrec3.1 hrec3.2.1
                    split at he
                    · exact absurd he (by simp)
                    · rename_i v3 pc2 aI heqH3
                      obtain ⟨epc2, haI⟩ := here_pres heqH3 hg6.2.1
                      split at he
                      · exact absurd he (by simp)
                      · rename_i hJ heqF2
                        obtain ⟨hJpc, hJfr⟩ := fix_pres heqF2
                          (by have h1 := hld.1; omega)
                        try dsimp only at he
                        have hg7 := generate_pres hJ aI CODE_RDROP
                          (by rw [hJpc]; exact hg6.1) haI
                        injection he with he2
                        injection he2 with f1 he3
                        injection he3 with f2 f3
                        subst f1
                        subst f2
                        subst f3
                        exact ⟨hg7.1, hg7.2.1, hrec3.2.2.1, fun j hj =>
                          (((((((((((hg7.2.2 j hj).trans (hJfr j hj)).trans
                            (hg6.2.2 j hj)).trans (hrec3.2.2.2 j hj)).trans
                            (hFfr j hj)).trans (hrec2.2.2.2 j hj)).trans
                            (hCcore j)).trans (hld.2.2 j hj)).trans
                            (hg2.2.2 j hj)).trans (hBcore j)).trans
                            (hrec1.2.2.2 j hj)).trans (hg1.2.2 j hj)⟩
  | beginWhileRepeat o0 o1 =>
    intro h a t h2 a2 t2 he hn hwf hpc hf
    rw [assemble] at he
    try dsimp only at he
    by_cases hov : h.pc > MAX_PROGRAM
    · rw [if_pos hov] at he
      exact absurd he (by simp)
    · rw [if_neg hov] at he
      simp only [noSetPc, Bool.and_eq_true] at hn
      split at he
      · exact absurd he (by simp)
      · rename_i v k1 a1 heqH
        obtain ⟨ek1, ha1⟩ := here_pres heqH hf
        subst ek1
        split at he
        · exact absurd he (by simp)
        · rename_i trip hx ax tx heqR1
          have hrec1 := assemble_pres o0 h a1 t hx ax tx heqR1 hn.1 hwf hpc ha1
          split at he
          · exact absurd he (by simp)
          · rename_i trip2 k2 hB aB heqHo
            obtain ⟨ek2, hBpc, hBcore, haB⟩ := hole_pres heqHo hrec1.2.1
            split at he
            · exact absurd he (by simp)
            · rename_i trip3 hC aC tC heqR2
              have hrec2 := assemble_pres o1 hB aB tx hC aC tC heqR2 hn.2
                hrec1.2.2.1 (by have h1 := hrec1.1; omega) haB
              try dsimp only at he
              have hg := generate_pres hC aC (OP_BRANCH ||| h.pc) hrec2.1 hrec2.2.1
              split at he
              · exact absurd he (by simp)
              · rename_i v2 pc1 aD heqH2
                obtain ⟨epc1, haD⟩ := here_pres heqH2 hg.2.1
                split at he
                · exact absurd he (by simp)
                · rename_i hE heqF
                  obtain ⟨hEpc, hEfr⟩ := fix_pres heqF
                    (by have h1 := hrec1.1; omega)
                  injection he with he2
                  injection he2 with f1 he3
                  injection he3 with f2 f3
                  subst f1
                  subst f2
                  subst f3
                  refine ⟨?_, haD, hrec2.2.2.1, ?_⟩
                  · rw [hEpc]
                    exact hg.1
                  · intro j hj
                    rw [hEfr j hj, hg.2.2 j hj, hrec2.2.2.2 j hj, hBcore j,
                      hrec1.2.2.2 j hj]
  | ifThen o0 =>
    intro h a t h2 a2 t2 he hn hwf hpc hf
    rw [assemble] at he
    try dsimp only at he
    by_cases hov : h.pc > MAX_PROGRAM
    · rw [if_pos hov] at he
      exact absurd he (by simp)
    · rw [if_neg hov] at he
      split at he
      · exact absurd he (by simp)
      · rename_i trip k1 hB aB heqHo
        obtain ⟨ek1, hBpc, hBcore, haB⟩ := hole_pres heqHo hf
        subst ek1
        split at he
        · exact absurd he (by simp)
        · rename_i trip2 hx ax tx heqR
          have hrec := assemble_pres o0 hB aB t hx ax tx heqR hn hwf (by omega) haB
          split at he
          · exact absurd he (by simp)
          · rename_i v pc1 aD heqH2
            obtain ⟨epc1, haD⟩ := here_pres heqH2 hrec.2.1
            split at he
            · exact absurd he (by simp)
            · rename_i hE heqF
              obtain ⟨hEpc, hEfr⟩ := fix_pres heqF (by omega)
              injection he with he2
              injection he2 with f1 he3
              injection he3 with f2 f3
              subst f1
              subst f2
              subst f3
              refine ⟨?_, haD, hrec.2.2.1, ?_⟩
              · rw [hEpc]
                exact hrec.1
              · intro j hj
                rw [hEfr j hj, hrec.2.2.2 j hj, hBcore j]
  | ifElse o0 o1 =>
    intro h a t h2 a2 t2 he hn hwf hpc hf
    rw [assemble] at he
    try dsimp only at he
    by_cases hov : h.pc > MAX_PROGRAM
    · rw [if_pos hov] at he
      exact absurd he (by simp)
    · rw [if_neg hov] at he
      simp only [noSetPc, Bool.and_eq_true] at hn
      split at he
      · exact absurd he (by simp)
      · rename_i trip k1 hB aB heqHo1
        obtain ⟨ek1, hBpc, hBcore, haB⟩ := hole_pres heqHo1 hf
        subst ek1
        split at he
        · exact absurd he (by simp)
        · rename_i trip2 hx ax tx heqR1
          have hrec1 := assemble_pres o0 hB aB t hx ax tx heqR1 hn.1 hwf (by omega) haB
          split at he
          · exact absurd he (by simp)
          · rename_i trip3 k2 hC aC heqHo2
            obtain ⟨ek2, hCpc, hCcore, haC⟩ := hole_pres heqHo2 hrec1.2.1
            split at he
            · exact absurd he (by simp)
            · rename_i hD heqF1
              obtain ⟨hDpc, hDfr⟩ := fix_pres heqF1 (by omega)
              split at he
              · exact absurd he (by simp)
              · rename_i trip4 hE aE tE heqR2
                have hrec2 := assemble_pres o1 hD aC tx hE aE tE heqR2 hn.2
                  hrec1.2.2.1 (by have h1 := hrec1.1; omega) haC
                split at he
                · exact absurd he (by simp)
                · rename_i v pc1 aF heqH2
                  obtain ⟨epc1, haF⟩ := here_pres heqH2 hrec2.2.1
                  split at he
                  · exact absurd he (by simp)
                  · rename_i hG heqF2
                    obtain ⟨hGpc, hGfr⟩ := fix_pres heqF2
                      (by have h1 := hrec1.1; omega)
                    injection he with he2
                    injection he2 with f1 he3
                    injection he3 with f2 f3
                    subst f1
                    subst f2
                    subst f3
                    refine ⟨?_, haF, hrec2.2.2.1, ?_⟩
                    · rw [hGpc]
                      exact hrec2.1
                    · intro j hj
                      rw [hGfr j hj, hrec2.2.2.2 j hj, hDfr j hj, hCcore j,
                        hrec1.2.2.2 j hj, hBcore j]
  | definition id bits o0 =>
    intro h a t h2 a2 t2 he hn hwf hpc hf
    rw [assemble] at he
    try dsimp only at he
    by_cases hov : h.pc > MAX_PROGRAM
    · rw [if_pos hov] at he
      exact absurd he (by simp)
    · rw [if_neg hov] at he
      split at he
      · exact absurd he (by simp)
      · split at he
        · exact absurd he (by simp)
        · rename_i pr hD aD heqCh
          have hdr : START_ADDR ≤ hD.pc ∧ START_ADDR ≤ aD.fence ∧
              ∀ j, j < START_ADDR → hD.core j = h.core j := by
            split at heqCh
            · split at heqCh
              · exact absurd heqCh (by simp)
              · rename_i trip k1 hB aB heqHo
                obtain ⟨ek1, hBpc, hBcore, haB⟩ := hole_pres heqHo hf
                split at heqCh
                · exact absurd heqCh (by simp)
                · rename_i hC heqFx
                  obtain ⟨hCpc, hCfr⟩ := fix_pres heqFx (by rw [ek1]; omega)
                  split at heqCh
                  · exact absurd heqCh (by simp)
                  · rename_i trip2 r1 hEx aEx heqPk
                    have hpp := pack_string_pres heqPk
                      (show START_ADDR ≤ hC.pc from by rw [hCpc, hBpc]; omega) haB
                    injection heqCh with hq
                    injection hq with q1 q2
                    subst q1
                    subst q2
                    exact ⟨hpp.1, hpp.2.1, fun j hj =>
                      ((hpp.2.2 j hj).trans (hCfr j hj)).trans (hBcore j)⟩
            · injection heqCh with hq
              injection hq with q1 q2
              subst q1
              subst q2
              exact ⟨hpc, hf, fun j hj => rfl⟩
          split at he
          · exact absurd he (by simp)
          · rename_i v pc0 aH2 heqHr
            obtain ⟨epc0, haH2⟩ := here_pres heqHr hdr.2.1
            subst epc0
            split at he
            · exact absurd he (by simp)
            · rename_i t3 heqAdd
              split at he
              · exact absurd he (by simp)
              · split at he
                · exact absurd he (by simp)
                · rename_i trip4 hx ax tx heqR
                  have hrec := assemble_pres o0 hD _ t3 hx ax tx heqR hn
                    (tableWF_add hwf heqAdd) hdr.1 haH2
                  try dsimp only at he
                  have hg := generate_pres hx ax CODE_EXIT hrec.1 hrec.2.1
                  injection he with he2
                  injection he2 with f1 he3
                  injection he3 with f2 f3
                  subst f1
                  subst f2
                  subst f3
                  exact ⟨hg.1, hg.2.1, hrec.2.2.1, fun j hj =>
                    ((hg.2.2 j hj).trans (hrec.2.2.2 j hj)).trans (hdr.2.2 j hj)⟩
  | charN id =>
    intro h a t h2 a2 t2 he hn hwf hpc hf
    rw [assemble] at he
    try dsimp only at he
    by_cases hov : h.pc > MAX_PROGRAM
    · rw [if_pos hov] at he
      exact absurd he (by simp)
    · rw [if_neg hov] at he
      try dsimp only at he
      have hg := generate_pres h a (OP_LITERAL ||| byteAt id 0) hpc hf
      injection he with he2
      injection he2 with f1 he3
      injection he3 with f2 f3
      subst f1
      subst f2
      subst f3
      exact ⟨hg.1, hg.2.1, hwf, hg.2.2⟩
  | setN token value =>
    intro h a t h2 a2 t2 he hn hwf hpc hf
    simp [noSetPc] at hn
  | pcN token =>
    intro h a t h2 a2 t2 he hn hwf hpc hf
    simp [noSetPc] at hn
  | pwdN token =>
    intro h a t h2 a2 t2 he hn hwf hpc hf
    rw [assemble] at he
    try dsimp only at he
    by_cases hov : h.pc > MAX_PROGRAM
    · rw [if_pos hov] at he
      exact absurd he (by simp)
    · rw [if_neg hov] at he
      split at he
      · exact absurd he (by simp)
      · rename_i v heqL
        injection he with he2
        injection he2 with f1 he3
        injection he3 with f2 f3
        subst f1
        subst f2
        subst f3
        exact ⟨hpc, hf, hwf, fun j hj => rfl⟩
  | modeN token =>
    intro h a t h2 a2 t2 he hn hwf hpc hf
    rw [assemble] at he
    try dsimp only at he
    by_cases hov : h.pc > MAX_PROGRAM
    · rw [if_pos hov] at he
      exact absurd he (by simp)
    · rw [if_neg hov] at he
      try dsimp only at he
      injection he with he2
      injection he2 with f1 he3
      injection he3 with f2 f3
      subst f1
      subst f2
      subst f3
      exact ⟨hpc, hf, hwf, fun j hj => rfl⟩
  | allocate token =>
    intro h a t h2 a2 t2 he hn hwf hpc hf
    rw [assemble] at he
    try dsimp only at he
    by_cases hov : h.pc > MAX_PROGRAM
    · rw [if_pos hov] at he
      exact absurd he (by simp)
    · rw [if_neg hov] at he
      split at he
      · exact absurd he (by simp)
      · rename_i v heqL
        have hvlt := lsl_wf hwf heqL
        try dsimp only at he
        injection he with he2
        injection he2 with f1 he3
        injection he3 with f2 f3
        subst f1
        subst f2
        subst f3
        have hsr : v >>> 1 = v / 2 := by
          rw [Nat.shiftRight_eq_div_pow]
        have hmp : MAX_PROGRAM = 8192 := rfl
        have hsa : START_ADDR = 8 := rfl
        refine ⟨?_, update_fence_ge _ _ hf, hwf, fun j hj => rfl⟩
        show START_ADDR ≤ (h.pc + v >>> 1) % 65536
        omega
  | builtIn =>
    intro h a t h2 a2 t2 he hn hwf hpc hf
    rw [assemble] at he
    try dsimp only at he
    by_cases hov : h.pc > MAX_PROGRAM
    · rw [if_pos hov] at he
      exact absurd he (by simp)
    · rw [if_neg hov] at he
      split at he
      ·
        injection he with he2
        injection he2 with f1 he3
        injection he3 with f2 f3
        subst f1
        subst f2
        subst f3
        exact ⟨hpc, hf, hwf, fun j hj => rfl⟩
      · split at he
        · exact absurd he (by simp)
        · exact assembleBuiltIns_pres built_in_words h _ t h2 a2 t2 he hwf hpc hf
  | callDefinition id =>
    intro h a t h2 a2 t2 he hn hwf hpc hf
    rw [assemble] at he
    try dsimp only at he
    by_cases hov : h.pc > MAX_PROGRAM
    · rw [if_pos hov] at he
      exact absurd he (by simp)
    · rw [if_neg hov] at he
      split at he
      · exact absurd he (by simp)
      · rename_i s heqL
        split at he
        · try dsimp only at he
          have hg := generate_pres h a (OP_CALL ||| s.value) hpc hf
          injection he with he2
          injection he2 with f1 he3
          injection he3 with f2 f3
          subst f1
          subst f2
          subst f3
          exact ⟨hg.1, hg.2.1, hwf, hg.2.2⟩
        · try dsimp only at he
          have hgl := generate_literal_pres h a s.value hpc hf
          injection he with he2
          injection he2 with f1 he3
          injection he3 with f2 f3
          subst f1
          subst f2
          subst f3
          exact ⟨hgl.1, hgl.2.1, hwf, hgl.2.2⟩
        · try dsimp only at he
          have hgl := generate_literal_pres h a s.value hpc hf
          injection he with he2
          injection he2 with f1 he3
          injection he3 with f2 f3
          subst f1
          subst f2
          subst f3
          exact ⟨hgl.1, hgl.2.1, hwf, hgl.2.2⟩
        · exact absurd he (by simp)

theorem assembleList_pres (ns : NodeList) : ∀ (h : h2_t) (a : assembler_t)
    (t : symbol_table_t) (h2 : h2_t) (a2 : assembler_t) (t2 : symbol_table_t),
    assembleList h a ns t = .ok (h2, a2, t2) → noSetPcList ns = true → tableWF t →
    START_ADDR ≤ h.pc → START_ADDR ≤ a.fence →
    START_ADDR ≤ h2.pc ∧ START_ADDR ≤ a2.fence ∧ tableWF t2 ∧
    ∀ j, j < START_ADDR → h2.core j = h.core j := by
  cases ns with
  | nil =>
    intro h a t h2 a2 t2 he hn hwf hpc hf
    rw [assembleList] at he
    injection he with he2
    injection he2 with f1 he3
    injection he3 with f2 f3
    subst f1
    subst f2
    subst f3
    exact ⟨hpc, hf, hwf, fun j hj => rfl⟩
  | cons n rest =>
    intro h a t h2 a2 t2 he hn hwf hpc hf
    rw [assembleList] at he
    try dsimp only at he
    simp only [noSetPcList, Bool.and_eq_true] at hn
    split at he
    · exact absurd he (by simp)
    · rename_i trip hx ax tx heqR
      have hrec := assemble_pres n h a t hx ax tx heqR hn.1 hwf hpc hf
      have hrest := assembleList_pres rest hx ax tx h2 a2 t2 he hn.2 hrec.2.2.1
        hrec.1 hrec.2.1
      exact ⟨hrest.1, hrest.2.1, hrest.2.2.1, fun j hj =>
        (hrest.2.2.2 j hj).trans (hrec.2.2.2 j hj)⟩

end

/-- C3 (amended): for every well-formed source that parses to a tree
free of .set and .pc directives and assembles successfully, the
produced memory image keeps each of its first START_ADDR cells equal to
OP_BRANCH ORed with START_ADDR; the original claim fails for .set,
which can rewrite that region (see the counterexample). -/
theorem claimC3 (cs : List Nat) (n : Node) (h : h2_t)
    (hp : parseBytes cs = .ok n) (hns : noSetPc n = true)
    (hc : codeGen n = some h) :
    ∀ i, i < START_ADDR → h.core i = OP_BRANCH ||| START_ADDR := by
  unfold codeGen at hc
  try dsimp only at hc
  split at hc
  · exact absurd hc (by simp)
  · rename_i trip hx ax tx heqR
    injection hc with hc2
    subst hc2
    have hpres := assemble_pres n (h2_new START_ADDR) _ ⟨[]⟩ hx ax tx heqR hns
      (fun s hs => absurd hs (List.not_mem_nil s)) (Nat.le_refl _) (Nat.le_refl _)
    intro i hi
    rw [hpres.2.2.2 i hi]
    show (if i < START_ADDR then OP_BRANCH ||| START_ADDR else 0) = _
    rw [if_pos hi]

/-- Witness for C3: the one-literal source 1 parses to a tree without
.set or .pc, assembles, and cell 0 of the image holds the branch to
START_ADDR. -/
theorem claimC3_witness :
    parseBytes srcLit1 = .ok c3wAst ∧ noSetPc c3wAst = true ∧
    codeGen c3wAst = some ((codeGen c3wAst).getD (h2_new START_ADDR)) ∧
    ((codeGen c3wAst).getD (h2_new START_ADDR)).core 0 = OP_BRANCH ||| START_ADDR := by
  refine ⟨by rfl, by rfl, by rfl,
    claimC3 srcLit1 c3wAst _ (by rfl) (by rfl) (by rfl) 0 (by decide)⟩

end H2
